import Mathlib

/-!
# AIni-Pay mobile: token instruction parsing and the chat orchestrator

A shallow embedding of

* `src/src/utils/TokenInstructionParser.js` (`parseInstruction`, `extractAmount`,
  `validateBech32Address`),
* `src/src/services/DeepSeekService.js` (`parseInstruction`, `enhanceParsingWithAI`),
* `src/src/services/ChatbotService.js` (`processMessage`, `reset`),

followed by theorems about them.

Modelling conventions.

* A JavaScript string is a list of Unicode characters (`Str`).  Every regular
  expression of the source only tests ASCII classes, so matching by code point
  and by UTF-16 code unit agree; lone surrogates are not represented.
* Regular expressions are values of `Rx`, interpreted by a backtracking matcher
  `Rx.run` that lists the matches at one position in the priority order of the
  ECMAScript matcher (greedy quantifiers, alternatives from left to right).
* JavaScript numbers are rationals, `NaN` and the two infinities: decimal
  literals and `-`, `max`, `<` are exact, the rounding and the overflow of IEEE
  doubles are not modelled.
* Values of unknown shape (the document of the remote service and everything
  merged with it) are values of `JsVal`.
-/

namespace AIniPay

/-- A JavaScript string, as its list of characters. -/
abbrev Str := List Char

/-! ## Characters -/

/-- The class `\d`, also `[0-9]`. -/
def isDigit (c : Char) : Bool := decide (48 ≤ c.toNat) && decide (c.toNat ≤ 57)

/-- The class `[a-z]`. -/
def isLower (c : Char) : Bool := decide (97 ≤ c.toNat) && decide (c.toNat ≤ 122)

/-- The class `[A-Z]`. -/
def isUpper (c : Char) : Bool := decide (65 ≤ c.toNat) && decide (c.toNat ≤ 90)

/-- The class `[a-z0-9]` of a regular expression without the flag `i`. -/
def isLowerAlnum (c : Char) : Bool := isLower c || isDigit c

/-- The class `[a-z0-9]` under the flag `i` (no flag `u`): canonicalisation maps
a character to its upper case unless that would turn a non-ASCII character into
an ASCII one, so exactly the ASCII letters of both cases and the digits match. -/
def isAlnumI (c : Char) : Bool := isLower c || isUpper c || isDigit c

/-- The class `\w`, that is `[A-Za-z0-9_]`. -/
def isWordChar (c : Char) : Bool := isLower c || isUpper c || isDigit c || c == '_'

/-- The class `\s`: the white space and line terminator code points of ECMAScript. -/
def isSpace (c : Char) : Bool :=
  let n := c.toNat
  (decide (9 ≤ n) && decide (n ≤ 13)) || n == 32 || n == 160 || n == 5760 ||
  (decide (8192 ≤ n) && decide (n ≤ 8202)) || n == 8232 || n == 8233 || n == 8239 ||
  n == 8287 || n == 12288 || n == 65279

/-- Equality of a pattern character and an input character under the flag `i`
(no flag `u`): for the ASCII pattern characters of the source this is equality
up to ASCII letter case. -/
def eqI (p x : Char) : Bool := x.toLower == p.toLower

/-- One character of `String.prototype.toLowerCase`.  Modelled are the
characters whose lower case contains an ASCII letter or a Latin-1 letter: the
ASCII and Latin-1 capitals, U+0130 (lower case `i` followed by U+0307) and the
Kelvin sign U+212A.  Any other character is kept: its lower case is neither
ASCII nor Latin-1, so it takes part in no substring test of the source, whose
needles consist of ASCII letters and of U+00ED. -/
def lowerChar (c : Char) : Str :=
  let n := c.toNat
  if 65 ≤ n ∧ n ≤ 90 then [Char.ofNat (n + 32)]
  else if 192 ≤ n ∧ n ≤ 222 ∧ n ≠ 215 then [Char.ofNat (n + 32)]
  else if n = 304 then ['i', Char.ofNat 775]
  else if n = 8490 then ['k']
  else [c]

/-- The method `String.prototype.toLowerCase`. -/
def toLowerCase : Str → Str
  | [] => []
  | c :: cs => lowerChar c ++ toLowerCase cs

/-- The method `String.prototype.startsWith`. -/
def startsWith : Str → Str → Bool
  | _, [] => true
  | [], _ :: _ => false
  | c :: cs, p :: ps => c == p && startsWith cs ps

/-- The method `String.prototype.includes`. -/
def includes : Str → Str → Bool
  | [], needle => startsWith [] needle
  | c :: cs, needle => startsWith (c :: cs) needle || includes cs needle

/-! ## Regular expressions -/

/-- The values of the capture groups that took part in a match. -/
abbrev Caps := List (Nat × Str)

/-- The regular expressions used by the source.

* `oneOf ci ws`: the alternation `w1|w2|...` of literal words, under the flag
  `i` when `ci` is set; a single literal is `oneOf ci [w]`;
* `cls p lo hi`: a character class with a greedy quantifier `{lo,hi}`
  (`+` is `cls p 1 none`, `*` is `cls p 0 none`);
* `seq`, `alt`: concatenation and alternation;
* `opt`: the greedy quantifier `?`;
* `grp i`: the capture group number `i`;
* `wordB`, `bos`, `eos`: the assertions `\b`, `^` and `$`. -/
inductive Rx where
  | oneOf (ci : Bool) (ws : List Str)
  | cls (p : Char → Bool) (lo : Nat) (hi : Option Nat)
  | seq (a b : Rx)
  | alt (a b : Rx)
  | opt (a : Rx)
  | grp (i : Nat) (a : Rx)
  | wordB
  | bos
  | eos

/-- Does the input start with the literal word, up to case when `ci` is set? -/
def litMatches (ci : Bool) : Str → Str → Bool
  | [], _ => true
  | _ :: _, [] => false
  | p :: ps, x :: xs => (if ci then eqI p x else x == p) && litMatches ci ps xs

/-- The character before the position reached after matching `m`. -/
def prevAfter (prev : Option Char) (m : Str) : Option Char :=
  match m.getLast? with
  | some c => some c
  | none => prev

/-- Is the (possibly absent) character a word character? -/
def isWordAt (c : Option Char) : Bool :=
  match c with
  | some x => isWordChar x
  | none => false

/-- The number of characters a quantified class can take at most. -/
def clsMax (p : Char → Bool) (hi : Option Nat) (s : Str) : Nat :=
  match hi with
  | some h => min (s.takeWhile p).length h
  | none => (s.takeWhile p).length

/-- All matches of a regular expression that start at the current position, in
the order in which the backtracking matcher of ECMAScript tries them.  `prev` is
the character before the position and `s` the rest of the input; a match is
the matched text with the captures made. -/
def Rx.run : Rx → Option Char → Str → List (Str × Caps)
  | .oneOf ci ws, _, s =>
      ws.filterMap fun w => if litMatches ci w s then some (s.take w.length, []) else none
  | .cls p lo hi, _, s =>
      let n := clsMax p hi s
      if n < lo then [] else (List.range (n + 1 - lo)).map fun j => (s.take (n - j), [])
  | .seq a b, prev, s =>
      (a.run prev s).flatMap fun x =>
        (b.run (prevAfter prev x.1) (s.drop x.1.length)).map fun y => (x.1 ++ y.1, x.2 ++ y.2)
  | .alt a b, prev, s => a.run prev s ++ b.run prev s
  | .opt a, prev, s => a.run prev s ++ [([], [])]
  | .grp i a, prev, s => (a.run prev s).map fun x => (x.1, (i, x.1) :: x.2)
  | .wordB, prev, s => if isWordAt prev != isWordAt s.head? then [([], [])] else []
  | .bos, prev, _ => if prev.isNone then [([], [])] else []
  | .eos, _, s => if s.isEmpty then [([], [])] else []

/-- The first match at or after the current position: the matcher is tried at
every position from left to right. -/
def Rx.execFrom (r : Rx) : Option Char → Str → Option (Str × Caps)
  | prev, [] => (r.run prev []).head?
  | prev, c :: cs =>
      match (r.run prev (c :: cs)).head? with
      | some m => some m
      | none => r.execFrom (some c) cs

/-- The method `RegExp.prototype.exec` on a fresh regular expression, which is
also `String.prototype.match` without the flag `g`, and the first element of its
result with the flag `g`. -/
def Rx.exec (r : Rx) (s : Str) : Option (Str × Caps) := r.execFrom none s

/-- The method `RegExp.prototype.test`. -/
def Rx.test (r : Rx) (s : Str) : Bool := (r.exec s).isSome

/-- The value of a capture group, `none` when it did not take part. -/
def capture (c : Caps) (i : Nat) : Option Str := c.lookup i

/-! ## `TokenInstructionParser.js` -/

/-- The chain named in a local parse result. -/
inductive Chain where
  | celestia
  | mocha
  | unknown
  deriving DecidableEq, Repr

/-- The intent named in a local parse result. -/
inductive Intent where
  | send
  | other
  deriving DecidableEq, Repr

/-- The object `amount` of a parse result; `none` is `null`. -/
structure Amount where
  original : Str
  numeric : Option ℚ
  unit : Option Str
  deriving DecidableEq

/-- The object returned by `TokenInstructionParser.parseInstruction`; `none` is
`null`. -/
structure ParseResult where
  raw_text : Str
  address : Str
  address_valid : Bool
  chain : Chain
  amount : Amount
  need_clarification : Bool
  clarifying_questions : List Str
  intent : Intent
  confidence : ℚ
  error : Option Str
  deriving DecidableEq

namespace TokenInstructionParser

/-- The table `this.textToNumberMap` (lines 5-17). -/
def textToNumberMap : List (Str × ℚ) :=
  [("cero".toList, 0), ("zero".toList, 0),
   ("uno".toList, 1), ("una".toList, 1), ("one".toList, 1),
   ("dos".toList, 2), ("two".toList, 2),
   ("tres".toList, 3), ("three".toList, 3),
   ("cuatro".toList, 4), ("four".toList, 4),
   ("cinco".toList, 5), ("five".toList, 5),
   ("seis".toList, 6), ("six".toList, 6),
   ("siete".toList, 7), ("seven".toList, 7),
   ("ocho".toList, 8), ("eight".toList, 8),
   ("nueve".toList, 9), ("nine".toList, 9),
   ("diez".toList, 10), ("ten".toList, 10)]

/-- The list `sendKeywords` (line 40). -/
def sendKeywords : List Str :=
  ["envía".toList, "envia".toList, "manda".toList, "mande".toList, "send".toList,
   "transfer".toList, "transferir".toList, "enviar".toList]

/-- The constant `hasSendIntent` (lines 41-43). -/
def hasSendIntent (rawText : Str) : Bool :=
  sendKeywords.any fun keyword => includes (toLowerCase rawText) (toLowerCase keyword)

/-- The pattern `/(celestia1[a-z0-9]{38,58}|mocha1[a-z0-9]{38,58})/i` (line 54). -/
def fullAddressRx : Rx :=
  .grp 1 (.alt (.seq (.oneOf true ["celestia1".toList]) (.cls isAlnumI 38 (some 58)))
               (.seq (.oneOf true ["mocha1".toList]) (.cls isAlnumI 38 (some 58))))

/-- The pattern `/(celestia1[a-z0-9]{3,}|mocha1[a-z0-9]{3,})/i` (line 67). -/
def partialAddressRx : Rx :=
  .grp 1 (.alt (.seq (.oneOf true ["celestia1".toList]) (.cls isAlnumI 3 none))
               (.seq (.oneOf true ["mocha1".toList]) (.cls isAlnumI 3 none)))

/-- The sub-pattern `\d+(?:\.\d+)?`. -/
def decimalRx : Rx :=
  .seq (.cls isDigit 1 none) (.opt (.seq (.oneOf false [['.']]) (.cls isDigit 1 none)))

/-- The sub-pattern `(tia|mocha|utia|umocha|atom|uatom)` under the flag `i`. -/
def unitRx : Rx :=
  .grp 2 (.oneOf true ["tia".toList, "mocha".toList, "utia".toList, "umocha".toList,
    "atom".toList, "uatom".toList])

/-- The sub-pattern `(uno|una|dos|...|nine|ten)` under the flag `i`. -/
def numberWordRx : Rx :=
  .grp 1 (.oneOf true ["uno".toList, "una".toList, "dos".toList, "tres".toList,
    "cuatro".toList, "cinco".toList, "seis".toList, "siete".toList, "ocho".toList,
    "nueve".toList, "diez".toList, "one".toList, "two".toList, "three".toList,
    "four".toList, "five".toList, "six".toList, "seven".toList, "eight".toList,
    "nine".toList, "ten".toList])

/-- Rule 1, `/(\d+(?:\.\d+)?)\s*(tia|mocha|utia|umocha|atom|uatom)/gi` (line 139). -/
def rule1 : Rx := .seq (.grp 1 decimalRx) (.seq (.cls isSpace 0 none) unitRx)

/-- Rule 2, `/\b(uno|...|ten)\s*(tia|mocha|utia|umocha|atom|uatom)/gi` (line 141). -/
def rule2 : Rx := .seq .wordB (.seq numberWordRx (.seq (.cls isSpace 0 none) unitRx))

/-- Rule 3, `/(\d+(?:\.\d+)?)/g` (line 143). -/
def rule3 : Rx := .grp 1 decimalRx

/-- Rule 4, `/\b(uno|...|ten)\b/gi` (line 145). -/
def rule4 : Rx := .seq .wordB (.seq numberWordRx .wordB)

/-- The array `patterns` (lines 137-146). -/
def patterns : List Rx := [rule1, rule2, rule3, rule4]

/-- The pattern `/(\d+(?:\.\d+)?|\w+)\s*(\w+)?/i` (line 155). -/
def numUnitRx : Rx :=
  .seq (.grp 1 (.alt decimalRx (.cls isWordChar 1 none)))
    (.seq (.cls isSpace 0 none) (.opt (.grp 2 (.cls isWordChar 1 none))))

/-- The value of a string of decimal digits. -/
def digitsValue (ds : Str) : ℕ := ds.foldl (fun acc c => 10 * acc + (c.toNat - 48)) 0

/-- The number denoted by a string of the form `\d+` or `\d+\.\d+`, `none` for
any other string.  This is `Number(s)` and `parseFloat(s)` of the source on the
strings that group 1 of `numUnitRx` captures from a match of one of the four
rules: a capture of the first alternative has this form, and a capture of the
second alternative starts with a letter of a number word, for which `Number`
is `NaN` (the one word `Number` converts, `Infinity`, is no such capture). -/
def decimalValue (s : Str) : Option ℚ :=
  let ip := s.takeWhile isDigit
  if ip.isEmpty then none
  else
    match s.dropWhile isDigit with
    | [] => some (digitsValue ip : ℚ)
    | c :: fs =>
        if c == '.' && !fs.isEmpty && fs.all isDigit then
          some ((digitsValue ip : ℚ) + (digitsValue fs : ℚ) / (10 : ℚ) ^ fs.length)
        else none

/-- The default value of `result` in `extractAmount` (lines 130-134). -/
def emptyAmount : Amount := { original := [], numeric := none, unit := none }

/-- The loop over `patterns` (lines 148-174).  A pattern that matches sets
`original`; when `numUnitRx` matches that text the number and the unit are set
and the loop ends, otherwise the next pattern is tried. -/
def amountLoop (text : Str) : List Rx → Amount → Amount
  | [], result => result
  | pattern :: rest, result =>
      match pattern.exec text with
      | none => amountLoop text rest result
      | some m =>
          let result1 := { result with original := m.1 }
          match numUnitRx.exec m.1 with
          | none => amountLoop text rest result1
          | some numUnitMatch =>
              let numberPart := (capture numUnitMatch.2 1).getD []
              let unitPart := capture numUnitMatch.2 2
              let numeric :=
                match decimalValue numberPart with
                | none =>
                    match textToNumberMap.lookup (toLowerCase numberPart) with
                    | some textNum => some textNum
                    | none => result1.numeric
                | some x => some x
              { original := m.1
                numeric := numeric
                unit := match unitPart with
                  | some u => if u.isEmpty then none else some u
                  | none => none }

/-- Is a value of `amount.unit` falsy (`null` or the empty string)? -/
def unitMissing (u : Option Str) : Bool :=
  match u with
  | none => true
  | some s => s.isEmpty

/-- The method `extractAmount` (lines 129-186). -/
def extractAmount (text : Str) : Amount :=
  let result := amountLoop text patterns emptyAmount
  if result.numeric.isSome && unitMissing result.unit then
    if includes (toLowerCase text) "tia".toList then { result with unit := some "TIA".toList }
    else if includes (toLowerCase text) "mocha".toList then
      { result with unit := some "MOCHA".toList }
    else result
  else result

/-- The pattern `/^celestia1[a-z0-9]+$/` (line 202). -/
def celestiaShapeRx : Rx :=
  .seq .bos (.seq (.oneOf false ["celestia1".toList]) (.seq (.cls isLowerAlnum 1 none) .eos))

/-- The pattern `/^mocha1[a-z0-9]+$/` (line 206). -/
def mochaShapeRx : Rx :=
  .seq .bos (.seq (.oneOf false ["mocha1".toList]) (.seq (.cls isLowerAlnum 1 none) .eos))

/-- The method `validateBech32Address` (lines 188-214) on a string.  No step of
it throws on a string, so the `catch` branch is not reached. -/
def validateBech32Address (address : Str) : Bool :=
  if address.isEmpty then false
  else if !startsWith address "celestia1".toList && !startsWith address "mocha1".toList then false
  else if startsWith address "celestia1".toList then
    decide (address.length ≥ 45) && celestiaShapeRx.test address
  else if startsWith address "mocha1".toList then
    decide (address.length ≥ 40) && mochaShapeRx.test address
  else false

/-- The chain read off the prefix of an address (lines 60-64 and 73-77). -/
def chainOfAddress (address : Str) (chain : Chain) : Chain :=
  if startsWith address "celestia1".toList then .celestia
  else if startsWith address "mocha1".toList then .mocha
  else chain

/-- The question asked for a missing address (line 97). -/
def addressQuestion : Str := "¿A qué dirección quieres enviar?".toList

/-- The question asked for a missing amount (line 100). -/
def amountQuestion : Str := "¿Cuánto quieres enviar?".toList

/-- The question asked for a missing unit (line 103). -/
def unitQuestion : Str := "¿En qué unidad (ej. TIA, MOCHA)?".toList

/-- The diagnostic of a truncated address (line 71). -/
def truncatedError : Str := "Dirección parece estar truncada".toList

/-- The diagnostic of an invalid address (line 117). -/
def invalidFormatError : Str := "Formato de dirección inválido".toList

/-- The initial value of `result` (lines 21-36). -/
def initialResult (rawText : Str) : ParseResult :=
  { raw_text := rawText, address := [], address_valid := false, chain := .unknown,
    amount := emptyAmount, need_clarification := false, clarifying_questions := [],
    intent := .other, confidence := 0.0, error := none }

/-- Lines 53-79: the address, its validity, the chain of its prefix and the
diagnostic of a truncated address. -/
def extractAddress (rawText : Str) (result : ParseResult) : ParseResult :=
  match fullAddressRx.exec rawText with
  | some addressMatch =>
      { result with
        address := addressMatch.1
        address_valid := validateBech32Address addressMatch.1
        chain := chainOfAddress addressMatch.1 result.chain }
  | none =>
      match partialAddressRx.exec rawText with
      | some partialMatch =>
          { result with
            address := partialMatch.1
            address_valid := false
            error := some truncatedError
            chain := chainOfAddress partialMatch.1 result.chain }
      | none => result

/-- Lines 85-92: the chain named in the text when the address gave none. -/
def chainFromText (rawText : Str) (result : ParseResult) : ParseResult :=
  if result.chain = .unknown then
    if includes (toLowerCase rawText) "celestia".toList then { result with chain := .celestia }
    else if includes (toLowerCase rawText) "mocha".toList then { result with chain := .mocha }
    else result
  else result

/-- The array `missingData` (lines 95-104). -/
def missingData (result : ParseResult) : List Str :=
  (if result.address.isEmpty then [addressQuestion] else []) ++
  (if result.amount.numeric.isNone then [amountQuestion] else []) ++
  (if unitMissing result.amount.unit then [unitQuestion] else [])

/-- Lines 106-113: the clarification fields and the confidence of completeness. -/
def clarify (result : ParseResult) : ParseResult :=
  if (missingData result).length > 0 then
    { result with
      need_clarification := true
      clarifying_questions := (missingData result).take 3
      confidence := 0.60 }
  else { result with need_clarification := false, confidence := 0.95 }

/-- Lines 115-119: the diagnostic and the penalty of an address that is not valid. -/
def penalise (result : ParseResult) : ParseResult :=
  if !result.address.isEmpty && !result.address_valid then
    { result with
      error := some invalidFormatError
      confidence := max 0.3 (result.confidence - 0.2) }
  else result

/-- The method `parseInstruction` (lines 20-127) on a string.  No step of the
`try` block throws on a string, so the `catch` branch (lines 121-124) is not
reached. -/
def parseInstruction (rawText : Str) : ParseResult :=
  let result := initialResult rawText
  if !hasSendIntent rawText then { result with intent := .other, confidence := 0.99 }
  else
    let result := { result with intent := .send }
    let result := extractAddress rawText result
    let result := { result with amount := extractAmount rawText }
    let result := chainFromText rawText result
    let result := clarify result
    penalise result

end TokenInstructionParser

/-! ## JavaScript values -/

/-- A JavaScript value as far as the source can tell values apart: the values
of JSON, `undefined` (a property that is absent), `NaN` and the two infinities
(results of `Math.max`).  An object is the list of its own properties in the
order of their definition; a later binding of a key overrides an earlier one.
No value is callable. -/
inductive JsVal where
  | undefined
  | null
  | bool (b : Bool)
  | num (x : ℚ)
  | nan
  | inf (negative : Bool)
  | str (s : Str)
  | arr (items : List JsVal)
  | obj (fields : List (Str × JsVal))

namespace JsVal

/-- The conversion `ToBoolean`. -/
def truthy : JsVal → Bool
  | undefined => false
  | null => false
  | bool b => b
  | num x => decide (x ≠ 0)
  | nan => false
  | inf _ => true
  | str s => !s.isEmpty
  | arr _ => true
  | obj _ => true

/-- Is the value `null` or `undefined`?  Reading a property of such a value
throws a `TypeError`. -/
def isNullish : JsVal → Bool
  | undefined => true
  | null => true
  | _ => false

/-- The test `v === null`. -/
def isNull : JsVal → Bool
  | null => true
  | _ => false

/-- The test `v === s` for a string `s`. -/
def isString (v : JsVal) (s : Str) : Bool :=
  match v with
  | str x => x == s
  | _ => false

/-- The last binding of a key in a list of properties. -/
def lookupLast : List (Str × JsVal) → Str → Option JsVal
  | [], _ => none
  | (k, v) :: rest, key =>
      match lookupLast rest key with
      | some w => some w
      | none => if k == key then some v else none

/-- The own properties that the spread `...v` copies into an object literal.
The index properties of an array or of a string are left out: no code of the
source reads a property with such a name. -/
def ownFields : JsVal → List (Str × JsVal)
  | obj fields => fields
  | _ => []

/-- The property read `v.key` for a value that is neither `null` nor
`undefined`.  The keys read by the source are properties of no prototype, so
the read gives the own property of an object and `undefined` in any other case. -/
def get (v : JsVal) (key : Str) : JsVal :=
  match lookupLast (ownFields v) key with
  | some w => w
  | none => undefined

/-- Does the object have an own property of this name? -/
def hasField (v : JsVal) (key : Str) : Bool := (lookupLast (ownFields v) key).isSome

/-- The expression `v || d`. -/
def orElse (v d : JsVal) : JsVal := if truthy v then v else d

mutual
/-- Does the conversion `ToString` of the value throw a `TypeError`?  An object
is converted by its method `toString`: an own property of that name is no
function and hides `Object.prototype.toString`, and then `valueOf` gives no
primitive either, so the conversion throws; without such a property the result
is `[object Object]`.  An array is converted by `join`, which converts every
element other than `null` and `undefined`. -/
def throwsToString : JsVal → Bool
  | arr items => throwsJoin items
  | obj fields => (lookupLast fields "toString".toList).isSome
  | _ => false
/-- Does `Array.prototype.join` throw on an array of these elements? -/
def throwsJoin : List JsVal → Bool
  | [] => false
  | x :: xs => throwsToString x || throwsJoin xs
end

end JsVal

/-- A JavaScript number: a rational, `NaN`, `Infinity` or `-Infinity`. -/
inductive JsNum where
  | fin (x : ℚ)
  | nan
  | inf (negative : Bool)
  deriving DecidableEq

/-- The number as a JavaScript value. -/
def JsNum.toJs : JsNum → JsVal
  | .fin x => .num x
  | .nan => .nan
  | .inf negative => .inf negative

/-- The text without the white space and line terminators at its two ends. -/
def trimSpace (s : Str) : Str := ((s.dropWhile isSpace).reverse.dropWhile isSpace).reverse

/-- The value of a digit of a numeric literal, for radix up to 16. -/
def digitValue (c : Char) : ℕ :=
  if isDigit c then c.toNat - 48
  else if isLower c then c.toNat - 87
  else c.toNat - 55

/-- Is the character a digit of the radix (2, 8 or 16)? -/
def isRadixDigit (radix : ℕ) (c : Char) : Bool :=
  (isDigit c || (decide (97 ≤ c.toNat) && decide (c.toNat ≤ 102)) ||
    (decide (65 ≤ c.toNat) && decide (c.toNat ≤ 70))) && decide (digitValue c < radix)

/-- The value of a string of digits of the radix. -/
def radixValue (radix : ℕ) (ds : Str) : ℕ := ds.foldl (fun acc c => radix * acc + digitValue c) 0

/-- The value of a `NonDecimalIntegerLiteral` (`0b...`, `0o...`, `0x...`, the
letter in either case), `none` for any other text. -/
def nonDecimalValue : Str → Option ℕ
  | '0' :: x :: ds =>
      let radix : ℕ :=
        if x == 'b' || x == 'B' then 2
        else if x == 'o' || x == 'O' then 8
        else if x == 'x' || x == 'X' then 16
        else 0
      if radix != 0 && !ds.isEmpty && ds.all (isRadixDigit radix) then some (radixValue radix ds)
      else none
  | _ => none

/-- The value of a `StrUnsignedDecimalLiteral` other than `Infinity`: digits with
an optional fraction, or a fraction alone, and an optional exponent; `none` for
any other text. -/
def unsignedDecimalValue (s : Str) : Option ℚ :=
  let ip := s.takeWhile isDigit
  let afterInt := s.dropWhile isDigit
  let fp := match afterInt with
    | '.' :: t => t.takeWhile isDigit
    | _ => []
  let afterFraction := match afterInt with
    | '.' :: t => t.dropWhile isDigit
    | _ => afterInt
  if ip.isEmpty && fp.isEmpty then none
  else
    let mantissa : ℚ :=
      (TokenInstructionParser.digitsValue ip : ℚ) +
        (TokenInstructionParser.digitsValue fp : ℚ) / (10 : ℚ) ^ fp.length
    match afterFraction with
    | [] => some mantissa
    | e :: t =>
        if e == 'e' || e == 'E' then
          let negative := match t with
            | '-' :: _ => true
            | _ => false
          let ds := match t with
            | '+' :: u => u
            | '-' :: u => u
            | _ => t
          if ds.isEmpty || !ds.all isDigit then none
          else if negative then some (mantissa / (10 : ℚ) ^ TokenInstructionParser.digitsValue ds)
          else some (mantissa * (10 : ℚ) ^ TokenInstructionParser.digitsValue ds)
        else none

/-- The conversion `StringToNumber`: white space at the two ends is dropped; the
empty text is 0; a literal with a radix prefix, or an optional sign followed by
`Infinity` or a decimal literal, has its value; any other text is `NaN`. -/
def stringToNumber (s : Str) : JsNum :=
  let t := trimSpace s
  if t.isEmpty then .fin 0
  else
    match nonDecimalValue t with
    | some n => .fin (n : ℚ)
    | none =>
        let negative := match t with
          | '-' :: _ => true
          | _ => false
        let u := match t with
          | '+' :: r => r
          | '-' :: r => r
          | _ => t
        if u == "Infinity".toList then .inf negative
        else
          match unsignedDecimalValue u with
          | some q => .fin (if negative then -q else q)
          | none => .nan

namespace JsVal

mutual
/-- The number denoted by the string form that `join` gives to an element of
an array whose conversion does not throw: the empty text for `null` and
`undefined`; a number is read back from its own string form. -/
def numberOfElement : JsVal → JsNum
  | undefined => .fin 0
  | null => .fin 0
  | bool _ => .nan
  | num x => .fin x
  | nan => .nan
  | inf negative => .inf negative
  | str s => stringToNumber s
  | arr items => numberOfJoin items
  | obj _ => .nan
/-- The number denoted by the result of `join`: the text of two or more
elements contains a comma and denotes no number. -/
def numberOfJoin : List JsVal → JsNum
  | [] => .fin 0
  | [x] => numberOfElement x
  | _ :: _ :: _ => .nan
end

/-- The conversion `ToNumber`, `none` when it throws a `TypeError`.  An array or
an object is first converted to a primitive: `valueOf` gives the value itself,
so the string form is taken (`[object Object]` for an object without an own
property `toString`) and converted by `StringToNumber`. -/
def toNumber : JsVal → Option JsNum
  | undefined => some .nan
  | null => some (.fin 0)
  | bool b => some (.fin (if b then 1 else 0))
  | num x => some (.fin x)
  | nan => some .nan
  | inf negative => some (.inf negative)
  | str s => some (stringToNumber s)
  | arr items => if throwsJoin items then none else some (numberOfJoin items)
  | obj fields => if throwsToString (obj fields) then none else some .nan

/-- The call `Math.max(a, v)` for a number `a`, `none` when the conversion of
`v` to a number throws. -/
def mathMax (a : ℚ) (v : JsVal) : Option JsVal :=
  match toNumber v with
  | none => none
  | some (.fin x) => some (num (max a x))
  | some .nan => some nan
  | some (.inf false) => some (inf false)
  | some (.inf true) => some (num a)

/-- The values that a spread `...v` in an argument list passes on, `none` when
the value is not iterable (a `TypeError`).  A string is iterated by character. -/
def spread : JsVal → Option (List JsVal)
  | arr items => some items
  | str s => some (s.map fun c => str [c])
  | _ => none

end JsVal

/-- The string of a chain in a parse result. -/
def Chain.toStr : Chain → Str
  | .celestia => "celestia".toList
  | .mocha => "mocha".toList
  | .unknown => "unknown".toList

/-- The string of an intent in a parse result. -/
def Intent.toStr : Intent → Str
  | .send => "send".toList
  | .other => "other".toList

/-- A string or `null`. -/
def JsVal.ofOptStr : Option Str → JsVal
  | some s => .str s
  | none => .null

/-- A number or `null`. -/
def JsVal.ofOptNum : Option ℚ → JsVal
  | some x => .num x
  | none => .null

/-- The object `amount` as a JavaScript value. -/
def Amount.toJs (a : Amount) : JsVal :=
  .obj [("original".toList, .str a.original),
        ("numeric".toList, JsVal.ofOptNum a.numeric),
        ("unit".toList, JsVal.ofOptStr a.unit)]

/-- The own properties of a local parse result, in the order of lines 21-36. -/
def ParseResult.fields (r : ParseResult) : List (Str × JsVal) :=
  [("raw_text".toList, .str r.raw_text),
   ("address".toList, .str r.address),
   ("address_valid".toList, .bool r.address_valid),
   ("chain".toList, .str r.chain.toStr),
   ("amount".toList, r.amount.toJs),
   ("need_clarification".toList, .bool r.need_clarification),
   ("clarifying_questions".toList, .arr (r.clarifying_questions.map JsVal.str)),
   ("intent".toList, .str r.intent.toStr),
   ("confidence".toList, .num r.confidence),
   ("error".toList, JsVal.ofOptStr r.error)]

/-- A local parse result as a JavaScript value. -/
def ParseResult.toJs (r : ParseResult) : JsVal := .obj r.fields

/-! ## `DeepSeekService.js` -/

/-- What the remote service does when `DeepSeekService.parseInstruction` is called.

* `noApiKey`: `this.apiKey` is not configured;
* `requestFailed message`: `axios.post` rejects, or the response has no
  `data.choices[0].message.content`; `message` is the text that line 106 puts
  after `API Error: `;
* `invalidJson`: the content of the response is not JSON;
* `document d`: the content of the response is the JSON text of `d`. -/
inductive RemoteOutcome where
  | noApiKey
  | requestFailed (message : Str)
  | invalidJson
  | document (d : JsVal)

namespace DeepSeekService

/-- The documents of lines 79-90 and 96-107, which differ in the question and
in the diagnostic. -/
def failureDocument (userInput question error : Str) : JsVal :=
  .obj [("raw_text".toList, .str userInput),
        ("address".toList, .str []),
        ("address_valid".toList, .bool false),
        ("chain".toList, .str "unknown".toList),
        ("amount".toList, .obj [("original".toList, .str []), ("numeric".toList, .null),
          ("unit".toList, .null)]),
        ("need_clarification".toList, .bool true),
        ("clarifying_questions".toList, .arr [.str question]),
        ("intent".toList, .str "other".toList),
        ("confidence".toList, .num 0.1),
        ("error".toList, .str error)]

/-- The method `parseInstruction` of the service (lines 10-109): `none` when it
throws (line 12), otherwise the value it resolves to. -/
def parseInstruction (userInput : Str) : RemoteOutcome → Option JsVal
  | .noApiKey => none
  | .requestFailed message =>
      some (failureDocument userInput "Error conectando con el servicio AI".toList
        ("API Error: ".toList ++ message))
  | .invalidJson =>
      some (failureDocument userInput "Error al procesar la respuesta del AI".toList
        "Error parsing AI response".toList)
  | .document d => some d

/-- The condition of line 113 under which the remote service is not called. -/
def skipsRemote (localResult : ParseResult) : Bool :=
  decide (localResult.confidence > 0.8) && !localResult.need_clarification

/-- The object `mergedResult` of lines 121-127 after the assignment of line 130,
for the value `confidence` of the call of `Math.max`. -/
def mergedResult (localResult : ParseResult) (originalText : Str) (aiResult : JsVal)
    (confidence : JsVal) : JsVal :=
  .obj (localResult.fields ++
    (if localResult.confidence < 0.7 then aiResult.ownFields else []) ++
    [("raw_text".toList, .str originalText)] ++
    [("confidence".toList, confidence)])

/-- The method `enhanceParsingWithAI` (lines 111-137).  The `catch` of line 133
is reached when `parseInstruction` throws, when `aiResult.confidence` is read
from `null`, and when `Math.max` throws while it converts `aiResult.confidence`
to a number. -/
def enhanceParsingWithAI (localResult : ParseResult) (originalText : Str)
    (remote : RemoteOutcome) : JsVal :=
  if skipsRemote localResult then localResult.toJs
  else
    match parseInstruction originalText remote with
    | none => localResult.toJs
    | some aiResult =>
        if aiResult.isNullish then localResult.toJs
        else
          match JsVal.mathMax localResult.confidence
              ((aiResult.get "confidence".toList).orElse (.num 0)) with
          | none => localResult.toJs
          | some confidence => mergedResult localResult originalText aiResult confidence

end DeepSeekService

/-! ## `ChatbotService.js` -/

/-- The object `transactionData` (lines 85-90). -/
structure TransactionData where
  toAddress : JsVal
  amount : JsVal
  unit : JsVal
  chain : JsVal

/-- The object `this.conversationState` (lines 8-12). -/
structure ConversationState where
  pendingTransaction : Option TransactionData
  lastParseResult : Option JsVal
  awaitingConfirmation : Bool

/-- An element of the array `responses`: a string of the source, a value taken
from `clarifying_questions`, or one of the three template strings of lines
77-79 with the values they interpolate. -/
inductive Line where
  | text (s : Str)
  | value (v : JsVal)
  | cantidad (amount unit : JsVal)
  | destino (shown : Str)
  | red (chain : JsVal)

/-- The object `response` (lines 16-20). -/
structure Response where
  responses : List Line
  transactionReady : Bool
  transactionData : Option TransactionData

namespace ChatbotService

/-- The state set by the constructor (lines 8-12) and by `reset` (lines 126-130). -/
def initialState : ConversationState :=
  { pendingTransaction := none, lastParseResult := none, awaitingConfirmation := false }

/-- The method `reset` (lines 125-131). -/
def reset (_state : ConversationState) : ConversationState := initialState

/-- The lines pushed when the intent is not `send` (lines 39-42). -/
def notSendLines : List Line :=
  [.text "Entiendo que quieres hacer algo, pero no veo una instrucción clara para enviar tokens.".toList,
   .text "Puedes decirme algo como: 'Envía 5 TIA a celestia1abc...' o '¿Podrías mandar 2 mocha a celestia1xyz...?'".toList]

/-- The line that introduces the questions (line 48). -/
def introLine : Line := .text "Necesito más información para procesar tu transacción:".toList

/-- The line that closes the questions (line 51). -/
def closingLine : Line := .text "¿Podrías proporcionar estos datos?".toList

/-- The lines pushed for an address that is not valid (lines 56-60). -/
def invalidAddressLines : List Line :=
  [.text "La dirección que proporcionaste no parece válida.".toList,
   .text "Las direcciones de Celestia deben empezar con 'celestia1' seguido de caracteres alfanuméricos.".toList,
   .text "¿Podrías verificar la dirección?".toList]

/-- The lines pushed by the outer `catch` (lines 97-100). -/
def apologyLines : List Line :=
  [.text "Disculpa, hubo un error procesando tu mensaje.".toList,
   .text "¿Podrías intentar de nuevo con una instrucción más específica?".toList]

/-- A value spread out of `clarifying_questions` as an element of `responses`. -/
def lineOfValue : JsVal → Line
  | .str s => .text s
  | v => .value v

/-- The lines of the confirmation (lines 75-82); `address.substring(0, 20)` is
the first 20 characters. -/
def confirmationLines (amount unit : JsVal) (address : Str) (chain : JsVal) : List Line :=
  [.text "✅ ¡Perfecto! He entendido tu solicitud:".toList,
   .cantidad amount unit,
   .destino (address.take 20),
   .red chain,
   .text [],
   .text "Procediendo a ejecutar la transacción...".toList]

/-- The method `processMessage` (lines 15-104): the response and the state after
the call, for the state before the call, the message and what the remote service
does when it is called.

`enhanceParsingWithAI` never rejects, so the inner `catch` (lines 30-33) is not
reached.  A `TypeError` thrown after line 35 is caught by the outer `catch`,
which appends the apology to what was pushed before.  The arguments of the
`push` of lines 75-82 are evaluated before anything is pushed: the template
strings convert `amount`, `unit` and the chain to strings, and
`address.substring` is a function only when `address` is a string. -/
def processMessage (state : ConversationState) (userMessage : Str) (remote : RemoteOutcome) :
    Response × ConversationState :=
  let localResult := TokenInstructionParser.parseInstruction userMessage
  let parseResult := DeepSeekService.enhanceParsingWithAI localResult userMessage remote
  let state1 := { state with lastParseResult := some parseResult }
  if !(parseResult.get "intent".toList).isString "send".toList then
    ({ responses := notSendLines, transactionReady := false, transactionData := none }, state1)
  else if (parseResult.get "need_clarification".toList).truthy then
    match (parseResult.get "clarifying_questions".toList).spread with
    | some questions =>
        ({ responses := [introLine] ++ questions.map lineOfValue ++ [closingLine],
           transactionReady := false, transactionData := none }, state1)
    | none =>
        ({ responses := [introLine] ++ apologyLines,
           transactionReady := false, transactionData := none }, state1)
  else if !(parseResult.get "address_valid".toList).truthy then
    ({ responses := invalidAddressLines, transactionReady := false, transactionData := none },
      state1)
  else if !(parseResult.get "address".toList).truthy then
    ({ responses := [], transactionReady := false, transactionData := none }, state1)
  else if (parseResult.get "amount".toList).isNullish then
    ({ responses := apologyLines, transactionReady := false, transactionData := none }, state1)
  else if ((parseResult.get "amount".toList).get "numeric".toList).isNull then
    ({ responses := [], transactionReady := false, transactionData := none }, state1)
  else
    let amount := (parseResult.get "amount".toList).get "numeric".toList
    let unit := ((parseResult.get "amount".toList).get "unit".toList).orElse (.str "TIA".toList)
    let chain := (parseResult.get "chain".toList).orElse (.str "celestia".toList)
    if amount.throwsToString || unit.throwsToString then
      ({ responses := apologyLines, transactionReady := false, transactionData := none },
        state1)
    else
      match parseResult.get "address".toList with
      | .str address =>
          if chain.throwsToString then
            ({ responses := apologyLines, transactionReady := false, transactionData := none },
              state1)
          else
            let transactionData : TransactionData :=
              { toAddress := .str address, amount := amount, unit := unit, chain := chain }
            ({ responses := confirmationLines amount unit address chain,
               transactionReady := true, transactionData := some transactionData },
             { state1 with pendingTransaction := some transactionData })
      | _ =>
          ({ responses := apologyLines, transactionReady := false, transactionData := none },
            state1)

end ChatbotService

/-! ## Predicates used in the statements -/

/-- Is the value a string that is not empty? -/
def JsVal.isNonEmptyString : JsVal → Bool
  | .str s => !s.isEmpty
  | _ => false

/-- The condition under which a parse result is complete, in the words of the
specification: the intent is `send`, no clarification is needed, the address is
marked as valid and is a string that is not empty, and there is an `amount`
whose `numeric` is not `null`.  The two flags are read as JavaScript reads them
in a condition (`ToBoolean`). -/
def readyCondition (pr : JsVal) : Bool :=
  (pr.get "intent".toList).isString "send".toList &&
  !(pr.get "need_clarification".toList).truthy &&
  (pr.get "address_valid".toList).truthy &&
  (pr.get "address".toList).isNonEmptyString &&
  !(pr.get "amount".toList).isNullish &&
  !((pr.get "amount".toList).get "numeric".toList).isNull

/-- The transfer intent of a parse result, in the words of the specification:
the address, `amount.numeric`, `amount.unit` or `TIA`, `chain` or `celestia`. -/
def transferIntentOf (pr : JsVal) : TransactionData :=
  { toAddress := pr.get "address".toList
    amount := (pr.get "amount".toList).get "numeric".toList
    unit := ((pr.get "amount".toList).get "unit".toList).orElse (.str "TIA".toList)
    chain := (pr.get "chain".toList).orElse (.str "celestia".toList) }

/-- A text of the form `\d+` or `\d+\.\d+`, split into the integer part and the
fraction with its dot. -/
def IsDecimal (D F : Str) : Prop :=
  D ≠ [] ∧ (∀ c ∈ D, isDigit c = true) ∧
    (F = [] ∨ ∃ F1 : Str, F = '.' :: F1 ∧ F1 ≠ [] ∧ ∀ c ∈ F1, isDigit c = true)

/-- A nonempty text of ASCII letters. -/
def IsLetters (U : Str) : Prop := U ≠ [] ∧ ∀ c ∈ U, isLower c = true ∨ isUpper c = true

/-- Does the text not start with a character of the class? -/
def StopsAt (p : Char → Bool) (B : Str) : Prop := ∀ c ∈ B.head?, p c = false

/-- The number denoted by a decimal: the integer part plus the fraction. -/
def decimalNumber (D F : Str) : ℚ :=
  (TokenInstructionParser.digitsValue D : ℚ) + (TokenInstructionParser.digitsValue F.tail : ℚ) / (10 : ℚ) ^ F.tail.length

/-- The text of the leftmost match of a pattern: `text.match(pattern)[0]`, `none`
when the pattern does not match. -/
def firstMatch (r : Rx) (text : Str) : Option Str := (r.exec text).map Prod.fst

/-- The confidence of completeness of a parse result, in the words of the
specification: 0.60 when the address, `amount.numeric` or `amount.unit` is
missing, 0.95 when none is. -/
def completenessConfidence (r : ParseResult) : ℚ :=
  if r.address = [] ∨ r.amount.numeric = none ∨ r.amount.unit = none then 0.60 else 0.95

/-- The method `validateBech32Address` (lines 188-214) on any value: line 190
rejects a value that is falsy or not a string. -/
def TokenInstructionParser.validateBech32AddressValue : JsVal → Bool
  | .str s => TokenInstructionParser.validateBech32Address s
  | _ => false

/-- The shape of a valid address in the words of the specification: a known
prefix, a minimum total length (45 for `celestia1`, 40 for `mocha1`) and only
lower-case letters and digits after the prefix. -/
def IsValidShape (a : Str) : Prop :=
  (∃ body : Str, a = "celestia1".toList ++ body ∧ 45 ≤ a.length ∧
    ∀ c ∈ body, isLowerAlnum c = true) ∨
  (∃ body : Str, a = "mocha1".toList ++ body ∧ 40 ≤ a.length ∧
    ∀ c ∈ body, isLowerAlnum c = true)

/-- The number words of rules 2 and 4 (lines 141 and 145). -/
def numberWords : List Str :=
  ["uno".toList, "una".toList, "dos".toList, "tres".toList,
    "cuatro".toList, "cinco".toList, "seis".toList, "siete".toList, "ocho".toList,
    "nueve".toList, "diez".toList, "one".toList, "two".toList, "three".toList,
    "four".toList, "five".toList, "six".toList, "seven".toList, "eight".toList,
    "nine".toList, "ten".toList]

/-- The unit tokens of rules 1 and 2 (lines 139 and 141). -/
def unitWords : List Str :=
  ["tia".toList, "mocha".toList, "utia".toList, "umocha".toList, "atom".toList, "uatom".toList]

/-- The text `N` is the lower-case word `w` written in any letter case. -/
def SameWord (w N : Str) : Prop := N.map Char.toLower = w

/-- Is the value a string? -/
def JsVal.isStr : JsVal → Bool
  | .str _ => true
  | _ => false

/-- Does `processMessage` throw when it spreads `clarifying_questions` (line 50)?
That line is reached when the intent is `send` and `need_clarification` is
truthy, and the spread throws when the value is not iterable. -/
def ChatbotService.throwsOnQuestions (pr : JsVal) : Bool :=
  (pr.get "intent".toList).isString "send".toList &&
  (pr.get "need_clarification".toList).truthy &&
  (pr.get "clarifying_questions".toList).spread.isNone

/-- Does `processMessage` throw when it reads `amount.numeric` (line 68)?  That
read is reached when the intent is `send`, `need_clarification` is falsy,
`address_valid` and `address` are truthy, and it throws when `amount` is `null`
or `undefined`. -/
def ChatbotService.throwsOnAmount (pr : JsVal) : Bool :=
  (pr.get "intent".toList).isString "send".toList &&
  !(pr.get "need_clarification".toList).truthy &&
  (pr.get "address_valid".toList).truthy &&
  (pr.get "address".toList).truthy &&
  (pr.get "amount".toList).isNullish

/-- Does `processMessage` throw when it calls `address.substring` (line 78)?
That call is reached when the condition of lines 65-69 holds, and it throws
when `address` is not a string. -/
def ChatbotService.throwsOnAddress (pr : JsVal) : Bool :=
  (pr.get "intent".toList).isString "send".toList &&
  !(pr.get "need_clarification".toList).truthy &&
  (pr.get "address_valid".toList).truthy &&
  (pr.get "address".toList).truthy &&
  !(pr.get "amount".toList).isNullish &&
  !((pr.get "amount".toList).get "numeric".toList).isNull &&
  !(pr.get "address".toList).isStr

/-- Does `processMessage` throw when it converts `amount.numeric`, the unit or
the chain to a string in the template strings of lines 77 and 79?  The values
are those of the transfer intent. -/
def ChatbotService.throwsOnRender (pr : JsVal) : Bool :=
  ((pr.get "amount".toList).get "numeric".toList).throwsToString ||
  (((pr.get "amount".toList).get "unit".toList).orElse (.str "TIA".toList)).throwsToString ||
  ((pr.get "chain".toList).orElse (.str "celestia".toList)).throwsToString

/-- The value is a number between 0 and 1. -/
def InUnitInterval (v : JsVal) : Prop := ∃ q : ℚ, v = .num q ∧ 0 ≤ q ∧ q ≤ 1

/-- The remote service fails, or returns a document whose `confidence` is absent
or a number between 0 and 1. -/
def RemoteConfidenceInRange : RemoteOutcome → Prop
  | .document d =>
      d.hasField "confidence".toList = false ∨ InUnitInterval (d.get "confidence".toList)
  | _ => True

/-- The method `generateHelpResponse` (lines 106-123). -/
def ChatbotService.generateHelpResponse : List Line :=
  [.text "¡Hola! Soy tu asistente para transacciones de Celestia 🚀".toList,
   .text [],
   .text "Puedo ayudarte a enviar tokens TIA usando lenguaje natural.".toList,
   .text [],
   .text "Ejemplos de comandos:".toList,
   .text "• 'Envía 5 TIA a celestia1abc...'".toList,
   .text "• 'Manda 0.1 TIA a celestia1xyz...'".toList,
   .text "• 'Transfiere 2 mocha a celestia1...'".toList,
   .text [],
   .text "Necesito estos datos para procesar tu transacción:".toList,
   .text "🪙 Cantidad y tipo de token (ej: '5 TIA')".toList,
   .text "📍 Dirección de destino (celestia1...)".toList,
   .text [],
   .text "¿En qué te puedo ayudar hoy?".toList]

/-- A slot of a parse result is missing: the address is empty, `amount.numeric`
is `null` or `amount.unit` is `null`. -/
def SlotMissing (r : ParseResult) : Prop :=
  r.address = [] ∨ r.amount.numeric = none ∨ r.amount.unit = none

instance (r : ParseResult) : Decidable (SlotMissing r) := by
  unfold SlotMissing
  exact inferInstance

/-- The address of the enhanced parse result is the one of the local parse: the
remote service is not consulted, no API key is configured, or the local
confidence is not below 0.7. -/
def AddressIsLocal (L : ParseResult) (remote : RemoteOutcome) : Prop :=
  (L.confidence > 0.8 ∧ L.need_clarification = false) ∨ remote = .noApiKey ∨
    ¬ L.confidence < 0.7

/-- The first run of decimal digits of a text: the digits from the leftmost digit
of the text up to the next character that is no digit. -/
def firstDigitRun (text : Str) : Str :=
  (text.dropWhile (fun c => !isDigit c)).takeWhile isDigit

/-- The position of the first match at or after the current position, counted
from the current position; `none` when there is no match. -/
def Rx.indexFrom (r : Rx) : Option Char → Str → Option Nat
  | prev, [] => if (r.run prev []).isEmpty then none else some 0
  | prev, c :: cs =>
      if (r.run prev (c :: cs)).isEmpty then (r.indexFrom (some c) cs).map (· + 1) else some 0

/-- The property `index` of the result of `String.prototype.match`: the position
at which the leftmost match begins. -/
def Rx.index (r : Rx) (s : Str) : Option Nat := r.indexFrom none s

/-! ## Lemmas about strings -/

theorem startsWith_iff (s p : Str) : startsWith s p = true ↔ p <+: s := by
  induction p generalizing s with
  | nil => simp [startsWith]
  | cons a p ih =>
    cases s with
    | nil => simp [startsWith]
    | cons c cs =>
      simp only [startsWith, Bool.and_eq_true, beq_iff_eq, ih, List.cons_prefix_cons]
      constructor
      · rintro ⟨h1, h2⟩; exact ⟨h1.symm, h2⟩
      · rintro ⟨h1, h2⟩; exact ⟨h1.symm, h2⟩

theorem includes_iff (s needle : Str) : includes s needle = true ↔ needle <:+: s := by
  induction s with
  | nil =>
    simp only [includes, startsWith_iff]
    constructor
    · intro h; exact h.isInfix
    · intro h; rw [List.infix_nil] at h; simp [h]
  | cons c cs ih =>
    simp only [includes, Bool.or_eq_true, startsWith_iff, ih, List.infix_cons_iff]

theorem toLower_of_not_upper (c : Char) (h : isUpper c = false) : c.toLower = c := by
  unfold Char.toLower
  simp only [isUpper, Bool.and_eq_false_iff, decide_eq_false_iff_not] at h
  have : ¬ (c.toNat ≥ 65 ∧ c.toNat ≤ 90) := by omega
  simp [this]

/-! ## Lemmas about the matcher -/

theorem take_le_takeWhile_all (p : Char → Bool) (s : Str) (k : Nat)
    (hk : k ≤ (s.takeWhile p).length) : ∀ c ∈ s.take k, p c = true := by
  intro c hc
  obtain ⟨t, ht⟩ := List.takeWhile_prefix p (l := s)
  have h1 : s.take k = (s.takeWhile p).take k := by
    conv_lhs => rw [← ht]
    exact List.take_append_of_le_length hk
  rw [h1] at hc
  exact List.mem_takeWhile_imp (List.mem_of_mem_take hc)

theorem clsMax_le (p : Char → Bool) (hi : Option Nat) (s : Str) :
    clsMax p hi s ≤ (s.takeWhile p).length := by
  cases hi <;> simp [clsMax]

theorem mem_run_cls {p : Char → Bool} {lo : Nat} {hi : Option Nat} {prev : Option Char}
    {s : Str} {y : Str × Caps} :
    y ∈ (Rx.cls p lo hi).run prev s ↔
      ∃ k, lo ≤ k ∧ k ≤ clsMax p hi s ∧ y = (s.take k, []) := by
  simp only [Rx.run]
  split
  · rename_i h
    simp only [List.not_mem_nil, false_iff, not_exists, not_and]
    intro k h1 h2; omega
  · rename_i h
    simp only [List.mem_map, List.mem_range]
    constructor
    · rintro ⟨j, hj, rfl⟩
      exact ⟨clsMax p hi s - j, by omega, by omega, rfl⟩
    · rintro ⟨k, h1, h2, rfl⟩
      exact ⟨clsMax p hi s - k, by omega, by congr 2; omega⟩

theorem mem_run_seq {a b : Rx} {prev : Option Char} {s : Str} {y : Str × Caps} :
    y ∈ (Rx.seq a b).run prev s ↔
      ∃ x ∈ a.run prev s, ∃ z ∈ b.run (prevAfter prev x.1) (s.drop x.1.length),
        y = (x.1 ++ z.1, x.2 ++ z.2) := by
  simp only [Rx.run, List.mem_flatMap, List.mem_map]
  constructor
  · rintro ⟨x, hx, z, hz, rfl⟩; exact ⟨x, hx, z, hz, rfl⟩
  · rintro ⟨x, hx, z, hz, rfl⟩; exact ⟨x, hx, z, hz, rfl⟩

theorem mem_run_alt {a b : Rx} {prev : Option Char} {s : Str} {y : Str × Caps} :
    y ∈ (Rx.alt a b).run prev s ↔ y ∈ a.run prev s ∨ y ∈ b.run prev s := by
  simp [Rx.run]

theorem mem_run_opt {a : Rx} {prev : Option Char} {s : Str} {y : Str × Caps} :
    y ∈ (Rx.opt a).run prev s ↔ y ∈ a.run prev s ∨ y = ([], []) := by
  simp [Rx.run]

theorem mem_run_grp {i : Nat} {a : Rx} {prev : Option Char} {s : Str} {y : Str × Caps} :
    y ∈ (Rx.grp i a).run prev s ↔ ∃ x ∈ a.run prev s, y = (x.1, (i, x.1) :: x.2) := by
  simp only [Rx.run, List.mem_map]
  constructor
  · rintro ⟨x, hx, rfl⟩; exact ⟨x, hx, rfl⟩
  · rintro ⟨x, hx, rfl⟩; exact ⟨x, hx, rfl⟩

theorem mem_run_oneOf {ci : Bool} {ws : List Str} {prev : Option Char} {s : Str}
    {y : Str × Caps} :
    y ∈ (Rx.oneOf ci ws).run prev s ↔
      ∃ w ∈ ws, litMatches ci w s = true ∧ y = (s.take w.length, []) := by
  simp only [Rx.run, List.mem_filterMap]
  constructor
  · rintro ⟨w, hw, h⟩
    split at h
    · rename_i hm; exact ⟨w, hw, hm, by simpa using h.symm⟩
    · simp at h
  · rintro ⟨w, hw, hm, rfl⟩
    exact ⟨w, hw, by simp [hm]⟩

theorem execFrom_eq_some {r : Rx} {prev : Option Char} {s : Str} {x : Str × Caps}
    (h : r.execFrom prev s = some x) : ∃ prev1 s1, (r.run prev1 s1).head? = some x := by
  induction s generalizing prev with
  | nil => exact ⟨prev, [], by simpa [Rx.execFrom] using h⟩
  | cons c cs ih =>
    simp only [Rx.execFrom] at h
    split at h
    · rename_i m hm
      exact ⟨prev, c :: cs, by rw [hm, h]⟩
    · exact ih h

theorem exec_eq_some_mem {r : Rx} {s : Str} {x : Str × Caps} (h : r.exec s = some x) :
    ∃ prev1 s1, x ∈ r.run prev1 s1 := by
  obtain ⟨p, t, ht⟩ := execFrom_eq_some h
  exact ⟨p, t, List.mem_of_mem_head? ht⟩

theorem execFrom_isSome_of_mem {r : Rx} {prev : Option Char} {s : Str} {x : Str × Caps}
    (h : x ∈ r.run prev s) : (r.execFrom prev s).isSome = true := by
  have hne : (r.run prev s).head? ≠ none := by
    intro h0
    rw [List.head?_eq_none_iff] at h0
    rw [h0] at h
    simp at h
  cases s with
  | nil =>
    simp only [Rx.execFrom]
    cases h1 : (r.run prev []).head? with
    | none => exact absurd h1 hne
    | some m => rfl
  | cons c cs =>
    simp only [Rx.execFrom]
    cases h1 : (r.run prev (c :: cs)).head? with
    | none => exact absurd h1 hne
    | some m => rfl

open TokenInstructionParser

theorem toLowerCase_sendKeywords : ∀ k ∈ sendKeywords, toLowerCase k = k := by decide

theorem hasSendIntent_iff (text : Str) :
    hasSendIntent text = true ↔ ∃ k ∈ sendKeywords, k <:+: toLowerCase text := by
  simp only [hasSendIntent, List.any_eq_true, includes_iff]
  constructor
  · rintro ⟨k, hk, h⟩; exact ⟨k, hk, by rwa [toLowerCase_sendKeywords k hk] at h⟩
  · rintro ⟨k, hk, h⟩; exact ⟨k, hk, by rwa [toLowerCase_sendKeywords k hk]⟩

/-! ## The steps of `parseInstruction` field by field -/

@[simp] theorem penalise_intent (r : ParseResult) : (penalise r).intent = r.intent := by
  unfold penalise; split <;> rfl

@[simp] theorem penalise_address (r : ParseResult) : (penalise r).address = r.address := by
  unfold penalise; split <;> rfl

@[simp] theorem penalise_address_valid (r : ParseResult) :
    (penalise r).address_valid = r.address_valid := by
  unfold penalise; split <;> rfl

@[simp] theorem penalise_chain (r : ParseResult) : (penalise r).chain = r.chain := by
  unfold penalise; split <;> rfl

@[simp] theorem penalise_amount (r : ParseResult) : (penalise r).amount = r.amount := by
  unfold penalise; split <;> rfl

@[simp] theorem penalise_need_clarification (r : ParseResult) :
    (penalise r).need_clarification = r.need_clarification := by
  unfold penalise; split <;> rfl

@[simp] theorem penalise_clarifying_questions (r : ParseResult) :
    (penalise r).clarifying_questions = r.clarifying_questions := by
  unfold penalise; split <;> rfl

@[simp] theorem penalise_raw_text (r : ParseResult) : (penalise r).raw_text = r.raw_text := by
  unfold penalise; split <;> rfl

@[simp] theorem clarify_intent (r : ParseResult) : (clarify r).intent = r.intent := by
  unfold clarify; split <;> rfl

@[simp] theorem clarify_address (r : ParseResult) : (clarify r).address = r.address := by
  unfold clarify; split <;> rfl

@[simp] theorem clarify_address_valid (r : ParseResult) :
    (clarify r).address_valid = r.address_valid := by
  unfold clarify; split <;> rfl

@[simp] theorem clarify_chain (r : ParseResult) : (clarify r).chain = r.chain := by
  unfold clarify; split <;> rfl

@[simp] theorem clarify_amount (r : ParseResult) : (clarify r).amount = r.amount := by
  unfold clarify; split <;> rfl

@[simp] theorem clarify_error (r : ParseResult) : (clarify r).error = r.error := by
  unfold clarify; split <;> rfl

@[simp] theorem clarify_raw_text (r : ParseResult) : (clarify r).raw_text = r.raw_text := by
  unfold clarify; split <;> rfl

@[simp] theorem chainFromText_intent (t : Str) (r : ParseResult) :
    (chainFromText t r).intent = r.intent := by
  unfold chainFromText; split_ifs <;> rfl

@[simp] theorem chainFromText_address (t : Str) (r : ParseResult) :
    (chainFromText t r).address = r.address := by
  unfold chainFromText; split_ifs <;> rfl

@[simp] theorem chainFromText_address_valid (t : Str) (r : ParseResult) :
    (chainFromText t r).address_valid = r.address_valid := by
  unfold chainFromText; split_ifs <;> rfl

@[simp] theorem chainFromText_amount (t : Str) (r : ParseResult) :
    (chainFromText t r).amount = r.amount := by
  unfold chainFromText; split_ifs <;> rfl

@[simp] theorem chainFromText_error (t : Str) (r : ParseResult) :
    (chainFromText t r).error = r.error := by
  unfold chainFromText; split_ifs <;> rfl

@[simp] theorem chainFromText_raw_text (t : Str) (r : ParseResult) :
    (chainFromText t r).raw_text = r.raw_text := by
  unfold chainFromText; split_ifs <;> rfl

@[simp] theorem extractAddress_intent (t : Str) (r : ParseResult) :
    (extractAddress t r).intent = r.intent := by
  unfold extractAddress; split
  · rfl
  · split <;> rfl

@[simp] theorem extractAddress_raw_text (t : Str) (r : ParseResult) :
    (extractAddress t r).raw_text = r.raw_text := by
  unfold extractAddress; split
  · rfl
  · split <;> rfl

/-- The result of `parseInstruction` on a text with a send keyword, step by step. -/
theorem parseInstruction_send {text : Str} (h : hasSendIntent text = true) :
    parseInstruction text =
      penalise (clarify (chainFromText text
        { extractAddress text { initialResult text with intent := .send } with
          amount := extractAmount text })) := by
  simp [parseInstruction, h]

/-- The result of `parseInstruction` on a text without a send keyword. -/
theorem parseInstruction_other {text : Str} (h : hasSendIntent text = false) :
    parseInstruction text = { initialResult text with intent := .other, confidence := 0.99 } := by
  simp [parseInstruction, h]

theorem parseInstruction_intent_eq (text : Str) :
    (parseInstruction text).intent = if hasSendIntent text then .send else .other := by
  cases h : hasSendIntent text
  · simp [parseInstruction_other h]
  · simp [parseInstruction_send h]

theorem clarify_need_clarification (r : ParseResult) :
    (clarify r).need_clarification = true ↔
      (r.address = [] ∨ r.amount.numeric = none ∨ unitMissing r.amount.unit = true) := by
  unfold clarify missingData
  by_cases h1 : r.address = [] <;> by_cases h2 : r.amount.numeric = none <;>
    by_cases h3 : unitMissing r.amount.unit = true <;> simp [h1, h2, h3]

theorem clarify_clarifying_questions (r : ParseResult) (h0 : r.clarifying_questions = []) :
    (clarify r).clarifying_questions = missingData r := by
  unfold clarify
  split
  · simp only [missingData]
    by_cases h1 : r.address.isEmpty = true <;> by_cases h2 : r.amount.numeric.isNone = true <;>
      by_cases h3 : unitMissing r.amount.unit = true <;> simp [h1, h2, h3]
  · rename_i h
    simp only [gt_iff_lt, List.length_pos, ne_eq, not_not] at h
    simp [h, h0]

theorem amountLoop_unit_ne (text : Str) (ps : List Rx) (res : Amount)
    (h : res.unit ≠ some []) : (amountLoop text ps res).unit ≠ some [] := by
  induction ps generalizing res with
  | nil => simpa [amountLoop] using h
  | cons p ps ih =>
    simp only [amountLoop]
    split
    · exact ih res h
    · split
      · exact ih _ h
      · rename_i m _ nu _
        cases hc : capture nu.2 2 with
        | none => simp
        | some u =>
          by_cases hu : u.isEmpty = true
          · simp [hu]
          · simp only [hu]
            intro h2
            simp only [Bool.false_eq_true, if_false, Option.some.injEq] at h2
            simp [h2] at hu

theorem extractAmount_unit_ne (text : Str) : (extractAmount text).unit ≠ some [] := by
  have h := amountLoop_unit_ne text patterns emptyAmount (by simp [emptyAmount])
  unfold extractAmount
  simp only
  split_ifs <;> simp [h]

theorem unitMissing_extractAmount (text : Str) :
    unitMissing (extractAmount text).unit = true ↔ (extractAmount text).unit = none := by
  have h := extractAmount_unit_ne text
  cases hu : (extractAmount text).unit with
  | none => simp [unitMissing]
  | some u =>
    rw [hu] at h
    cases u with
    | nil => exact absurd rfl h
    | cons c cs => simp [unitMissing]

theorem extractAddress_clarifying_questions (t : Str) (r : ParseResult) :
    (extractAddress t r).clarifying_questions = r.clarifying_questions := by
  unfold extractAddress; split
  · rfl
  · split <;> rfl

theorem chainFromText_clarifying_questions (t : Str) (r : ParseResult) :
    (chainFromText t r).clarifying_questions = r.clarifying_questions := by
  unfold chainFromText; split_ifs <;> rfl

/-- C2: a text whose lower case contains no send keyword as a substring is
parsed to the default result with intent `other` and confidence 0.99 (no
address, address not valid, chain unknown, empty amount, no clarification, no
question, no error, the text kept as `raw_text`); a text whose lower case
contains a send keyword has intent `send`. -/
theorem parseInstruction_intent (text : Str) :
    ((∀ k ∈ sendKeywords, ¬ k <:+: toLowerCase text) →
      parseInstruction text =
        { raw_text := text, address := [], address_valid := false, chain := .unknown,
          amount := { original := [], numeric := none, unit := none },
          need_clarification := false, clarifying_questions := [], intent := .other,
          confidence := 0.99, error := none }) ∧
    ((∃ k ∈ sendKeywords, k <:+: toLowerCase text) → (parseInstruction text).intent = .send) := by
  constructor
  · intro h
    have h1 : hasSendIntent text = false := by
      rw [← Bool.not_eq_true, hasSendIntent_iff]
      rintro ⟨k, hk, hin⟩
      exact h k hk hin
    simp [parseInstruction_other h1, initialResult, emptyAmount]
  · intro h
    simp [parseInstruction_intent_eq, (hasSendIntent_iff text).2 h]

/-- Witness of C2: `hola 5` has no send keyword, `Send 5` has one. -/
theorem parseInstruction_intent_witness :
    parseInstruction "hola 5".toList =
        { raw_text := "hola 5".toList, address := [], address_valid := false, chain := .unknown,
          amount := { original := [], numeric := none, unit := none },
          need_clarification := false, clarifying_questions := [], intent := .other,
          confidence := 0.99, error := none } ∧
      (parseInstruction "Send 5".toList).intent = .send :=
  ⟨(parseInstruction_intent "hola 5".toList).1 (by decide),
   (parseInstruction_intent "Send 5".toList).2 ⟨"send".toList, by decide, by decide⟩⟩

/-- C4: in a result of `parseInstruction` with intent `send`, `need_clarification`
is set exactly when the address is empty, `amount.numeric` is `null` or
`amount.unit` is `null`, and `clarifying_questions` holds one question for each
of these slots that is missing, in the order address, amount, unit. -/
theorem parseInstruction_clarification (text : Str)
    (h : (parseInstruction text).intent = .send) :
    ((parseInstruction text).need_clarification = true ↔
      ((parseInstruction text).address = [] ∨ (parseInstruction text).amount.numeric = none ∨
        (parseInstruction text).amount.unit = none)) ∧
    (parseInstruction text).clarifying_questions =
      (if (parseInstruction text).address = [] then [addressQuestion] else []) ++
      (if (parseInstruction text).amount.numeric = none then [amountQuestion] else []) ++
      (if (parseInstruction text).amount.unit = none then [unitQuestion] else []) ∧
    (parseInstruction text).clarifying_questions.length ≤ 3 := by
  have hs : hasSendIntent text = true := by
    rw [parseInstruction_intent_eq] at h
    by_contra h0
    simp [h0] at h
  have hq : (parseInstruction text).clarifying_questions =
      (if (parseInstruction text).address = [] then [addressQuestion] else []) ++
      (if (parseInstruction text).amount.numeric = none then [amountQuestion] else []) ++
      (if (parseInstruction text).amount.unit = none then [unitQuestion] else []) := by
    have hm := unitMissing_extractAmount text
    rw [parseInstruction_send hs]
    simp only [penalise_clarifying_questions, penalise_address, penalise_amount,
      clarify_address, clarify_amount, chainFromText_address, chainFromText_amount]
    rw [clarify_clarifying_questions _ (by
      simp [chainFromText_clarifying_questions, extractAddress_clarifying_questions,
        initialResult])]
    simp only [missingData, chainFromText_address, chainFromText_amount, List.isEmpty_iff,
      Option.isNone_iff_eq_none, hm]
  refine ⟨?_, hq, ?_⟩
  · have hm := unitMissing_extractAmount text
    rw [parseInstruction_send hs]
    simp only [penalise_need_clarification, penalise_address, penalise_amount,
      clarify_address, clarify_amount, chainFromText_address, chainFromText_amount,
      clarify_need_clarification, hm]
  · rw [hq]
    split_ifs <;> simp

/-- Witness of C4: `Envía TIA` has no address, no amount and no captured unit,
and the three questions are asked in their order. -/
theorem parseInstruction_clarification_witness :
    (parseInstruction "Envía TIA".toList).need_clarification = true ∧
      (parseInstruction "Envía TIA".toList).clarifying_questions =
        [addressQuestion, amountQuestion, unitQuestion] ∧
      (parseInstruction "Envía TIA".toList).amount = emptyAmount := by
  have h := parseInstruction_clarification "Envía TIA".toList (by decide)
  have ha : (parseInstruction "Envía TIA".toList).address = [] := by decide
  have hn : (parseInstruction "Envía TIA".toList).amount.numeric = none := by decide
  have hu : (parseInstruction "Envía TIA".toList).amount.unit = none := by decide
  refine ⟨h.1.2 (Or.inl ha), ?_, by decide⟩
  rw [h.2.1, ha, hn, hu]
  rfl

/-! ## Literal words -/

theorem litMatches_length {ci : Bool} {w s : Str} (h : litMatches ci w s = true) :
    (s.take w.length).length = w.length := by
  induction w generalizing s with
  | nil => simp
  | cons p ps ih =>
    cases s with
    | nil => simp [litMatches] at h
    | cons x xs =>
      simp only [litMatches, Bool.and_eq_true] at h
      simp [ih h.2]

theorem litMatches_true_eq {w s : Str} (h : litMatches true w s = true)
    (hw : ∀ c ∈ w, isUpper c = false) (hs : ∀ c ∈ s.take w.length, isUpper c = false) :
    s.take w.length = w := by
  induction w generalizing s with
  | nil => simp
  | cons p ps ih =>
    cases s with
    | nil => simp [litMatches] at h
    | cons x xs =>
      simp only [litMatches, Bool.and_eq_true, if_true, eqI, beq_iff_eq] at h
      simp only [List.length_cons, List.take_succ_cons, List.mem_cons, forall_eq_or_imp] at hs hw ⊢
      rw [toLower_of_not_upper x hs.1, toLower_of_not_upper p hw.1] at h
      rw [h.1, ih h.2 hw.2 hs.2]

theorem litMatches_false_eq {w s : Str} (h : litMatches false w s = true) :
    s.take w.length = w := by
  induction w generalizing s with
  | nil => simp
  | cons p ps ih =>
    cases s with
    | nil => simp [litMatches] at h
    | cons x xs =>
      simp only [litMatches, Bool.and_eq_true, Bool.false_eq_true, if_false, beq_iff_eq] at h
      simp [h.1, ih h.2]

theorem litMatches_self (w t : Str) : litMatches false w (w ++ t) = true := by
  induction w with
  | nil => simp [litMatches]
  | cons p ps ih => simp [litMatches, ih]

/-! ## The address patterns -/

/-- The shape of a text matched by `prefix[a-z0-9]{lo,hi}` under the flag `i`. -/
theorem mem_run_prefixed {w : Str} {lo : Nat} {hi : Option Nat} {prev : Option Char} {s : Str}
    {y : Str × Caps} (h : y ∈ (Rx.seq (.oneOf true [w]) (.cls isAlnumI lo hi)).run prev s) :
    ∃ body : Str, y.1 = s.take w.length ++ body ∧ litMatches true w s = true ∧
      lo ≤ body.length ∧ (∀ n, hi = some n → body.length ≤ n) ∧
      ∀ c ∈ body, isAlnumI c = true := by
  rw [mem_run_seq] at h
  obtain ⟨x, hx, z, hz, rfl⟩ := h
  rw [mem_run_oneOf] at hx
  obtain ⟨w1, hw1, hm, rfl⟩ := hx
  simp only [List.mem_singleton] at hw1
  subst hw1
  rw [mem_run_cls] at hz
  obtain ⟨k, hk1, hk2, rfl⟩ := hz
  dsimp only at hk2 ⊢
  have hk3 := clsMax_le isAlnumI hi (s.drop (s.take w1.length).length)
  have hk4 := (List.takeWhile_prefix isAlnumI
    (l := List.drop (s.take w1.length).length s)).length_le
  have hlen : (List.take k (List.drop (s.take w1.length).length s)).length = k := by
    rw [List.length_take]
    omega
  refine ⟨_, rfl, hm, by omega, ?_, take_le_takeWhile_all _ _ _ (by omega)⟩
  intro n hn
  subst hn
  simp only [clsMax] at hk2
  omega

theorem fullAddress_shape {prev : Option Char} {s : Str} {y : Str × Caps}
    (h : y ∈ fullAddressRx.run prev s) :
    ∃ w body : Str, (w = "celestia1".toList ∨ w = "mocha1".toList) ∧
      y.1 = s.take w.length ++ body ∧ litMatches true w s = true ∧
      38 ≤ body.length ∧ body.length ≤ 58 ∧ ∀ c ∈ body, isAlnumI c = true := by
  simp only [fullAddressRx, mem_run_grp, mem_run_alt] at h
  obtain ⟨x, hx, rfl⟩ := h
  rcases hx with hx | hx
  · obtain ⟨body, h1, h2, h3, h4, h5⟩ := mem_run_prefixed hx
    exact ⟨_, body, Or.inl rfl, h1, h2, h3, h4 58 rfl, h5⟩
  · obtain ⟨body, h1, h2, h3, h4, h5⟩ := mem_run_prefixed hx
    exact ⟨_, body, Or.inr rfl, h1, h2, h3, h4 58 rfl, h5⟩

theorem partialAddress_ne_nil {prev : Option Char} {s : Str} {y : Str × Caps}
    (h : y ∈ partialAddressRx.run prev s) : y.1 ≠ [] := by
  simp only [partialAddressRx, mem_run_grp, mem_run_alt] at h
  obtain ⟨x, hx, rfl⟩ := h
  rcases hx with hx | hx <;>
  · obtain ⟨body, h1, h2, -⟩ := mem_run_prefixed hx
    have hl := litMatches_length h2
    intro h0
    simp only [h1] at h0
    have := congrArg List.length h0
    simp only [List.length_append, hl, List.length_nil] at this
    simp [String.toList] at this

/-! ## The shape of the texts matched by the amount rules -/

theorem mem_run_cls_shape {p : Char → Bool} {lo : Nat} {prev : Option Char} {s : Str}
    {y : Str × Caps} (h : y ∈ (Rx.cls p lo none).run prev s) :
    y.2 = [] ∧ lo ≤ y.1.length ∧ (∀ c ∈ y.1, p c = true) ∧ y.1 <+: s := by
  rw [mem_run_cls] at h
  obtain ⟨k, h1, h2, rfl⟩ := h
  simp only [clsMax] at h2
  have h3 := (List.takeWhile_prefix p (l := s)).length_le
  refine ⟨rfl, ?_, take_le_takeWhile_all p s k h2, List.take_prefix _ _⟩
  simp only [List.length_take]
  omega

theorem decimal_shape {prev : Option Char} {s : Str} {y : Str × Caps}
    (h : y ∈ decimalRx.run prev s) : ∃ D F : Str, y = (D ++ F, []) ∧ IsDecimal D F := by
  simp only [decimalRx, mem_run_seq, mem_run_opt] at h
  obtain ⟨x, hx, z, hz, rfl⟩ := h
  obtain ⟨hx2, hx1, hxp, -⟩ := mem_run_cls_shape hx
  have hD : x.1 ≠ [] := by
    intro h0; rw [h0] at hx1; simp at hx1
  rcases hz with hz | hz
  · obtain ⟨d, hd, f, hf, rfl⟩ := hz
    obtain ⟨hf2, hf1, hfp, -⟩ := mem_run_cls_shape hf
    rw [mem_run_oneOf] at hd
    obtain ⟨w, hw, hm, rfl⟩ := hd
    simp only [List.mem_singleton] at hw
    subst hw
    have hdot := litMatches_false_eq hm
    refine ⟨x.1, '.' :: f.1, ?_, hD, hxp, Or.inr ⟨f.1, rfl, ?_, hfp⟩⟩
    · simp only [hx2, hf2, List.append_nil]
      rw [hdot]
      rfl
    · intro h0; rw [h0] at hf1; simp at hf1
  · subst hz
    exact ⟨x.1, [], by simp [hx2], hD, hxp, Or.inl rfl⟩

theorem eqI_letter {p x : Char} (h : eqI p x = true) (hp : isLower p = true) :
    isLower x = true ∨ isUpper x = true := by
  by_cases hu : isUpper x = true
  · exact Or.inr hu
  · left
    simp only [Bool.not_eq_true] at hu
    have hpu : isUpper p = false := by
      simp only [isLower, isUpper, Bool.and_eq_true, decide_eq_true_eq, Bool.and_eq_false_iff,
        decide_eq_false_iff_not] at hp ⊢
      omega
    simp only [eqI, beq_iff_eq] at h
    rw [toLower_of_not_upper x hu, toLower_of_not_upper p hpu] at h
    rw [h]; exact hp

theorem litMatches_letters {w s : Str} (h : litMatches true w s = true)
    (hw : ∀ p ∈ w, isLower p = true) :
    ∀ c ∈ s.take w.length, isLower c = true ∨ isUpper c = true := by
  induction w generalizing s with
  | nil => simp
  | cons p ps ih =>
    cases s with
    | nil => simp [litMatches] at h
    | cons x xs =>
      simp only [litMatches, Bool.and_eq_true, if_true] at h
      simp only [List.length_cons, List.take_succ_cons, List.mem_cons, forall_eq_or_imp] at hw ⊢
      exact ⟨eqI_letter h.1 hw.1, ih h.2 hw.2⟩

theorem mem_run_words {ws : List Str} {prev : Option Char} {s : Str} {y : Str × Caps}
    (hws : ∀ w ∈ ws, w ≠ [] ∧ ∀ p ∈ w, isLower p = true)
    (h : y ∈ (Rx.oneOf true ws).run prev s) : y.2 = [] ∧ IsLetters y.1 := by
  rw [mem_run_oneOf] at h
  obtain ⟨w, hw, hm, rfl⟩ := h
  refine ⟨rfl, ?_, litMatches_letters hm (hws w hw).2⟩
  intro h0
  have h1 := litMatches_length hm
  dsimp only at h0
  rw [h0] at h1
  exact (hws w hw).1 (List.length_eq_zero.1 h1.symm)

theorem unit_shape {prev : Option Char} {s : Str} {y : Str × Caps}
    (h : y ∈ unitRx.run prev s) : IsLetters y.1 := by
  simp only [unitRx, mem_run_grp] at h
  obtain ⟨x, hx, rfl⟩ := h
  exact (mem_run_words (by decide) hx).2

theorem numberWord_shape {prev : Option Char} {s : Str} {y : Str × Caps}
    (h : y ∈ numberWordRx.run prev s) : IsLetters y.1 := by
  simp only [numberWordRx, mem_run_grp] at h
  obtain ⟨x, hx, rfl⟩ := h
  exact (mem_run_words (by decide) hx).2

theorem rule1_shape {prev : Option Char} {s : Str} {y : Str × Caps}
    (h : y ∈ rule1.run prev s) :
    ∃ D F W U : Str, y.1 = D ++ F ++ W ++ U ∧ IsDecimal D F ∧
      (∀ c ∈ W, isSpace c = true) ∧ IsLetters U := by
  simp only [rule1, mem_run_seq, mem_run_grp] at h
  obtain ⟨x, ⟨d, hd, rfl⟩, z, ⟨w, hw, u, hu, rfl⟩, rfl⟩ := h
  obtain ⟨D, F, rfl, hDF⟩ := decimal_shape hd
  obtain ⟨-, -, hwp, -⟩ := mem_run_cls_shape hw
  exact ⟨D, F, w.1, u.1, by simp, hDF, hwp, unit_shape hu⟩

/-! ## The first match at a position -/

theorem head?_run_seq {a b : Rx} {prev : Option Char} {s : Str} {x z : Str × Caps}
    (hx : (a.run prev s).head? = some x)
    (hz : (b.run (prevAfter prev x.1) (s.drop x.1.length)).head? = some z) :
    ((Rx.seq a b).run prev s).head? = some (x.1 ++ z.1, x.2 ++ z.2) := by
  simp only [Rx.run]
  cases ha : a.run prev s with
  | nil => simp [ha] at hx
  | cons x1 xs =>
    simp only [ha, List.head?_cons, Option.some.injEq] at hx
    subst hx
    cases hb : b.run (prevAfter prev x1.1) (s.drop x1.1.length) with
    | nil => simp [hb] at hz
    | cons z1 zs =>
      simp only [hb, List.head?_cons, Option.some.injEq] at hz
      subst hz
      simp [hb]

theorem head?_run_alt_left {a b : Rx} {prev : Option Char} {s : Str} {x : Str × Caps}
    (hx : (a.run prev s).head? = some x) : ((Rx.alt a b).run prev s).head? = some x := by
  simp only [Rx.run]
  cases ha : a.run prev s with
  | nil => simp [ha] at hx
  | cons x1 xs => simpa [ha] using hx

theorem head?_run_opt_some {a : Rx} {prev : Option Char} {s : Str} {x : Str × Caps}
    (hx : (a.run prev s).head? = some x) : ((Rx.opt a).run prev s).head? = some x := by
  simp only [Rx.run]
  cases ha : a.run prev s with
  | nil => simp [ha] at hx
  | cons x1 xs => simpa [ha] using hx

theorem head?_run_opt_none {a : Rx} {prev : Option Char} {s : Str}
    (hx : a.run prev s = []) : ((Rx.opt a).run prev s).head? = some ([], []) := by
  simp [Rx.run, hx]

theorem head?_run_grp {i : Nat} {a : Rx} {prev : Option Char} {s : Str} {x : Str × Caps}
    (hx : (a.run prev s).head? = some x) :
    ((Rx.grp i a).run prev s).head? = some (x.1, (i, x.1) :: x.2) := by
  simp only [Rx.run]
  cases ha : a.run prev s with
  | nil => simp [ha] at hx
  | cons x1 xs =>
    simp only [ha, List.head?_cons, Option.some.injEq] at hx
    subst hx
    simp

theorem takeWhile_append_stop {p : Char → Bool} {A B : Str} (hA : ∀ c ∈ A, p c = true)
    (hB : StopsAt p B) : (A ++ B).takeWhile p = A := by
  induction A with
  | nil =>
    cases B with
    | nil => rfl
    | cons b bs =>
      have := hB b (by simp)
      simp [List.takeWhile, this]
  | cons a as ih =>
    simp only [List.mem_cons, forall_eq_or_imp] at hA
    simp [List.takeWhile, hA.1, ih hA.2]

theorem head?_run_cls {p : Char → Bool} {lo : Nat} {prev : Option Char} {A B : Str}
    (hA : ∀ c ∈ A, p c = true) (hB : StopsAt p B) (hlo : lo ≤ A.length) :
    ((Rx.cls p lo none).run prev (A ++ B)).head? = some (A, []) := by
  simp only [Rx.run, clsMax, takeWhile_append_stop hA hB]
  have h1 : ¬ A.length < lo := by omega
  simp only [h1, if_false]
  have h2 : A.length + 1 - lo = (A.length - lo) + 1 := by omega
  rw [h2, List.range_succ_eq_map]
  simp

theorem run_lit_eq_nil {c : Char} {prev : Option Char} {s : Str} (h : ∀ x ∈ s.head?, x ≠ c) :
    (Rx.oneOf false [[c]]).run prev s = [] := by
  cases s with
  | nil => simp [Rx.run, litMatches]
  | cons x xs =>
    have := h x (by simp)
    simp [Rx.run, litMatches, this]

theorem run_seq_eq_nil {a b : Rx} {prev : Option Char} {s : Str} (h : a.run prev s = []) :
    (Rx.seq a b).run prev s = [] := by
  simp [Rx.run, h]

/-! ## `numUnitRx` on a number followed by a unit -/

theorem head?_run_dot {prev : Option Char} {t : Str} :
    ((Rx.oneOf false [['.']]).run prev ('.' :: t)).head? = some (['.'], []) := by
  simp [Rx.run, litMatches]

theorem digit_ne_dot {c : Char} (h : isDigit c = true) : c ≠ '.' := by
  rintro rfl
  revert h
  decide

theorem head?_run_decimal {prev : Option Char} {D F R : Str} (h : IsDecimal D F)
    (hR1 : StopsAt isDigit R) (hR2 : ∀ x ∈ R.head?, x ≠ '.') :
    (decimalRx.run prev (D ++ F ++ R)).head? = some (D ++ F, []) := by
  obtain ⟨hD, hDp, hF⟩ := h
  have hlen : 1 ≤ D.length := by
    cases D with
    | nil => exact absurd rfl hD
    | cons d ds => simp
  rw [List.append_assoc]
  rcases hF with rfl | ⟨F1, rfl, hF1, hF1p⟩
  · have h1 : ((Rx.cls isDigit 1 none).run prev (D ++ ([] ++ R))).head? = some (D, []) :=
      head?_run_cls hDp (by simpa using hR1) hlen
    have h2 := head?_run_seq (b := .opt (.seq (.oneOf false [['.']]) (.cls isDigit 1 none))) h1
      (z := ([], [])) (by
        apply head?_run_opt_none
        apply run_seq_eq_nil
        apply run_lit_eq_nil
        simpa using hR2)
    simpa [decimalRx] using h2
  · have hlen1 : 1 ≤ F1.length := by
      cases F1 with
      | nil => exact absurd rfl hF1
      | cons d ds => simp
    have h1 : ((Rx.cls isDigit 1 none).run prev (D ++ ('.' :: F1 ++ R))).head? = some (D, []) :=
      head?_run_cls hDp (by intro c hc; simp at hc; subst hc; decide) hlen
    have h3 : ((Rx.cls isDigit 1 none).run (prevAfter (prevAfter prev D) ['.'])
        (F1 ++ R)).head? = some (F1, []) := head?_run_cls hF1p hR1 hlen1
    have h2 := head?_run_seq (b := .opt (.seq (.oneOf false [['.']]) (.cls isDigit 1 none))) h1
      (z := ('.' :: F1, [])) (by
        apply head?_run_opt_some
        simp only [List.drop_left, List.cons_append]
        have := @head?_run_seq (.oneOf false [['.']]) (.cls isDigit 1 none)
          (prevAfter prev D) ('.' :: (F1 ++ R)) _ (F1, []) head?_run_dot
          (by simpa using h3)
        simpa using this)
    simpa [decimalRx] using h2

theorem letter_props {c : Char} (h : isLower c = true ∨ isUpper c = true) :
    isWordChar c = true ∧ isDigit c = false ∧ isSpace c = false ∧ c ≠ '.' := by
  refine ⟨by rcases h with h | h <;> simp [isWordChar, h], ?_, ?_, ?_⟩
  · simp only [isLower, isUpper, isDigit, Bool.and_eq_true, decide_eq_true_eq,
      Bool.and_eq_false_iff, decide_eq_false_iff_not] at h ⊢
    omega
  · simp only [isLower, isUpper, isSpace, Bool.and_eq_true, decide_eq_true_eq, Bool.or_eq_false_iff,
      Bool.and_eq_false_iff, decide_eq_false_iff_not, beq_eq_false_iff_ne, ne_eq] at h ⊢
    omega
  · rintro rfl
    revert h
    decide

theorem space_props {c : Char} (h : isSpace c = true) : isDigit c = false ∧ c ≠ '.' := by
  constructor
  · simp only [isSpace, isDigit, Bool.and_eq_true, decide_eq_true_eq, Bool.or_eq_true,
      Bool.and_eq_false_iff, decide_eq_false_iff_not, beq_iff_eq] at h ⊢
    omega
  · rintro rfl
    revert h
    decide

theorem exec_of_head? {r : Rx} {s : Str} {x : Str × Caps}
    (h : (r.run none s).head? = some x) : r.exec s = some x := by
  cases s with
  | nil => simpa [Rx.exec, Rx.execFrom] using h
  | cons c cs => simp [Rx.exec, Rx.execFrom, h]

theorem head?_run_numUnit_unit {prev : Option Char} {D F W U : Str} (h : IsDecimal D F)
    (hW : ∀ c ∈ W, isSpace c = true) (hU : IsLetters U) :
    (numUnitRx.run prev (D ++ F ++ W ++ U)).head? =
      some (D ++ F ++ W ++ U, [(1, D ++ F), (2, U)]) := by
  have hUlen : 1 ≤ U.length := by
    cases U with
    | nil => exact absurd rfl hU.1
    | cons d ds => simp
  have hstop : ∀ c ∈ (W ++ U).head?, isDigit c = false ∧ c ≠ '.' := by
    intro c hc
    cases W with
    | nil =>
      have : c ∈ U := List.mem_of_mem_head? (by simpa using hc)
      exact ⟨(letter_props (hU.2 c this)).2.1, (letter_props (hU.2 c this)).2.2.2⟩
    | cons w ws =>
      simp only [List.cons_append, List.head?_cons, Option.mem_def, Option.some.injEq] at hc
      subst hc
      exact space_props (hW _ (by simp))
  have h1 : (decimalRx.run prev (D ++ F ++ (W ++ U))).head? = some (D ++ F, []) :=
    head?_run_decimal h (fun c hc => (hstop c hc).1) (fun c hc => (hstop c hc).2)
  have h2 := head?_run_grp (i := 1) (head?_run_alt_left (b := .cls isWordChar 1 none) h1)
  have h3 : ((Rx.cls isSpace 0 none).run (prevAfter prev (D ++ F)) (W ++ U)).head? =
      some (W, []) :=
    head?_run_cls hW (fun c hc => (letter_props (hU.2 c (List.mem_of_mem_head? hc))).2.2.1)
      (Nat.zero_le _)
  have h4 : ((Rx.cls isWordChar 1 none).run (prevAfter (prevAfter prev (D ++ F)) W)
      (U ++ [])).head? = some (U, []) :=
    head?_run_cls (fun c hc => (letter_props (hU.2 c hc)).1) (by intro c hc; simp at hc) hUlen
  have h5 := head?_run_opt_some (head?_run_grp (i := 2) h4)
  rw [List.append_nil] at h5
  have h6 := head?_run_seq (b := .opt (.grp 2 (.cls isWordChar 1 none))) h3
    (by simpa using h5)
  have h7 := head?_run_seq
    (b := .seq (.cls isSpace 0 none) (.opt (.grp 2 (.cls isWordChar 1 none)))) h2
    (by simpa using h6)
  simpa [numUnitRx, List.append_assoc] using h7

theorem head?_run_numUnit_bare {prev : Option Char} {D F : Str} (h : IsDecimal D F) :
    (numUnitRx.run prev (D ++ F)).head? = some (D ++ F, [(1, D ++ F)]) := by
  have h1 : (decimalRx.run prev (D ++ F ++ [])).head? = some (D ++ F, []) :=
    head?_run_decimal h (by intro c hc; simp at hc) (by intro c hc; simp at hc)
  have h2 := head?_run_grp (i := 1) (head?_run_alt_left (b := .cls isWordChar 1 none) h1)
  have h3 : ((Rx.cls isSpace 0 none).run (prevAfter prev (D ++ F)) ([] ++ [])).head? =
      some ([], []) :=
    head?_run_cls (by simp) (by intro c hc; simp at hc) (Nat.zero_le _)
  have h5 : ((Rx.opt (.grp 2 (.cls isWordChar 1 none))).run
      (prevAfter (prevAfter prev (D ++ F)) []) []).head? = some ([], []) :=
    head?_run_opt_none (by simp [Rx.run, clsMax])
  have h6 := head?_run_seq (b := .opt (.grp 2 (.cls isWordChar 1 none))) h3
    (by simpa using h5)
  have h7 := head?_run_seq
    (b := .seq (.cls isSpace 0 none) (.opt (.grp 2 (.cls isWordChar 1 none)))) h2
    (by simpa using h6)
  simpa [numUnitRx, List.append_assoc] using h7

theorem dropWhile_append_stop {p : Char → Bool} {A B : Str} (hA : ∀ c ∈ A, p c = true)
    (hB : StopsAt p B) : (A ++ B).dropWhile p = B := by
  induction A with
  | nil =>
    cases B with
    | nil => rfl
    | cons b bs =>
      have := hB b (by simp)
      simp [List.dropWhile, this]
  | cons a as ih =>
    simp only [List.mem_cons, forall_eq_or_imp] at hA
    simp [List.dropWhile, hA.1, ih hA.2]

theorem decimalValue_decimal {D F : Str} (h : IsDecimal D F) :
    decimalValue (D ++ F) = some (decimalNumber D F) := by
  obtain ⟨hD, hDp, hF⟩ := h
  have hDe : D.isEmpty = false := by
    cases D with
    | nil => exact absurd rfl hD
    | cons d ds => rfl
  rcases hF with rfl | ⟨F1, rfl, hF1, hF1p⟩
  · have h1 : (D ++ []).takeWhile isDigit = D :=
      takeWhile_append_stop hDp (by intro c hc; simp at hc)
    have h2 : (D ++ []).dropWhile isDigit = [] :=
      dropWhile_append_stop hDp (by intro c hc; simp at hc)
    simp only [decimalValue, h1, h2, hDe]
    simp [decimalNumber, digitsValue]
  · have hs : StopsAt isDigit ('.' :: F1) := by
      intro c hc; simp at hc; subst hc; decide
    have h1 : (D ++ '.' :: F1).takeWhile isDigit = D := takeWhile_append_stop hDp hs
    have h2 : (D ++ '.' :: F1).dropWhile isDigit = '.' :: F1 := dropWhile_append_stop hDp hs
    have hF1e : F1.isEmpty = false := by
      cases F1 with
      | nil => exact absurd rfl hF1
      | cons d ds => rfl
    have hall : F1.all isDigit = true := by simpa [List.all_eq_true] using hF1p
    simp only [decimalValue, h1, h2, hDe]
    simp [decimalNumber, hF1e, hall]

/-! ## `extractAmount` rule by rule -/

theorem isSome_exec_numUnit {c : Char} {cs : Str} (h : isWordChar c = true) :
    (numUnitRx.exec (c :: cs)).isSome = true := by
  have h1 : 1 ≤ clsMax isWordChar none (c :: cs) := by
    simp [clsMax, List.takeWhile, h]
  have hw : ((c :: cs).take (clsMax isWordChar none (c :: cs)), ([] : Caps)) ∈
      (Rx.cls isWordChar 1 none).run none (c :: cs) :=
    mem_run_cls.2 ⟨_, h1, le_refl _, rfl⟩
  apply execFrom_isSome_of_mem (x := (_, _))
  simp only [numUnitRx]
  refine mem_run_seq.2 ⟨_, mem_run_grp.2 ⟨_, mem_run_alt.2 (Or.inr hw), rfl⟩, _,
    mem_run_seq.2 ⟨_, mem_run_cls.2 ⟨0, le_refl _, Nat.zero_le _, rfl⟩, _,
      mem_run_opt.2 (Or.inr rfl), rfl⟩, rfl⟩

theorem decimal_head {D F : Str} (h : IsDecimal D F) :
    ∃ c cs, D ++ F = c :: cs ∧ isWordChar c = true := by
  obtain ⟨hD, hDp, -⟩ := h
  cases D with
  | nil => exact absurd rfl hD
  | cons d ds => exact ⟨d, ds ++ F, rfl, by simp [isWordChar, hDp d (by simp)]⟩

theorem letters_head {U : Str} (T : Str) (h : IsLetters U) :
    ∃ c cs, U ++ T = c :: cs ∧ isWordChar c = true := by
  obtain ⟨hU, hUp⟩ := h
  cases U with
  | nil => exact absurd rfl hU
  | cons d ds => exact ⟨d, ds ++ T, rfl, (letter_props (hUp d (by simp))).1⟩

theorem mem_run_wordB {prev : Option Char} {s : Str} {y : Str × Caps}
    (h : y ∈ Rx.wordB.run prev s) : y = ([], []) := by
  simp only [Rx.run] at h
  split at h <;> simp at h
  exact h

/-- A text matched by one of the four rules starts with a word character. -/
theorem rule_match_head {r : Rx} (hr : r ∈ patterns) {prev : Option Char} {s : Str}
    {y : Str × Caps} (h : y ∈ r.run prev s) : ∃ c cs, y.1 = c :: cs ∧ isWordChar c = true := by
  simp only [patterns, List.mem_cons, List.mem_singleton, List.not_mem_nil, or_false] at hr
  rcases hr with rfl | rfl | rfl | rfl
  · obtain ⟨D, F, W, U, h1, hDF, -, -⟩ := rule1_shape h
    obtain ⟨c, cs, h2, h3⟩ := decimal_head hDF
    exact ⟨c, cs ++ W ++ U, by rw [h1, h2]; simp, h3⟩
  · simp only [rule2, mem_run_seq] at h
    obtain ⟨b, hb, z, ⟨n, hn, t, -, rfl⟩, rfl⟩ := h
    rw [mem_run_wordB hb]
    obtain ⟨c, cs, h2, h3⟩ := letters_head t.1 (numberWord_shape hn)
    exact ⟨c, cs, by simpa using h2, h3⟩
  · simp only [rule3, mem_run_grp] at h
    obtain ⟨x, hx, rfl⟩ := h
    obtain ⟨D, F, rfl, hDF⟩ := decimal_shape hx
    exact decimal_head hDF
  · simp only [rule4, mem_run_seq] at h
    obtain ⟨b, hb, z, ⟨n, hn, t, -, rfl⟩, rfl⟩ := h
    rw [mem_run_wordB hb]
    obtain ⟨c, cs, h2, h3⟩ := letters_head t.1 (numberWord_shape hn)
    exact ⟨c, cs, by simpa using h2, h3⟩

/-- On the first match of any of the four rules `numUnitRx` matches, so the loop
of `extractAmount` ends at the first rule that matches. -/
theorem isSome_exec_numUnit_of_rule {r : Rx} (hr : r ∈ patterns) {text : Str} {m : Str × Caps}
    (h : r.exec text = some m) : (numUnitRx.exec m.1).isSome = true := by
  obtain ⟨prev, s, hm⟩ := exec_eq_some_mem h
  obtain ⟨c, cs, h1, h2⟩ := rule_match_head hr hm
  rw [h1]
  exact isSome_exec_numUnit h2

theorem amountLoop_original_of_match {text : Str} {r : Rx} (hr : r ∈ patterns) (rest : List Rx)
    (res : Amount) {m : Str × Caps} (h : r.exec text = some m) :
    (amountLoop text (r :: rest) res).original = m.1 := by
  have h1 := isSome_exec_numUnit_of_rule hr h
  simp only [amountLoop, h]
  cases h2 : numUnitRx.exec m.1 with
  | none => simp [h2] at h1
  | some nu => rfl

theorem amountLoop_of_no_match {text : Str} {r : Rx} (rest : List Rx) (res : Amount)
    (h : r.exec text = none) : amountLoop text (r :: rest) res = amountLoop text rest res := by
  simp [amountLoop, h]

theorem extractAmount_original (text : Str) :
    (extractAmount text).original = (amountLoop text patterns emptyAmount).original := by
  unfold extractAmount
  simp only
  split_ifs <;> rfl

theorem firstMatch_eq_some {r : Rx} {text m : Str} (h : firstMatch r text = some m) :
    ∃ x, r.exec text = some x ∧ x.1 = m := by
  simpa [firstMatch] using h

theorem firstMatch_eq_none {r : Rx} {text : Str} (h : firstMatch r text = none) :
    r.exec text = none := by
  simpa [firstMatch] using h

/-- C10: `extractAmount` tries rule 1 (number and unit), rule 2 (number word and
unit), rule 3 (bare number) and rule 4 (bare number word) in this order, and
`amount.original` is the leftmost match of the first of them that matches the
text, wherever the later rules match; when no rule matches the amount is
`{original: "", numeric: null, unit: null}`. -/
theorem extractAmount_rule_order (text : Str) :
    (∀ m, firstMatch rule1 text = some m → (extractAmount text).original = m) ∧
    (∀ m, firstMatch rule1 text = none → firstMatch rule2 text = some m →
      (extractAmount text).original = m) ∧
    (∀ m, firstMatch rule1 text = none → firstMatch rule2 text = none →
      firstMatch rule3 text = some m → (extractAmount text).original = m) ∧
    (∀ m, firstMatch rule1 text = none → firstMatch rule2 text = none →
      firstMatch rule3 text = none → firstMatch rule4 text = some m →
      (extractAmount text).original = m) ∧
    (firstMatch rule1 text = none → firstMatch rule2 text = none →
      firstMatch rule3 text = none → firstMatch rule4 text = none →
      extractAmount text = { original := [], numeric := none, unit := none }) := by
  refine ⟨?_, ?_, ?_, ?_, ?_⟩
  · intro m h1
    obtain ⟨x, hx, rfl⟩ := firstMatch_eq_some h1
    rw [extractAmount_original]
    exact amountLoop_original_of_match (by simp [patterns]) _ _ hx
  · intro m h1 h2
    obtain ⟨x, hx, rfl⟩ := firstMatch_eq_some h2
    rw [extractAmount_original, patterns, amountLoop_of_no_match _ _ (firstMatch_eq_none h1)]
    exact amountLoop_original_of_match (by simp [patterns]) _ _ hx
  · intro m h1 h2 h3
    obtain ⟨x, hx, rfl⟩ := firstMatch_eq_some h3
    rw [extractAmount_original, patterns, amountLoop_of_no_match _ _ (firstMatch_eq_none h1),
      amountLoop_of_no_match _ _ (firstMatch_eq_none h2)]
    exact amountLoop_original_of_match (by simp [patterns]) _ _ hx
  · intro m h1 h2 h3 h4
    obtain ⟨x, hx, rfl⟩ := firstMatch_eq_some h4
    rw [extractAmount_original, patterns, amountLoop_of_no_match _ _ (firstMatch_eq_none h1),
      amountLoop_of_no_match _ _ (firstMatch_eq_none h2),
      amountLoop_of_no_match _ _ (firstMatch_eq_none h3)]
    exact amountLoop_original_of_match (by simp [patterns]) _ _ hx
  · intro h1 h2 h3 h4
    have h : amountLoop text patterns emptyAmount = emptyAmount := by
      rw [patterns, amountLoop_of_no_match _ _ (firstMatch_eq_none h1),
        amountLoop_of_no_match _ _ (firstMatch_eq_none h2),
        amountLoop_of_no_match _ _ (firstMatch_eq_none h3),
        amountLoop_of_no_match _ _ (firstMatch_eq_none h4)]
      rfl
    rw [extractAmount, h]
    rfl

/-- Witness of C10: in `send 3 y 5 tia` rule 1 wins over the earlier bare number,
in `send 7 y dos tia` rule 2 wins over the earlier bare number, in
`manda uno y 9` rule 3 wins over the earlier number word, `manda uno` is left
to rule 4 and `manda todo` matches no rule. -/
theorem extractAmount_rule_order_witness :
    (extractAmount "send 3 y 5 tia".toList).original = "5 tia".toList ∧
    (extractAmount "send 7 y dos tia".toList).original = "dos tia".toList ∧
    (extractAmount "manda uno y 9".toList).original = "9".toList ∧
    (extractAmount "manda uno".toList).original = "uno".toList ∧
    extractAmount "manda todo".toList = { original := [], numeric := none, unit := none } :=
  ⟨(extractAmount_rule_order "send 3 y 5 tia".toList).1 _ (by decide),
   (extractAmount_rule_order "send 7 y dos tia".toList).2.1 _ (by decide) (by decide),
   (extractAmount_rule_order "manda uno y 9".toList).2.2.1 _ (by decide) (by decide) (by decide),
   (extractAmount_rule_order "manda uno".toList).2.2.2.1 _ (by decide) (by decide) (by decide)
     (by decide),
   (extractAmount_rule_order "manda todo".toList).2.2.2.2 (by decide) (by decide) (by decide)
     (by decide)⟩

/-- The amount extracted from a text in which rule 1 matches: the number and the
unit of the leftmost match. -/
theorem extractAmount_of_rule1 {text : Str} {m : Str × Caps} (h : rule1.exec text = some m) :
    ∃ D F W U : Str, m.1 = D ++ F ++ W ++ U ∧ IsDecimal D F ∧
      (∀ c ∈ W, isSpace c = true) ∧ IsLetters U ∧
      extractAmount text =
        { original := m.1, numeric := some (decimalNumber D F), unit := some U } := by
  obtain ⟨prev, s, hm⟩ := exec_eq_some_mem h
  obtain ⟨D, F, W, U, h1, hDF, hW, hU⟩ := rule1_shape hm
  refine ⟨D, F, W, U, h1, hDF, hW, hU, ?_⟩
  have h2 := exec_of_head? (@head?_run_numUnit_unit none D F W U hDF hW hU)
  have hUe : U.isEmpty = false := by
    cases U with
    | nil => exact absurd rfl hU.1
    | cons d ds => rfl
  have hloop : amountLoop text patterns emptyAmount =
      { original := m.1, numeric := some (decimalNumber D F), unit := some U } := by
    rw [patterns, amountLoop]
    simp only [h, h1, h2, capture, List.lookup]
    simp [decimalValue_decimal hDF, hUe]
  rw [extractAmount, hloop]
  simp [unitMissing, hUe]

/-! ## `validateBech32Address` -/

theorem startsWith_append (w t : Str) : startsWith (w ++ t) w = true :=
  (startsWith_iff _ _).2 (List.prefix_append w t)

theorem test_shape {w body : Str} (hb : body ≠ []) (hp : ∀ c ∈ body, isLowerAlnum c = true) :
    (Rx.seq .bos (.seq (.oneOf false [w]) (.seq (.cls isLowerAlnum 1 none) .eos))).test
      (w ++ body) = true := by
  have hlen : 1 ≤ body.length := by
    cases body with
    | nil => exact absurd rfl hb
    | cons d ds => simp
  have h1 : (body, ([] : Caps)) ∈ (Rx.cls isLowerAlnum 1 none).run
      (prevAfter (prevAfter none []) (List.take w.length (w ++ body))) (body ++ []) :=
    List.mem_of_mem_head? (head?_run_cls hp (by intro c hc; simp at hc) hlen)
  rw [List.append_nil] at h1
  apply execFrom_isSome_of_mem (x := ([] ++ (List.take w.length (w ++ body) ++ (body ++ [])), []))
  refine mem_run_seq.2 ⟨([], []), by simp [Rx.run], _, mem_run_seq.2
    ⟨(List.take w.length (w ++ body), []),
      mem_run_oneOf.2 ⟨w, by simp, litMatches_self w body, rfl⟩, _,
      mem_run_seq.2 ⟨(body, []), by simpa using h1, ([], []), by simp [Rx.run], rfl⟩, rfl⟩, rfl⟩

/-- An address made of a known prefix and at least 38 lower-case letters or
digits passes `validateBech32Address`. -/
theorem validateBech32Address_of_shape {w body : Str}
    (hw : w = "celestia1".toList ∨ w = "mocha1".toList) (hlen : 38 ≤ body.length)
    (hp : ∀ c ∈ body, isLowerAlnum c = true) : validateBech32Address (w ++ body) = true := by
  have hb : body ≠ [] := by
    intro h0; rw [h0] at hlen; simp at hlen
  rcases hw with rfl | rfl
  · have h1 : startsWith ("celestia1".toList ++ body) "celestia1".toList = true :=
      startsWith_append _ _
    have h2 : ("celestia1".toList ++ body).isEmpty = false := rfl
    have h3 : ("celestia1".toList ++ body).length ≥ 45 := by
      simp only [List.length_append]
      have : "celestia1".toList.length = 9 := rfl
      omega
    have h4 := test_shape (w := "celestia1".toList) hb hp
    simp only [validateBech32Address, h1, h2, celestiaShapeRx, h4]
    simp only [List.length_append] at h3 ⊢
    simp
    omega
  · have h0 : startsWith ("mocha1".toList ++ body) "celestia1".toList = false := rfl
    have h1 : startsWith ("mocha1".toList ++ body) "mocha1".toList = true :=
      startsWith_append _ _
    have h2 : ("mocha1".toList ++ body).isEmpty = false := rfl
    have h3 : ("mocha1".toList ++ body).length ≥ 40 := by
      simp only [List.length_append]
      have : "mocha1".toList.length = 6 := rfl
      omega
    have h4 := test_shape (w := "mocha1".toList) hb hp
    simp only [validateBech32Address, h0, h1, h2, mochaShapeRx, h4]
    simp only [List.length_append] at h3 ⊢
    simp
    omega

/-- The leftmost match of the full address pattern, when it has no capital
letter, is a known prefix followed by 38 to 58 lower-case letters or digits. -/
theorem fullAddress_lower {text : Str} {x : Str × Caps} (h : fullAddressRx.exec text = some x)
    (hl : ∀ c ∈ x.1, isUpper c = false) :
    ∃ w body : Str, (w = "celestia1".toList ∨ w = "mocha1".toList) ∧ x.1 = w ++ body ∧
      38 ≤ body.length ∧ body.length ≤ 58 ∧ ∀ c ∈ body, isLowerAlnum c = true := by
  obtain ⟨prev, s, hm⟩ := exec_eq_some_mem h
  obtain ⟨w, body, hw, h1, h2, h3, h4, h5⟩ := fullAddress_shape hm
  have hwl : ∀ c ∈ w, isUpper c = false := by
    rcases hw with rfl | rfl <;> decide
  have h6 : s.take w.length = w :=
    litMatches_true_eq h2 hwl (fun c hc => hl c (by rw [h1]; exact List.mem_append_left _ hc))
  refine ⟨w, body, hw, by rw [h1, h6], h3, h4, ?_⟩
  intro c hc
  have hu := hl c (by rw [h1]; exact List.mem_append_right _ hc)
  have ha := h5 c hc
  simp only [isAlnumI, hu, Bool.or_false] at ha
  exact ha

theorem extractAddress_of_full {text : Str} {x : Str × Caps} (r : ParseResult)
    (h : fullAddressRx.exec text = some x) :
    extractAddress text r =
      { r with address := x.1, address_valid := validateBech32Address x.1,
               chain := chainOfAddress x.1 r.chain } := by
  simp [extractAddress, h]

theorem chainFromText_of_known (text : Str) (r : ParseResult) (h : r.chain ≠ .unknown) :
    chainFromText text r = r := by
  simp [chainFromText, h]

theorem clarify_of_complete (r : ParseResult) (h : missingData r = []) :
    clarify r = { r with need_clarification := false, confidence := 0.95 } := by
  simp [clarify, h]

theorem penalise_of_valid (r : ParseResult) (h : r.address_valid = true) : penalise r = r := by
  simp [penalise, h]

/-- C1: when the text contains a send keyword, the leftmost match `a` of the
full address pattern has no capital letter and rule 1 matches, the result has
intent `send`, address `a`, a valid address, the chain of the prefix of `a`, no
clarification, no question, confidence 0.95 and no error. -/
theorem parseInstruction_complete (text a : Str)
    (hs : ∃ k ∈ sendKeywords, k <:+: toLowerCase text)
    (ha : firstMatch fullAddressRx text = some a)
    (hl : ∀ c ∈ a, isUpper c = false)
    (hr : (firstMatch rule1 text).isSome = true) :
    (parseInstruction text).intent = .send ∧
    (parseInstruction text).address = a ∧
    (parseInstruction text).address_valid = true ∧
    (("celestia1".toList <+: a ∧ (parseInstruction text).chain = .celestia) ∨
      ("mocha1".toList <+: a ∧ (parseInstruction text).chain = .mocha)) ∧
    (parseInstruction text).need_clarification = false ∧
    (parseInstruction text).clarifying_questions = [] ∧
    (parseInstruction text).confidence = 0.95 ∧
    (parseInstruction text).error = none := by
  have hsend := (hasSendIntent_iff text).2 hs
  obtain ⟨x, hx, rfl⟩ := firstMatch_eq_some ha
  obtain ⟨w, body, hw, hxw, hb1, -, hbp⟩ := fullAddress_lower hx hl
  have hvalid : validateBech32Address x.1 = true := by
    rw [hxw]; exact validateBech32Address_of_shape hw hb1 hbp
  have hne : x.1.isEmpty = false := by
    rw [hxw]; rcases hw with rfl | rfl <;> rfl
  obtain ⟨m, hm⟩ : ∃ m, rule1.exec text = some m := by
    cases h : rule1.exec text with
    | none => simp [firstMatch, h] at hr
    | some m => exact ⟨m, rfl⟩
  obtain ⟨D, F, W, U, -, -, -, hU, hamt⟩ := extractAmount_of_rule1 hm
  have hUe : U.isEmpty = false := by
    cases U with
    | nil => exact absurd rfl hU.1
    | cons d ds => rfl
  have hchain : ("celestia1".toList <+: x.1 ∧ chainOfAddress x.1 .unknown = .celestia) ∨
      ("mocha1".toList <+: x.1 ∧ chainOfAddress x.1 .unknown = .mocha) := by
    rcases hw with rfl | rfl
    · left
      refine ⟨by rw [hxw]; exact List.prefix_append _ _, ?_⟩
      rw [chainOfAddress, hxw, startsWith_append]
      rfl
    · right
      refine ⟨by rw [hxw]; exact List.prefix_append _ _, ?_⟩
      have h0 : startsWith ("mocha1".toList ++ body) "celestia1".toList = false := rfl
      rw [chainOfAddress, hxw, h0, startsWith_append]
      rfl
  have hnotunk : chainOfAddress x.1 .unknown ≠ .unknown := by
    rcases hchain with ⟨-, h⟩ | ⟨-, h⟩ <;> rw [h] <;> decide
  rw [parseInstruction_send hsend, extractAddress_of_full _ hx, hamt,
    chainFromText_of_known _ _ hnotunk,
    clarify_of_complete _ (by simp [missingData, hne, unitMissing, hUe]),
    penalise_of_valid _ hvalid]
  exact ⟨rfl, rfl, hvalid, hchain, rfl, rfl, rfl, rfl⟩

/-- Witness of C1: the example of the specification, with its amount. -/
theorem parseInstruction_complete_witness :
    ((parseInstruction "Envía 5 TIA a celestia16e3rskkaa8l7p92uny3pqh2c96mlkhq524aksf".toList).intent
        = .send ∧
      (parseInstruction "Envía 5 TIA a celestia16e3rskkaa8l7p92uny3pqh2c96mlkhq524aksf".toList).address
        = "celestia16e3rskkaa8l7p92uny3pqh2c96mlkhq524aksf".toList ∧
      (parseInstruction
        "Envía 5 TIA a celestia16e3rskkaa8l7p92uny3pqh2c96mlkhq524aksf".toList).address_valid
        = true ∧
      (parseInstruction
        "Envía 5 TIA a celestia16e3rskkaa8l7p92uny3pqh2c96mlkhq524aksf".toList).need_clarification
        = false ∧
      (parseInstruction
        "Envía 5 TIA a celestia16e3rskkaa8l7p92uny3pqh2c96mlkhq524aksf".toList).confidence
        = 0.95) ∧
    (parseInstruction "Envía 5 TIA a celestia16e3rskkaa8l7p92uny3pqh2c96mlkhq524aksf".toList).amount
      = { original := "5 TIA".toList, numeric := some 5, unit := some "TIA".toList } ∧
    (parseInstruction "Envía 5 TIA a celestia16e3rskkaa8l7p92uny3pqh2c96mlkhq524aksf".toList).chain
      = .celestia := by
  have h := parseInstruction_complete
    "Envía 5 TIA a celestia16e3rskkaa8l7p92uny3pqh2c96mlkhq524aksf".toList
    "celestia16e3rskkaa8l7p92uny3pqh2c96mlkhq524aksf".toList
    ⟨"envía".toList, by decide, by decide⟩ (by decide) (by decide) (by decide)
  exact ⟨⟨h.1, h.2.1, h.2.2.1, h.2.2.2.2.1, h.2.2.2.2.2.2.1⟩, by decide, by decide⟩

/-- What `parseInstruction` returns for a text with a send keyword in which only
the partial address pattern matches: the diagnostic of line 71 is replaced by
the one of line 117. -/
theorem parseInstruction_of_partial {text : Str} {m : Str × Caps}
    (hs : hasSendIntent text = true) (hf : fullAddressRx.exec text = none)
    (hp : partialAddressRx.exec text = some m) :
    (parseInstruction text).address = m.1 ∧
    (parseInstruction text).address_valid = false ∧
    (parseInstruction text).error = some invalidFormatError := by
  obtain ⟨prev, s, hm⟩ := exec_eq_some_mem hp
  have hne : m.1.isEmpty = false := by
    have := partialAddress_ne_nil hm
    cases h : m.1 with
    | nil => exact absurd h this
    | cons c cs => rfl
  have he : extractAddress text { initialResult text with intent := .send } =
      { initialResult text with
        intent := .send, address := m.1, address_valid := false, error := some truncatedError,
        chain := chainOfAddress m.1 .unknown } := by
    simp [extractAddress, hf, hp, initialResult]
  rw [parseInstruction_send hs, he]
  simp only [penalise_address, penalise_address_valid, clarify_address, clarify_address_valid,
    chainFromText_address, chainFromText_address_valid, true_and]
  simp [penalise, hne]

/-- C5 (the code at a failing input): in `send 1 TIA to celestia1abc` the full
address pattern does not match and the partial one matches `celestia1abc`; the
address is marked as not valid, but the diagnostic returned is the one of an
invalid format, not the one of a truncated address. -/
theorem parseInstruction_truncated_diagnostic :
    firstMatch fullAddressRx "send 1 TIA to celestia1abc".toList = none ∧
    firstMatch partialAddressRx "send 1 TIA to celestia1abc".toList =
      some "celestia1abc".toList ∧
    (parseInstruction "send 1 TIA to celestia1abc".toList).address_valid = false ∧
    (parseInstruction "send 1 TIA to celestia1abc".toList).error = some invalidFormatError ∧
    (parseInstruction "send 1 TIA to celestia1abc".toList).error ≠ some truncatedError := by
  decide

/-! ## `enhanceParsingWithAI` -/

/-- C6: a local result with confidence above 0.8 and without need of
clarification is returned as it is, whatever the remote service would do: the
service is not consulted. -/
theorem enhanceParsingWithAI_skip (L : ParseResult) (text : Str) (remote : RemoteOutcome)
    (hc : L.confidence > 0.8) (hn : L.need_clarification = false) :
    DeepSeekService.enhanceParsingWithAI L text remote = L.toJs := by
  simp [DeepSeekService.enhanceParsingWithAI, DeepSeekService.skipsRemote, hc, hn]

/-- Witness of C6: the complete parse of the example is kept although the remote
service would answer with another document. -/
theorem enhanceParsingWithAI_skip_witness :
    DeepSeekService.enhanceParsingWithAI
      (parseInstruction "Envía 5 TIA a celestia16e3rskkaa8l7p92uny3pqh2c96mlkhq524aksf".toList)
      "Envía 5 TIA a celestia16e3rskkaa8l7p92uny3pqh2c96mlkhq524aksf".toList
      (.document (.obj [("intent".toList, .str "other".toList)])) =
    (parseInstruction
      "Envía 5 TIA a celestia16e3rskkaa8l7p92uny3pqh2c96mlkhq524aksf".toList).toJs :=
  enhanceParsingWithAI_skip _ _ _
    (by
      rw [show (parseInstruction
        "Envía 5 TIA a celestia16e3rskkaa8l7p92uny3pqh2c96mlkhq524aksf".toList).confidence = 0.95
        from rfl]
      norm_num)
    (by decide)

/-! ## `processMessage` -/

/-- C3 as amended: `processMessage` returns `transactionReady = true` exactly
when the enhanced parse result has intent `send`, a falsy `need_clarification`,
a truthy `address_valid`, an address that is a string and not empty, an
`amount.numeric` that is not `null`, and `amount.numeric`, the unit and the
chain can be converted to strings.  In that case `transactionData` is the
transfer intent of the result (address, `amount.numeric`, `amount.unit` or
`TIA`, `chain` or `celestia`) and `pendingTransaction` is set to it; otherwise
`transactionData` is `null` and `pendingTransaction` keeps its value. -/
theorem processMessage_ready (state : ConversationState) (userMessage : Str)
    (remote : RemoteOutcome) :
    ((ChatbotService.processMessage state userMessage remote).1.transactionReady = true ↔
      (readyCondition (DeepSeekService.enhanceParsingWithAI (parseInstruction userMessage)
        userMessage remote) = true ∧
       ChatbotService.throwsOnRender (DeepSeekService.enhanceParsingWithAI
        (parseInstruction userMessage) userMessage remote) = false)) ∧
    (readyCondition (DeepSeekService.enhanceParsingWithAI (parseInstruction userMessage)
        userMessage remote) = true →
      ChatbotService.throwsOnRender (DeepSeekService.enhanceParsingWithAI
        (parseInstruction userMessage) userMessage remote) = false →
      (ChatbotService.processMessage state userMessage remote).1.transactionData =
        some (transferIntentOf (DeepSeekService.enhanceParsingWithAI
          (parseInstruction userMessage) userMessage remote)) ∧
      (ChatbotService.processMessage state userMessage remote).2.pendingTransaction =
        some (transferIntentOf (DeepSeekService.enhanceParsingWithAI
          (parseInstruction userMessage) userMessage remote))) ∧
    ((readyCondition (DeepSeekService.enhanceParsingWithAI (parseInstruction userMessage)
        userMessage remote) = false ∨
      ChatbotService.throwsOnRender (DeepSeekService.enhanceParsingWithAI
        (parseInstruction userMessage) userMessage remote) = true) →
      (ChatbotService.processMessage state userMessage remote).1.transactionData = none ∧
      (ChatbotService.processMessage state userMessage remote).2.pendingTransaction =
        state.pendingTransaction) := by
  simp only [ChatbotService.processMessage]
  generalize DeepSeekService.enhanceParsingWithAI (parseInstruction userMessage)
    userMessage remote = pr
  simp only [readyCondition, transferIntentOf, ChatbotService.throwsOnRender]
  generalize pr.get "intent".toList = vI
  generalize pr.get "need_clarification".toList = vN
  generalize pr.get "clarifying_questions".toList = vQ
  generalize pr.get "address_valid".toList = vV
  generalize pr.get "address".toList = vA
  generalize pr.get "amount".toList = vM
  generalize pr.get "chain".toList = vC
  generalize vM.get "numeric".toList = vX
  generalize vM.get "unit".toList = vU
  generalize vX.throwsToString = tX
  generalize (vU.orElse (.str "TIA".toList)).throwsToString = tU
  generalize (vC.orElse (.str "celestia".toList)).throwsToString = tC
  cases h1 : vI.isString "send".toList
  · simp
  cases h2 : vN.truthy
  swap
  · cases h : vQ.spread <;> simp
  cases h3 : vV.truthy
  · simp
  cases h4 : vA.truthy
  · have : vA.isNonEmptyString = false := by
      cases vA <;> simp_all [JsVal.truthy, JsVal.isNonEmptyString]
    simp [this]
  cases h5 : vM.isNullish
  swap
  · simp
  cases h6 : vX.isNull
  swap
  · simp
  cases vA <;> cases tX <;> cases tU <;> cases tC <;>
    simp_all [JsVal.truthy, JsVal.isNonEmptyString]

theorem enhanceParsingWithAI_noApiKey (L : ParseResult) (text : Str) :
    DeepSeekService.enhanceParsingWithAI L text .noApiKey = L.toJs := by
  simp [DeepSeekService.enhanceParsingWithAI, DeepSeekService.parseInstruction]

/-- Witness of C3: the example of the specification is ready and its transfer
intent is handed over; a greeting is not ready and hands over nothing. -/
theorem processMessage_ready_witness :
    (ChatbotService.processMessage ChatbotService.initialState
      "Envía 5 TIA a celestia16e3rskkaa8l7p92uny3pqh2c96mlkhq524aksf".toList
      .noApiKey).1.transactionReady = true ∧
    (ChatbotService.processMessage ChatbotService.initialState
      "Envía 5 TIA a celestia16e3rskkaa8l7p92uny3pqh2c96mlkhq524aksf".toList
      .noApiKey).2.pendingTransaction =
      some { toAddress := .str "celestia16e3rskkaa8l7p92uny3pqh2c96mlkhq524aksf".toList,
             amount := .num 5, unit := .str "TIA".toList, chain := .str "celestia".toList } ∧
    (ChatbotService.processMessage ChatbotService.initialState "hola".toList
      .noApiKey).1.transactionData = none := by
  have h1 : readyCondition (DeepSeekService.enhanceParsingWithAI
      (parseInstruction "Envía 5 TIA a celestia16e3rskkaa8l7p92uny3pqh2c96mlkhq524aksf".toList)
      "Envía 5 TIA a celestia16e3rskkaa8l7p92uny3pqh2c96mlkhq524aksf".toList .noApiKey) = true := by
    rw [enhanceParsingWithAI_noApiKey]
    decide
  have h2 : readyCondition (DeepSeekService.enhanceParsingWithAI
      (parseInstruction "hola".toList) "hola".toList .noApiKey) = false := by
    rw [enhanceParsingWithAI_noApiKey]
    decide
  have ht : transferIntentOf (DeepSeekService.enhanceParsingWithAI
      (parseInstruction "Envía 5 TIA a celestia16e3rskkaa8l7p92uny3pqh2c96mlkhq524aksf".toList)
      "Envía 5 TIA a celestia16e3rskkaa8l7p92uny3pqh2c96mlkhq524aksf".toList .noApiKey) =
      { toAddress := .str "celestia16e3rskkaa8l7p92uny3pqh2c96mlkhq524aksf".toList,
        amount := .num 5, unit := .str "TIA".toList, chain := .str "celestia".toList } := by
    rw [enhanceParsingWithAI_noApiKey]
    rfl
  have h3 : ChatbotService.throwsOnRender (DeepSeekService.enhanceParsingWithAI
      (parseInstruction "Envía 5 TIA a celestia16e3rskkaa8l7p92uny3pqh2c96mlkhq524aksf".toList)
      "Envía 5 TIA a celestia16e3rskkaa8l7p92uny3pqh2c96mlkhq524aksf".toList .noApiKey) = false := by
    rw [enhanceParsingWithAI_noApiKey]
    decide
  have h := processMessage_ready ChatbotService.initialState
    "Envía 5 TIA a celestia16e3rskkaa8l7p92uny3pqh2c96mlkhq524aksf".toList .noApiKey
  have h0 := processMessage_ready ChatbotService.initialState "hola".toList .noApiKey
  refine ⟨h.1.2 ⟨h1, h3⟩, ?_, (h0.2.2 (Or.inl h2)).1⟩
  rw [(h.2.1 h1 h3).2, ht]

/-- Counterexample to C3 as stated: for the message `Envía TIA` the remote
document replaces the local parse; it has intent `send`, needs no
clarification, marks its address as valid and has an `amount.numeric` that is
not `null` but an object with an own property `toString`.  The template string
of line 77 throws, and `processMessage` answers with the apology and
`transactionReady = false`. -/
theorem processMessage_ready_counterexample :
    readyCondition (DeepSeekService.enhanceParsingWithAI (parseInstruction "Envía TIA".toList)
      "Envía TIA".toList
      (.document (.obj [("intent".toList, .str "send".toList),
        ("need_clarification".toList, .bool false),
        ("address_valid".toList, .bool true),
        ("address".toList, .str "celestia16e3rskkaa8l7p92uny3pqh2c96mlkhq524aksf".toList),
        ("amount".toList, .obj [("original".toList, .str "1 TIA".toList),
          ("numeric".toList, .obj [("toString".toList, .num 1)]),
          ("unit".toList, .str "TIA".toList)])]))) = true ∧
    (ChatbotService.processMessage ChatbotService.initialState "Envía TIA".toList
      (.document (.obj [("intent".toList, .str "send".toList),
        ("need_clarification".toList, .bool false),
        ("address_valid".toList, .bool true),
        ("address".toList, .str "celestia16e3rskkaa8l7p92uny3pqh2c96mlkhq524aksf".toList),
        ("amount".toList, .obj [("original".toList, .str "1 TIA".toList),
          ("numeric".toList, .obj [("toString".toList, .num 1)]),
          ("unit".toList, .str "TIA".toList)])]))).1.transactionReady = false ∧
    (ChatbotService.processMessage ChatbotService.initialState "Envía TIA".toList
      (.document (.obj [("intent".toList, .str "send".toList),
        ("need_clarification".toList, .bool false),
        ("address_valid".toList, .bool true),
        ("address".toList, .str "celestia16e3rskkaa8l7p92uny3pqh2c96mlkhq524aksf".toList),
        ("amount".toList, .obj [("original".toList, .str "1 TIA".toList),
          ("numeric".toList, .obj [("toString".toList, .num 1)]),
          ("unit".toList, .str "TIA".toList)])]))).1.responses.length = 2 := by
  decide!

/-! ## The conversions `ToNumber` and `ToString` -/

/-- The conversion `ToNumber` on strings, arrays and objects: white space is
trimmed, a fraction may stand alone, an exponent and a radix prefix are read,
an array is converted through the string form of its elements, and an own
property `toString` makes the conversion throw. -/
theorem toNumber_examples :
    JsVal.toNumber (.str " 0.9".toList) = some (.fin 0.9) ∧
    JsVal.toNumber (.str ".5".toList) = some (.fin 0.5) ∧
    JsVal.toNumber (.str "1e-1".toList) = some (.fin 0.1) ∧
    JsVal.toNumber (.str "+.5e1".toList) = some (.fin 5) ∧
    JsVal.toNumber (.str "5.".toList) = some (.fin 5) ∧
    JsVal.toNumber (.str "-12".toList) = some (.fin (-12)) ∧
    JsVal.toNumber (.str "".toList) = some (.fin 0) ∧
    JsVal.toNumber (.str " \n12\t".toList) = some (.fin 12) ∧
    JsVal.toNumber (.str "0x1F".toList) = some (.fin 31) ∧
    JsVal.toNumber (.str "0b101".toList) = some (.fin 5) ∧
    JsVal.toNumber (.str "0o17".toList) = some (.fin 15) ∧
    JsVal.toNumber (.str "-0x10".toList) = some .nan ∧
    JsVal.toNumber (.str "0x".toList) = some .nan ∧
    JsVal.toNumber (.str "Infinity".toList) = some (.inf false) ∧
    JsVal.toNumber (.str "-Infinity".toList) = some (.inf true) ∧
    JsVal.toNumber (.str "infinity".toList) = some .nan ∧
    JsVal.toNumber (.str "1,5".toList) = some .nan ∧
    JsVal.toNumber (.str "12px".toList) = some .nan ∧
    JsVal.toNumber (.str ".".toList) = some .nan ∧
    JsVal.toNumber (.str "1e".toList) = some .nan ∧
    JsVal.toNumber (.arr []) = some (.fin 0) ∧
    JsVal.toNumber (.arr [.num 0.9]) = some (.fin 0.9) ∧
    JsVal.toNumber (.arr [.str "0.9".toList]) = some (.fin 0.9) ∧
    JsVal.toNumber (.arr [.arr [.null]]) = some (.fin 0) ∧
    JsVal.toNumber (.arr [.bool true]) = some .nan ∧
    JsVal.toNumber (.arr [.num 1, .num 2]) = some .nan ∧
    JsVal.toNumber (.obj []) = some .nan ∧
    JsVal.toNumber (.obj [("valueOf".toList, .num 1)]) = some .nan ∧
    JsVal.toNumber (.obj [("toString".toList, .num 1)]) = none ∧
    JsVal.toNumber (.arr [.num 1, .obj [("toString".toList, .num 1)]]) = none ∧
    JsVal.toNumber (.bool true) = some (.fin 1) ∧
    JsVal.toNumber .null = some (.fin 0) ∧
    JsVal.toNumber .undefined = some .nan := by
  decide!

/-! ## The merge of `enhanceParsingWithAI` -/

theorem lookupLast_append (a b : List (Str × JsVal)) (key : Str) :
    JsVal.lookupLast (a ++ b) key =
      match JsVal.lookupLast b key with
      | some w => some w
      | none => JsVal.lookupLast a key := by
  induction a with
  | nil =>
    simp only [List.nil_append, JsVal.lookupLast]
    cases JsVal.lookupLast b key <;> rfl
  | cons p ps ih =>
    obtain ⟨k, v⟩ := p
    rw [List.cons_append, JsVal.lookupLast, ih, JsVal.lookupLast]
    cases JsVal.lookupLast b key <;> rfl

theorem lookupLast_singleton (k key : Str) (v : JsVal) :
    JsVal.lookupLast [(k, v)] key = if k = key then some v else none := by
  simp [JsVal.lookupLast]

theorem get_obj_merge (A B : List (Str × JsVal)) (t c : JsVal) (key : Str) :
    (JsVal.obj (A ++ B ++ [("raw_text".toList, t)] ++ [("confidence".toList, c)])).get key =
      if key = "confidence".toList then c
      else if key = "raw_text".toList then t
      else
        match JsVal.lookupLast B key with
        | some w => w
        | none => (JsVal.obj A).get key := by
  unfold JsVal.get JsVal.ownFields
  dsimp only
  rw [lookupLast_append, lookupLast_singleton]
  by_cases h1 : key = "confidence".toList
  · rw [if_pos h1.symm, if_pos h1]
  · rw [if_neg (fun h => h1 h.symm), if_neg h1]
    dsimp only
    rw [lookupLast_append, lookupLast_singleton]
    by_cases h2 : key = "raw_text".toList
    · rw [if_pos h2.symm, if_pos h2]
    · rw [if_neg (fun h => h2 h.symm), if_neg h2]
      dsimp only
      rw [lookupLast_append]
      cases JsVal.lookupLast B key <;> rfl

/-- The properties of the merged object, one by one. -/
theorem get_mergedResult (L : ParseResult) (text : Str) (d c : JsVal) (key : Str) :
    (DeepSeekService.mergedResult L text d c).get key =
      if key = "confidence".toList then c
      else if key = "raw_text".toList then .str text
      else if L.confidence < 0.7 ∧ d.hasField key = true then d.get key
      else L.toJs.get key := by
  rw [DeepSeekService.mergedResult, get_obj_merge]
  by_cases h1 : key = "confidence".toList
  · rw [if_pos h1, if_pos h1]
  · rw [if_neg h1, if_neg h1]
    by_cases h2 : key = "raw_text".toList
    · rw [if_pos h2, if_pos h2]
    · rw [if_neg h2, if_neg h2]
      by_cases h3 : L.confidence < 0.7
      · rw [if_pos h3]
        unfold JsVal.hasField
        cases hk : JsVal.lookupLast d.ownFields key with
        | none =>
          rw [if_neg (by simp)]
          rfl
        | some w =>
          rw [if_pos ⟨h3, rfl⟩]
          simp [JsVal.get, hk]
      · rw [if_neg h3, if_neg (fun h => h3 h.1)]
        rfl

theorem skipsRemote_eq_false {L : ParseResult}
    (h : ¬ (L.confidence > 0.8 ∧ L.need_clarification = false)) :
    DeepSeekService.skipsRemote L = false := by
  simp only [DeepSeekService.skipsRemote, Bool.and_eq_false_iff, decide_eq_false_iff_not,
    Bool.not_eq_false']
  by_cases hc : L.confidence > 0.8
  · right
    cases hn : L.need_clarification
    · exact absurd ⟨hc, hn⟩ h
    · rfl
  · left; exact hc

theorem enhanceParsingWithAI_document {L : ParseResult} (text : Str) {d c : JsVal}
    (h : ¬ (L.confidence > 0.8 ∧ L.need_clarification = false)) (hd : d.isNullish = false)
    (hc : JsVal.mathMax L.confidence ((d.get "confidence".toList).orElse (.num 0)) = some c) :
    DeepSeekService.enhanceParsingWithAI L text (.document d) =
      DeepSeekService.mergedResult L text d c := by
  rw [DeepSeekService.enhanceParsingWithAI, skipsRemote_eq_false h]
  simp only [DeepSeekService.parseInstruction, hd, hc, Bool.false_eq_true, if_false]

theorem enhanceParsingWithAI_throws {L : ParseResult} (text : Str) {d : JsVal}
    (h : ¬ (L.confidence > 0.8 ∧ L.need_clarification = false)) (hd : d.isNullish = false)
    (hc : JsVal.mathMax L.confidence ((d.get "confidence".toList).orElse (.num 0)) = none) :
    DeepSeekService.enhanceParsingWithAI L text (.document d) = L.toJs := by
  rw [DeepSeekService.enhanceParsingWithAI, skipsRemote_eq_false h]
  simp only [DeepSeekService.parseInstruction, hd, hc, Bool.false_eq_true, if_false]

theorem mathMax_num (a q : ℚ) :
    JsVal.mathMax a ((JsVal.num q).orElse (.num 0)) = some (.num (max a q)) := by
  by_cases h0 : q = 0
  · simp [JsVal.orElse, JsVal.truthy, JsVal.mathMax, JsVal.toNumber, h0]
  · simp [JsVal.orElse, JsVal.truthy, JsVal.mathMax, JsVal.toNumber, h0]

theorem mathMax_undefined (a : ℚ) :
    JsVal.mathMax a (JsVal.undefined.orElse (.num 0)) = some (.num (max a 0)) := by
  simp [JsVal.orElse, JsVal.truthy, JsVal.mathMax, JsVal.toNumber]

theorem throwsToString_arr (items : List JsVal) :
    (JsVal.arr items).throwsToString = JsVal.throwsJoin items := by
  rw [JsVal.throwsToString]

/-- The call `Math.max(a, v)` throws exactly when the conversion of `v` to a
string throws. -/
theorem mathMax_eq_none (a : ℚ) (v : JsVal) :
    JsVal.mathMax a v = none ↔ v.throwsToString = true := by
  have key : ∀ n : JsNum, (match some n with
      | none => (none : Option JsVal)
      | some (.fin x) => some (.num (max a x))
      | some .nan => some .nan
      | some (.inf false) => some (.inf false)
      | some (.inf true) => some (.num a)) ≠ none := by
    intro n
    cases n with
    | fin x => simp
    | nan => simp
    | inf b => cases b <;> simp
  unfold JsVal.mathMax
  cases v with
  | arr items =>
    rw [throwsToString_arr]
    simp only [JsVal.toNumber]
    cases ht : JsVal.throwsJoin items
    · simp only [Bool.false_eq_true, if_false, iff_false]
      exact key _
    · simp
  | obj fields =>
    simp only [JsVal.toNumber]
    cases ht : (JsVal.obj fields).throwsToString
    · simp
    · simp
  | undefined => simp [JsVal.toNumber, JsVal.throwsToString]
  | null => simp [JsVal.toNumber, JsVal.throwsToString]
  | bool b => simp [JsVal.toNumber, JsVal.throwsToString]
  | num x => simp [JsVal.toNumber, JsVal.throwsToString]
  | nan => simp [JsVal.toNumber, JsVal.throwsToString]
  | inf b => cases b <;> simp [JsVal.toNumber, JsVal.throwsToString]
  | str s =>
    simp only [JsVal.toNumber, JsVal.throwsToString, Bool.false_eq_true, iff_false]
    exact key _

theorem throwsToString_orElse (v : JsVal) (q : ℚ) :
    (v.orElse (.num q)).throwsToString = v.throwsToString := by
  unfold JsVal.orElse
  cases h : v.truthy
  · cases v <;> simp_all [JsVal.truthy, JsVal.throwsToString]
  · simp

/-- C8 as amended: when the local result does not meet the skip condition and
the remote service returns a document other than `null`, the call
`Math.max(L.confidence, R.confidence || 0)` throws exactly when the conversion
of `R.confidence` to a string throws, and then the local result is returned.
Otherwise the result has `raw_text` equal to the text and `confidence` equal to
the value of that call (the maximum of the two numbers when `R.confidence` is a
number, and of `L.confidence` and 0 when `R` has no such property); any other
property is the one of `R` when `L.confidence < 0.7` and `R` has that property,
and the one of `L` otherwise. -/
theorem enhanceParsingWithAI_merge (L : ParseResult) (text : Str) (d : JsVal)
    (h : ¬ (L.confidence > 0.8 ∧ L.need_clarification = false)) (hd : d.isNullish = false) :
    (JsVal.mathMax L.confidence ((d.get "confidence".toList).orElse (.num 0)) = none ↔
      (d.get "confidence".toList).throwsToString = true) ∧
    ((d.get "confidence".toList).throwsToString = true →
      DeepSeekService.enhanceParsingWithAI L text (.document d) = L.toJs) ∧
    ((d.get "confidence".toList).throwsToString = false →
      ∃ c, JsVal.mathMax L.confidence ((d.get "confidence".toList).orElse (.num 0)) = some c ∧
        (DeepSeekService.enhanceParsingWithAI L text (.document d)).get "raw_text".toList =
          .str text ∧
        (DeepSeekService.enhanceParsingWithAI L text (.document d)).get "confidence".toList =
          c ∧
        ∀ key, key ≠ "raw_text".toList → key ≠ "confidence".toList →
          (DeepSeekService.enhanceParsingWithAI L text (.document d)).get key =
            if L.confidence < 0.7 ∧ d.hasField key = true then d.get key
            else L.toJs.get key) ∧
    (∀ q, d.get "confidence".toList = .num q →
      (DeepSeekService.enhanceParsingWithAI L text (.document d)).get "confidence".toList =
        .num (max L.confidence q)) ∧
    (d.hasField "confidence".toList = false →
      (DeepSeekService.enhanceParsingWithAI L text (.document d)).get "confidence".toList =
        .num (max L.confidence 0)) := by
  have hiff : JsVal.mathMax L.confidence ((d.get "confidence".toList).orElse (.num 0)) = none ↔
      (d.get "confidence".toList).throwsToString = true := by
    rw [mathMax_eq_none, throwsToString_orElse]
  refine ⟨hiff, ?_, ?_, ?_, ?_⟩
  · intro ht
    exact enhanceParsingWithAI_throws text h hd (hiff.2 ht)
  · intro ht
    cases hc : JsVal.mathMax L.confidence ((d.get "confidence".toList).orElse (.num 0)) with
    | none =>
      rw [hiff.1 hc] at ht
      cases ht
    | some c =>
      rw [enhanceParsingWithAI_document text h hd hc]
      refine ⟨c, rfl, ?_, ?_, ?_⟩
      · rw [get_mergedResult, if_neg (by decide), if_pos rfl]
      · rw [get_mergedResult, if_pos rfl]
      · intro key h1 h2
        rw [get_mergedResult, if_neg h2, if_neg h1]
  · intro q hq
    have hc := mathMax_num L.confidence q
    rw [← hq] at hc
    rw [enhanceParsingWithAI_document text h hd hc, get_mergedResult, if_pos rfl]
  · intro hf
    have hu : d.get "confidence".toList = .undefined := by
      unfold JsVal.hasField at hf
      unfold JsVal.get
      cases hk : JsVal.lookupLast d.ownFields "confidence".toList with
      | none => rfl
      | some w => rw [hk] at hf; exact absurd hf (by simp)
    have hc := mathMax_undefined L.confidence
    rw [← hu] at hc
    rw [enhanceParsingWithAI_document text h hd hc, get_mergedResult, if_pos rfl]

/-- Witness of C8 as amended: the local parse of `Envía TIA` (confidence 0.60)
merged with the document `{"intent": "send", "confidence": 0.9}`, and with a
document whose confidence is an object with an own property `toString`. -/
theorem enhanceParsingWithAI_merge_witness :
    (DeepSeekService.enhanceParsingWithAI (parseInstruction "Envía TIA".toList)
      "Envía TIA".toList
      (.document (.obj [("intent".toList, .str "send".toList),
        ("confidence".toList, .num 0.9)]))).get "confidence".toList =
      .num (max (parseInstruction "Envía TIA".toList).confidence 0.9) ∧
    DeepSeekService.enhanceParsingWithAI (parseInstruction "Envía TIA".toList)
      "Envía TIA".toList
      (.document (.obj [("intent".toList, .str "other".toList),
        ("confidence".toList, .obj [("toString".toList, .num 1)])])) =
      (parseInstruction "Envía TIA".toList).toJs :=
  ⟨(enhanceParsingWithAI_merge (parseInstruction "Envía TIA".toList) "Envía TIA".toList
      (.obj [("intent".toList, .str "send".toList), ("confidence".toList, .num 0.9)])
      (fun h => absurd h.2 (by decide)) rfl).2.2.2.1 0.9 rfl,
   (enhanceParsingWithAI_merge (parseInstruction "Envía TIA".toList) "Envía TIA".toList
      (.obj [("intent".toList, .str "other".toList),
        ("confidence".toList, .obj [("toString".toList, .num 1)])])
      (fun h => absurd h.2 (by decide)) rfl).2.1 (by decide)⟩

/-- Counterexample to C8 as stated: the local parse of `Envía TIA` does not meet
the skip condition and has confidence below 0.7, the remote document
`{"intent": "send", "confidence": 0.9}` is returned, and yet the property
`need_clarification` of the result is not the one of the document (which has
none) but the one of the local result. -/
theorem enhanceParsingWithAI_merge_counterexample :
    ¬ ((parseInstruction "Envía TIA".toList).confidence > 0.8 ∧
        (parseInstruction "Envía TIA".toList).need_clarification = false) ∧
    (parseInstruction "Envía TIA".toList).confidence < 0.7 ∧
    (DeepSeekService.enhanceParsingWithAI (parseInstruction "Envía TIA".toList)
      "Envía TIA".toList
      (.document (.obj [("intent".toList, .str "send".toList),
        ("confidence".toList, .num 0.9)]))).get "need_clarification".toList ≠
      (JsVal.obj [("intent".toList, .str "send".toList),
        ("confidence".toList, .num 0.9)]).get "need_clarification".toList := by
  refine ⟨fun h => absurd h.2 (by decide), ?_, ?_⟩
  · rw [show (parseInstruction "Envía TIA".toList).confidence = 0.60 from rfl]
    norm_num
  · intro h
    have h1 : ((DeepSeekService.enhanceParsingWithAI (parseInstruction "Envía TIA".toList)
        "Envía TIA".toList
        (.document (.obj [("intent".toList, .str "send".toList),
          ("confidence".toList, .num 0.9)]))).get "need_clarification".toList).truthy = true := by
      decide!
    rw [h] at h1
    exact absurd h1 (by decide)

/-- C7 (the code at a failing input): the local parse of `Envía TIA` has intent
`send` and no error; when the request to the remote service fails, or when its
answer is not JSON, the result of `enhanceParsingWithAI` has intent `other` and
carries the diagnostic of the failure. -/
theorem enhanceParsingWithAI_remote_failure :
    ((parseInstruction "Envía TIA".toList).toJs.get "intent".toList).isString "send".toList
      = true ∧
    ((parseInstruction "Envía TIA".toList).toJs.get "error".toList).isNull = true ∧
    ((DeepSeekService.enhanceParsingWithAI (parseInstruction "Envía TIA".toList)
      "Envía TIA".toList (.requestFailed "Network Error".toList)).get "intent".toList).isString
      "other".toList = true ∧
    ((DeepSeekService.enhanceParsingWithAI (parseInstruction "Envía TIA".toList)
      "Envía TIA".toList (.requestFailed "Network Error".toList)).get "error".toList).isString
      "API Error: Network Error".toList = true ∧
    ((DeepSeekService.enhanceParsingWithAI (parseInstruction "Envía TIA".toList)
      "Envía TIA".toList .invalidJson).get "intent".toList).isString "other".toList = true ∧
    ((DeepSeekService.enhanceParsingWithAI (parseInstruction "Envía TIA".toList)
      "Envía TIA".toList .invalidJson).get "error".toList).isString
      "Error parsing AI response".toList = true := by
  decide!

/-- C9 (the code at a failing input): for the message `Envía TIA` and a remote
document with intent `send`, a valid address, `need_clarification` false and
`amount.numeric` `null`, `processMessage` returns no response at all. -/
theorem processMessage_unanswered :
    (ChatbotService.processMessage ChatbotService.initialState "Envía TIA".toList
      (.document (.obj [
        ("raw_text".toList, .str "Envía TIA".toList),
        ("address".toList, .str "celestia16e3rskkaa8l7p92uny3pqh2c96mlkhq524aksf".toList),
        ("address_valid".toList, .bool true),
        ("chain".toList, .str "celestia".toList),
        ("amount".toList, .obj [("original".toList, .str []), ("numeric".toList, .null),
          ("unit".toList, .str "TIA".toList)]),
        ("need_clarification".toList, .bool false),
        ("clarifying_questions".toList, .arr []),
        ("intent".toList, .str "send".toList),
        ("confidence".toList, .num 0.9),
        ("error".toList, .null)]))).1.responses.length = 0 ∧
    (ChatbotService.processMessage ChatbotService.initialState "Envía TIA".toList
      (.document (.obj [
        ("raw_text".toList, .str "Envía TIA".toList),
        ("address".toList, .str "celestia16e3rskkaa8l7p92uny3pqh2c96mlkhq524aksf".toList),
        ("address_valid".toList, .bool true),
        ("chain".toList, .str "celestia".toList),
        ("amount".toList, .obj [("original".toList, .str []), ("numeric".toList, .null),
          ("unit".toList, .str "TIA".toList)]),
        ("need_clarification".toList, .bool false),
        ("clarifying_questions".toList, .arr []),
        ("intent".toList, .str "send".toList),
        ("confidence".toList, .num 0.9),
        ("error".toList, .null)]))).1.transactionReady = false := by
  decide!

/-! ## Where a match lies in the text -/

theorem prevAfter_nil (prev : Option Char) : prevAfter prev [] = prev := rfl

theorem prevAfter_append_singleton (prev : Option Char) (pre : Str) (c : Char) :
    prevAfter prev (pre ++ [c]) = some c := by
  simp [prevAfter]

/-- The first match found from a position lies at some later position of the
rest of the input. -/
theorem execFrom_eq_some_split {r : Rx} {prev : Option Char} {s : Str} {x : Str × Caps}
    (h : r.execFrom prev s = some x) :
    ∃ pre post : Str, s = pre ++ post ∧ x ∈ r.run (prevAfter prev pre) post := by
  induction s generalizing prev with
  | nil =>
    exact ⟨[], [], rfl, List.mem_of_mem_head? (by simpa [Rx.execFrom] using h)⟩
  | cons c cs ih =>
    simp only [Rx.execFrom] at h
    split at h
    · rename_i m hm
      simp only [Option.some.injEq] at h
      subst h
      exact ⟨[], c :: cs, rfl, List.mem_of_mem_head? hm⟩
    · obtain ⟨pre, post, h1, h2⟩ := ih h
      refine ⟨c :: pre, post, by rw [h1]; rfl, ?_⟩
      have e : prevAfter prev (c :: pre) = prevAfter (some c) pre := by
        cases pre with
        | nil => rfl
        | cons d ds =>
          simp only [prevAfter]
          rw [List.getLast?_cons_cons]
          cases hl : List.getLast? (d :: ds) with
          | none => simp at hl
          | some z => rfl
      rw [e]
      exact h2

/-- A match is a prefix of the rest of the input. -/
theorem run_starts {r : Rx} {prev : Option Char} {s : Str} {x : Str × Caps}
    (h : x ∈ r.run prev s) : x.1 <+: s := by
  induction r generalizing prev s x with
  | oneOf ci ws =>
    obtain ⟨w, -, -, rfl⟩ := mem_run_oneOf.1 h
    exact List.take_prefix _ _
  | cls p lo hi =>
    obtain ⟨k, -, -, rfl⟩ := mem_run_cls.1 h
    exact List.take_prefix _ _
  | seq a b iha ihb =>
    obtain ⟨y, hy, z, hz, rfl⟩ := mem_run_seq.1 h
    obtain ⟨t, ht⟩ := iha hy
    obtain ⟨u, hu⟩ := ihb hz
    refine ⟨u, ?_⟩
    have hd : s.drop y.1.length = t := by
      rw [← ht]; exact List.drop_left _ _
    rw [hd] at hu
    rw [← ht, ← hu]
    simp
  | alt a b iha ihb =>
    rcases mem_run_alt.1 h with h | h
    · exact iha h
    · exact ihb h
  | opt a iha =>
    rcases mem_run_opt.1 h with h | h
    · exact iha h
    · subst h; exact List.nil_prefix
  | grp i a iha =>
    obtain ⟨y, hy, rfl⟩ := mem_run_grp.1 h
    exact (iha hy : y.1 <+: s)
  | wordB => rw [mem_run_wordB h]; exact List.nil_prefix
  | bos =>
    simp only [Rx.run] at h
    split at h <;> simp at h
    subst h; exact List.nil_prefix
  | eos =>
    simp only [Rx.run] at h
    split at h <;> simp at h
    subst h; exact List.nil_prefix

/-- The captures of a match are parts of the matched text. -/
theorem run_caps_part {r : Rx} {prev : Option Char} {s : Str} {x : Str × Caps}
    (h : x ∈ r.run prev s) : ∀ p ∈ x.2, p.2 <:+: x.1 := by
  induction r generalizing prev s x with
  | oneOf ci ws =>
    obtain ⟨w, -, -, rfl⟩ := mem_run_oneOf.1 h
    simp
  | cls p lo hi =>
    obtain ⟨k, -, -, rfl⟩ := mem_run_cls.1 h
    simp
  | seq a b iha ihb =>
    obtain ⟨y, hy, z, hz, rfl⟩ := mem_run_seq.1 h
    intro p hp
    rcases List.mem_append.1 hp with hp | hp
    · exact (iha hy p hp).trans (List.prefix_append _ _).isInfix
    · exact (ihb hz p hp).trans (List.suffix_append _ _).isInfix
  | alt a b iha ihb =>
    rcases mem_run_alt.1 h with h | h
    · exact iha h
    · exact ihb h
  | opt a iha =>
    rcases mem_run_opt.1 h with h | h
    · exact iha h
    · subst h; simp
  | grp i a iha =>
    obtain ⟨y, hy, rfl⟩ := mem_run_grp.1 h
    intro p hp
    rcases List.mem_cons.1 hp with hp | hp
    · subst hp; exact List.infix_refl _
    · exact iha hy p hp
  | wordB => rw [mem_run_wordB h]; simp
  | bos =>
    simp only [Rx.run] at h
    split at h <;> simp at h
    subst h; simp
  | eos =>
    simp only [Rx.run] at h
    split at h <;> simp at h
    subst h; simp

/-- The leftmost match of a pattern is a part of the text. -/
theorem exec_part {r : Rx} {text : Str} {x : Str × Caps} (h : r.exec text = some x) :
    x.1 <:+: text := by
  obtain ⟨pre, post, h1, h2⟩ := execFrom_eq_some_split h
  obtain ⟨t, ht⟩ := run_starts h2
  exact ⟨pre, t, by rw [h1, ← ht]; simp⟩

theorem capture_mem {c : Caps} {i : Nat} {u : Str} (h : capture c i = some u) :
    (i, u) ∈ c := by
  unfold capture at h
  induction c with
  | nil => simp [List.lookup] at h
  | cons p ps ih =>
    obtain ⟨k, v⟩ := p
    simp only [List.lookup] at h
    split at h
    · rename_i hk
      simp only [beq_iff_eq] at hk
      simp only [Option.some.injEq] at h
      subst hk; subst h
      exact List.mem_cons_self _ _
    · exact List.mem_cons_of_mem _ (ih h)

/-! ## The session state -/

/-- C14: `reset` yields the state `{pendingTransaction: null, lastParseResult:
null, awaitingConfirmation: false}` whatever the state was, which is the state
set by the constructor; so a `processMessage` call after `reset` gives the
response and the state of the same call on a fresh session. -/
theorem reset_fresh (state : ConversationState) (userMessage : Str) (remote : RemoteOutcome) :
    ChatbotService.reset state =
      { pendingTransaction := none, lastParseResult := none, awaitingConfirmation := false } ∧
    ChatbotService.reset state = ChatbotService.initialState ∧
    ChatbotService.processMessage (ChatbotService.reset state) userMessage remote =
      ChatbotService.processMessage ChatbotService.initialState userMessage remote :=
  ⟨rfl, rfl, rfl⟩

/-- The response of `processMessage` and the parse result it records, as
functions of the enhanced parse result alone. -/
theorem processMessage_state_independent (s1 s2 : ConversationState) (userMessage : Str)
    (remote : RemoteOutcome) :
    (ChatbotService.processMessage s1 userMessage remote).1 =
      (ChatbotService.processMessage s2 userMessage remote).1 ∧
    (ChatbotService.processMessage s1 userMessage remote).2.lastParseResult =
      (ChatbotService.processMessage s2 userMessage remote).2.lastParseResult := by
  simp only [ChatbotService.processMessage]
  generalize DeepSeekService.enhanceParsingWithAI (parseInstruction userMessage)
    userMessage remote = pr
  split_ifs <;> (try exact ⟨rfl, rfl⟩) <;> split <;> exact ⟨rfl, rfl⟩

/-- C15: the response of `processMessage` (`responses`, `transactionReady`,
`transactionData`) to a message and a remote outcome is the same in any two
session states, in particular in the state left by an earlier message and in
the state before it; the parse result recorded as `lastParseResult` is the
enhanced parse of the message alone, into which nothing of the earlier state is
merged. -/
theorem processMessage_stateless (s1 s2 : ConversationState) (userMessage : Str)
    (remote : RemoteOutcome) (earlier : Str) (earlierRemote : RemoteOutcome) :
    (ChatbotService.processMessage s1 userMessage remote).1 =
      (ChatbotService.processMessage s2 userMessage remote).1 ∧
    (ChatbotService.processMessage
        (ChatbotService.processMessage s1 earlier earlierRemote).2 userMessage remote).1 =
      (ChatbotService.processMessage s1 userMessage remote).1 ∧
    (ChatbotService.processMessage s1 userMessage remote).2.lastParseResult =
      some (DeepSeekService.enhanceParsingWithAI (parseInstruction userMessage)
        userMessage remote) := by
  refine ⟨(processMessage_state_independent s1 s2 userMessage remote).1,
    (processMessage_state_independent _ s1 userMessage remote).1, ?_⟩
  simp only [ChatbotService.processMessage]
  generalize DeepSeekService.enhanceParsingWithAI (parseInstruction userMessage)
    userMessage remote = pr
  split_ifs <;> (try rfl) <;> split <;> rfl

/-! ## The confidence of `parseInstruction` -/

theorem clarify_confidence (r : ParseResult) :
    (clarify r).confidence =
      if r.address = [] ∨ r.amount.numeric = none ∨ unitMissing r.amount.unit = true
      then 0.60 else 0.95 := by
  unfold clarify missingData
  by_cases h1 : r.address = [] <;> by_cases h2 : r.amount.numeric = none <;>
    by_cases h3 : unitMissing r.amount.unit = true <;> simp [h1, h2, h3]

theorem penalise_of_invalid (r : ParseResult)
    (h : (!r.address.isEmpty && !r.address_valid) = true) :
    penalise r =
      { r with error := some invalidFormatError, confidence := max 0.3 (r.confidence - 0.2) } := by
  simp only [penalise, h, if_true]

/-- C13: for a text with send intent the confidence is `c` = 0.60 when a slot
is missing and 0.95 when none is, provided the address is empty or valid; for
an address that is present and not valid the confidence is `max(0.3, c - 0.2)`,
that is 0.40 or 0.75, and the error is the diagnostic of an invalid format; in
both cases the confidence is at most `c`. -/
theorem parseInstruction_confidence (text : Str)
    (hs : ∃ k ∈ sendKeywords, k <:+: toLowerCase text) :
    (((parseInstruction text).address = [] ∨ (parseInstruction text).address_valid = true) →
      (parseInstruction text).confidence = completenessConfidence (parseInstruction text)) ∧
    (((parseInstruction text).address ≠ [] ∧ (parseInstruction text).address_valid = false) →
      (parseInstruction text).confidence =
        max 0.3 (completenessConfidence (parseInstruction text) - 0.2) ∧
      ((parseInstruction text).confidence = 0.40 ∨ (parseInstruction text).confidence = 0.75) ∧
      (parseInstruction text).error = some invalidFormatError) ∧
    (parseInstruction text).confidence ≤ completenessConfidence (parseInstruction text) := by
  have hsend := (hasSendIntent_iff text).2 hs
  have hm := unitMissing_extractAmount text
  have hc : completenessConfidence (parseInstruction text) =
      (clarify (chainFromText text
        { extractAddress text { initialResult text with intent := .send } with
          amount := extractAmount text })).confidence := by
    rw [clarify_confidence, completenessConfidence, parseInstruction_send hsend]
    simp only [penalise_address, penalise_amount, clarify_address, clarify_amount,
      chainFromText_address, chainFromText_amount, hm]
  rw [hc, parseInstruction_send hsend]
  generalize hY : clarify (chainFromText text
    { extractAddress text { initialResult text with intent := .send } with
      amount := extractAmount text }) = Y
  have hYc : Y.confidence = 0.60 ∨ Y.confidence = 0.95 := by
    rw [← hY, clarify_confidence]
    split_ifs
    · exact Or.inl rfl
    · exact Or.inr rfl
  by_cases hp : (!Y.address.isEmpty && !Y.address_valid) = true
  · rw [penalise_of_invalid Y hp]
    simp only [Bool.and_eq_true, Bool.not_eq_true', List.isEmpty_eq_false_iff_exists_mem] at hp
    refine ⟨?_, ?_, ?_⟩
    · rintro (h | h)
      · obtain ⟨c, hc⟩ := hp.1
        simp only at h
        rw [h] at hc
        simp at hc
      · simp only at h
        rw [h] at hp
        exact absurd hp.2 (by simp)
    · intro _
      refine ⟨rfl, ?_, rfl⟩
      rcases hYc with h | h <;> simp only [h] <;> norm_num
    · rcases hYc with h | h <;> simp only [h] <;> norm_num
  · have e : penalise Y = Y := by
      simp only [penalise, hp, Bool.false_eq_true, if_false]
    rw [e]
    refine ⟨fun _ => rfl, ?_, le_refl _⟩
    rintro ⟨h1, h2⟩
    exfalso
    apply hp
    have : Y.address.isEmpty = false := by
      cases h : Y.address with
      | nil => exact absurd h h1
      | cons c cs => rfl
    simp [this, h2]

/-- Witness of C13: `Envía TIA` lacks every slot and has no address, so its
confidence is 0.60. -/
theorem parseInstruction_confidence_witness :
    (parseInstruction "Envía TIA".toList).confidence = 0.60 := by
  have h := (parseInstruction_confidence "Envía TIA".toList
    ⟨"envía".toList, by decide, by decide⟩).1 (Or.inl (by decide))
  rw [h]
  rfl

theorem prevAfter_eq_none {prev : Option Char} {pre : Str}
    (h : (prevAfter prev pre).isNone = true) : pre = [] := by
  cases pre with
  | nil => rfl
  | cons c cs =>
    exfalso
    unfold prevAfter at h
    cases hl : List.getLast? (c :: cs) with
    | none => simp at hl
    | some z => rw [hl] at h; simp at h

theorem mem_run_bos {prev : Option Char} {s : Str} {y : Str × Caps}
    (h : y ∈ Rx.bos.run prev s) : y = ([], []) ∧ prev.isNone = true := by
  simp only [Rx.run] at h
  split at h
  · rename_i hp
    simp only [List.mem_singleton] at h
    exact ⟨h, hp⟩
  · simp at h

theorem mem_run_eos {prev : Option Char} {s : Str} {y : Str × Caps}
    (h : y ∈ Rx.eos.run prev s) : y = ([], []) ∧ s = [] := by
  simp only [Rx.run] at h
  split at h
  · rename_i hp
    simp only [List.mem_singleton] at h
    exact ⟨h, List.isEmpty_iff.1 hp⟩
  · simp at h

/-- A text accepted by `^w[a-z0-9]+$` is `w` followed by lower-case letters and
digits. -/
theorem test_shape_inv {w a : Str}
    (h : (Rx.seq .bos (.seq (.oneOf false [w]) (.seq (.cls isLowerAlnum 1 none) .eos))).test a
      = true) :
    ∃ body : Str, a = w ++ body ∧ body ≠ [] ∧ ∀ c ∈ body, isLowerAlnum c = true := by
  unfold Rx.test at h
  cases hx : (Rx.seq .bos (.seq (.oneOf false [w])
      (.seq (.cls isLowerAlnum 1 none) .eos))).exec a with
  | none => rw [hx] at h; simp at h
  | some x =>
    obtain ⟨pre, post, h1, h2⟩ := execFrom_eq_some_split hx
    obtain ⟨b, hb, z, hz, -⟩ := mem_run_seq.1 h2
    obtain ⟨hb1, hb2⟩ := mem_run_bos hb
    have hpre := prevAfter_eq_none hb2
    subst hpre
    subst hb1
    simp only [List.nil_append] at h1
    subst h1
    simp only [List.length_nil, List.drop_zero] at hz
    obtain ⟨l, hl, y, hy, -⟩ := mem_run_seq.1 hz
    obtain ⟨w1, hw1, hlm, rfl⟩ := mem_run_oneOf.1 hl
    simp only [List.mem_singleton] at hw1
    subst hw1
    have htake := litMatches_false_eq hlm
    obtain ⟨c, hc, e, he, -⟩ := mem_run_seq.1 hy
    obtain ⟨-, hc1, hcp, -⟩ := mem_run_cls_shape hc
    obtain ⟨-, he2⟩ := mem_run_eos he
    obtain ⟨t, ht⟩ := run_starts hc
    dsimp only at hc ht he2
    have ht0 : t = [] := by
      rw [← ht, List.drop_left] at he2
      exact he2
    rw [ht0, List.append_nil] at ht
    refine ⟨c.1, ?_, ?_, hcp⟩
    · rw [ht, htake]
      conv_lhs => rw [← List.take_append_drop w1.length a]
      rw [htake]
    · intro h0; rw [h0] at hc1; simp at hc1

theorem validateBech32Address_of_valid_shape {a : Str} (h : IsValidShape a) :
    validateBech32Address a = true := by
  rcases h with ⟨body, rfl, hlen, hp⟩ | ⟨body, rfl, hlen, hp⟩
  · have hb : body ≠ [] := by
      rintro rfl
      revert hlen; decide
    have h1 : startsWith ("celestia1".toList ++ body) "celestia1".toList = true :=
      startsWith_append _ _
    have h2 : ("celestia1".toList ++ body).isEmpty = false := rfl
    have h4 := test_shape (w := "celestia1".toList) hb hp
    simp only [validateBech32Address, h1, h2, celestiaShapeRx, h4]
    simpa using hlen
  · have hb : body ≠ [] := by
      rintro rfl
      revert hlen; decide
    have h0 : startsWith ("mocha1".toList ++ body) "celestia1".toList = false := rfl
    have h1 : startsWith ("mocha1".toList ++ body) "mocha1".toList = true :=
      startsWith_append _ _
    have h2 : ("mocha1".toList ++ body).isEmpty = false := rfl
    have h4 := test_shape (w := "mocha1".toList) hb hp
    simp only [validateBech32Address, h0, h1, h2, mochaShapeRx, h4]
    simpa using hlen

theorem validShape_of_validateBech32Address {a : Str} (h : validateBech32Address a = true) :
    IsValidShape a := by
  unfold validateBech32Address at h
  split_ifs at h with h1 h2 h3 h4
  · simp only [Bool.and_eq_true, decide_eq_true_eq] at h
    obtain ⟨body, hb, -, hp⟩ := test_shape_inv (w := "celestia1".toList) h.2
    exact Or.inl ⟨body, hb, h.1, hp⟩
  · simp only [Bool.and_eq_true, decide_eq_true_eq] at h
    obtain ⟨body, hb, -, hp⟩ := test_shape_inv (w := "mocha1".toList) h.2
    exact Or.inr ⟨body, hb, h.1, hp⟩

/-- C12: `validateBech32Address` returns true exactly for a string that starts
with `celestia1`, has length at least 45 and has only lower-case letters and
digits after the prefix, or starts with `mocha1`, has length at least 40 and
has only lower-case letters and digits after the prefix; it returns false for
every other value (no string, empty, other prefix, other characters), and the
result depends on this shape alone (no checksum). -/
theorem validateBech32Address_iff (v : JsVal) :
    (validateBech32AddressValue v = true ↔ ∃ a : Str, v = .str a ∧ IsValidShape a) ∧
    (validateBech32AddressValue v = false ↔ ¬ ∃ a : Str, v = .str a ∧ IsValidShape a) ∧
    (∀ a : Str, validateBech32Address a = true ↔ IsValidShape a) := by
  have h3 : ∀ a : Str, validateBech32Address a = true ↔ IsValidShape a :=
    fun a => ⟨validShape_of_validateBech32Address, validateBech32Address_of_valid_shape⟩
  have h1 : validateBech32AddressValue v = true ↔ ∃ a : Str, v = .str a ∧ IsValidShape a := by
    cases v with
    | str s =>
      simp only [validateBech32AddressValue, h3]
      constructor
      · intro h; exact ⟨s, rfl, h⟩
      · rintro ⟨a, ha, h⟩
        simp only [JsVal.str.injEq] at ha
        subst ha; exact h
    | _ => simp [validateBech32AddressValue]
  refine ⟨h1, ?_, h3⟩
  rw [← h1]
  simp

/-! ## Number words -/

theorem numberWordRx_eq : numberWordRx = .grp 1 (.oneOf true numberWords) := rfl

theorem unitRx_eq : unitRx = .grp 2 (.oneOf true unitWords) := rfl

theorem lowerChar_letter {c : Char} (h : isLower c = true ∨ isUpper c = true) :
    lowerChar c = [c.toLower] := by
  unfold lowerChar Char.toLower
  simp only [isLower, isUpper, Bool.and_eq_true, decide_eq_true_eq] at h
  by_cases hu : 65 ≤ c.toNat ∧ c.toNat ≤ 90
  · simp [hu]
  · have h1 : ¬ (192 ≤ c.toNat ∧ c.toNat ≤ 222 ∧ c.toNat ≠ 215) := by omega
    have h2 : ¬ c.toNat = 304 := by omega
    have h3 : ¬ c.toNat = 8490 := by omega
    have h4 : ¬ (c.toNat ≥ 65 ∧ c.toNat ≤ 90) := by omega
    simp [hu, h1, h2, h3, h4]

theorem toLowerCase_letters {N : Str} (h : ∀ c ∈ N, isLower c = true ∨ isUpper c = true) :
    toLowerCase N = N.map Char.toLower := by
  induction N with
  | nil => rfl
  | cons c cs ih =>
    simp only [List.mem_cons, forall_eq_or_imp] at h
    simp [toLowerCase, lowerChar_letter h.1, ih h.2]

theorem letter_of_toLower {c p : Char} (h : c.toLower = p) (hp : isLower p = true) :
    isLower c = true ∨ isUpper c = true :=
  eqI_letter (p := p) (by
    have hpu : isUpper p = false := by
      simp only [isLower, isUpper, Bool.and_eq_true, decide_eq_true_eq, Bool.and_eq_false_iff,
        decide_eq_false_iff_not] at hp ⊢
      omega
    simp [eqI, h, toLower_of_not_upper p hpu]) hp

theorem sameWord_letters {w N : Str} (h : SameWord w N) (hw : ∀ p ∈ w, isLower p = true) :
    ∀ c ∈ N, isLower c = true ∨ isUpper c = true := by
  intro c hc
  have : c.toLower ∈ w := by
    rw [← h]; exact List.mem_map_of_mem _ hc
  exact letter_of_toLower rfl (hw _ this)

theorem sameWord_ne_nil {w N : Str} (h : SameWord w N) (hw : w ≠ []) : N ≠ [] := by
  rintro rfl
  exact hw h.symm

theorem sameWord_toLowerCase {w N : Str} (h : SameWord w N) (hw : ∀ p ∈ w, isLower p = true) :
    toLowerCase N = w := by
  rw [toLowerCase_letters (sameWord_letters h hw)]
  exact h

theorem sameWord_of_litMatches {w s : Str} (h : litMatches true w s = true)
    (hw : ∀ p ∈ w, isLower p = true) : SameWord w (s.take w.length) := by
  unfold SameWord
  induction w generalizing s with
  | nil => simp
  | cons p ps ih =>
    cases s with
    | nil => simp [litMatches] at h
    | cons x xs =>
      simp only [litMatches, Bool.and_eq_true, if_true, eqI, beq_iff_eq] at h
      simp only [List.mem_cons, forall_eq_or_imp] at hw
      have hpu : isUpper p = false := by
        have := hw.1
        simp only [isLower, isUpper, Bool.and_eq_true, decide_eq_true_eq, Bool.and_eq_false_iff,
          decide_eq_false_iff_not] at this ⊢
        omega
      simp only [List.length_cons, List.take_succ_cons, List.map_cons, List.cons.injEq]
      exact ⟨by rw [h.1, toLower_of_not_upper p hpu], ih h.2 hw.2⟩

theorem numberWords_lower : ∀ w ∈ numberWords, w ≠ [] ∧ ∀ p ∈ w, isLower p = true := by decide

theorem unitWords_lower : ∀ w ∈ unitWords, w ≠ [] ∧ ∀ p ∈ w, isLower p = true := by decide

theorem numberWords_lookup : ∀ w ∈ numberWords, (textToNumberMap.lookup w).isSome = true := by
  decide

theorem isLetters_of_sameWord {w N : Str} (h : SameWord w N)
    (hw : w ≠ [] ∧ ∀ p ∈ w, isLower p = true) : IsLetters N :=
  ⟨sameWord_ne_nil h hw.1, sameWord_letters h hw.2⟩

theorem space_not_word {c : Char} (h : isSpace c = true) : isWordChar c = false := by
  have hu : c ≠ '_' := by
    rintro rfl
    revert h; decide
  have hu2 : (c == '_') = false := by simpa using hu
  simp only [isSpace, isWordChar, isLower, isUpper, isDigit, Bool.and_eq_true, decide_eq_true_eq,
    Bool.or_eq_true, Bool.or_eq_false_iff, Bool.and_eq_false_iff, decide_eq_false_iff_not,
    beq_iff_eq, hu2, and_true] at h ⊢
  omega

theorem run_decimal_eq_nil {prev : Option Char} {s : Str} (h : StopsAt isDigit s) :
    decimalRx.run prev s = [] := by
  have h0 : (s.takeWhile isDigit).length = 0 := by
    cases s with
    | nil => rfl
    | cons c cs =>
      have := h c (by simp)
      simp [List.takeWhile, this]
  apply run_seq_eq_nil
  simp [Rx.run, clsMax, h0]

theorem head?_run_alt_right {a b : Rx} {prev : Option Char} {s : Str}
    (h : a.run prev s = []) : ((Rx.alt a b).run prev s).head? = (b.run prev s).head? := by
  simp [Rx.run, h]

theorem stopsAt_letters {N T : Str} (h : IsLetters N) : StopsAt isDigit (N ++ T) := by
  intro c hc
  obtain ⟨hN, hNp⟩ := h
  cases N with
  | nil => exact absurd rfl hN
  | cons d ds =>
    simp only [List.cons_append, List.head?_cons, Option.mem_def, Option.some.injEq] at hc
    subst hc
    exact (letter_props (hNp _ (by simp))).2.1

/-- `numUnitRx` on a word, white space and a word: the two words are captured. -/
theorem head?_run_numUnit_word {prev : Option Char} {N W U : Str} (hN : IsLetters N)
    (hW : W ≠ [] ∧ ∀ c ∈ W, isSpace c = true) (hU : IsLetters U) :
    (numUnitRx.run prev (N ++ W ++ U)).head? = some (N ++ W ++ U, [(1, N), (2, U)]) := by
  have hNlen : 1 ≤ N.length := by
    cases N with
    | nil => exact absurd rfl hN.1
    | cons d ds => simp
  have hUlen : 1 ≤ U.length := by
    cases U with
    | nil => exact absurd rfl hU.1
    | cons d ds => simp
  have hstop : StopsAt isWordChar (W ++ U) := by
    intro c hc
    obtain ⟨hW1, hWp⟩ := hW
    cases W with
    | nil => exact absurd rfl hW1
    | cons w ws =>
      simp only [List.cons_append, List.head?_cons, Option.mem_def, Option.some.injEq] at hc
      subst hc
      exact space_not_word (hWp _ (by simp))
  have h0 : decimalRx.run prev (N ++ (W ++ U)) = [] := run_decimal_eq_nil (stopsAt_letters hN)
  have h1 : ((Rx.cls isWordChar 1 none).run prev (N ++ (W ++ U))).head? = some (N, []) :=
    head?_run_cls (fun c hc => (letter_props (hN.2 c hc)).1) hstop hNlen
  have h2 := head?_run_grp (i := 1) ((head?_run_alt_right h0).trans h1)
  have h3 : ((Rx.cls isSpace 0 none).run (prevAfter prev N) (W ++ U)).head? = some (W, []) :=
    head?_run_cls hW.2 (fun c hc => (letter_props (hU.2 c (List.mem_of_mem_head? hc))).2.2.1)
      (Nat.zero_le _)
  have h4 : ((Rx.cls isWordChar 1 none).run (prevAfter (prevAfter prev N) W)
      (U ++ [])).head? = some (U, []) :=
    head?_run_cls (fun c hc => (letter_props (hU.2 c hc)).1) (by intro c hc; simp at hc) hUlen
  have h5 := head?_run_opt_some (head?_run_grp (i := 2) h4)
  rw [List.append_nil] at h5
  have h6 := head?_run_seq (b := .opt (.grp 2 (.cls isWordChar 1 none))) h3
    (by simpa using h5)
  have h7 := head?_run_seq
    (b := .seq (.cls isSpace 0 none) (.opt (.grp 2 (.cls isWordChar 1 none)))) h2
    (by simpa using h6)
  simpa [numUnitRx, List.append_assoc] using h7

/-- `numUnitRx` on a single word: only group 1 takes part. -/
theorem head?_run_numUnit_letters {prev : Option Char} {N : Str} (hN : IsLetters N) :
    (numUnitRx.run prev N).head? = some (N, [(1, N)]) := by
  have hNlen : 1 ≤ N.length := by
    cases N with
    | nil => exact absurd rfl hN.1
    | cons d ds => simp
  have h0 : decimalRx.run prev (N ++ []) = [] := run_decimal_eq_nil (stopsAt_letters hN)
  have h1 : ((Rx.cls isWordChar 1 none).run prev (N ++ [])).head? = some (N, []) :=
    head?_run_cls (fun c hc => (letter_props (hN.2 c hc)).1) (by intro c hc; simp at hc) hNlen
  have h2 := head?_run_grp (i := 1) ((head?_run_alt_right h0).trans h1)
  have h3 : ((Rx.cls isSpace 0 none).run (prevAfter prev N) ([] ++ [])).head? =
      some ([], []) :=
    head?_run_cls (by simp) (by intro c hc; simp at hc) (Nat.zero_le _)
  have h5 : ((Rx.opt (.grp 2 (.cls isWordChar 1 none))).run
      (prevAfter (prevAfter prev N) []) []).head? = some ([], []) :=
    head?_run_opt_none (by simp [Rx.run, clsMax])
  have h6 := head?_run_seq (b := .opt (.grp 2 (.cls isWordChar 1 none))) h3
    (by simpa using h5)
  have h7 := head?_run_seq
    (b := .seq (.cls isSpace 0 none) (.opt (.grp 2 (.cls isWordChar 1 none)))) h2
    (by simpa using h6)
  simpa [numUnitRx] using h7

theorem decimalValue_letters {N : Str} (hN : IsLetters N) : decimalValue N = none := by
  obtain ⟨h1, h2⟩ := hN
  cases N with
  | nil => exact absurd rfl h1
  | cons c cs =>
    have := (letter_props (h2 c (by simp))).2.1
    simp [decimalValue, List.takeWhile, this]

/-- The amount after the loop when the first remaining rule matches a word,
white space and a word. -/
theorem amountLoop_of_word {text : Str} {r : Rx} (rest : List Rx) {m : Str × Caps}
    {N W U : Str} (h : r.exec text = some m) (hm : m.1 = N ++ W ++ U) (hN : IsLetters N)
    (hW : W ≠ [] ∧ ∀ c ∈ W, isSpace c = true) (hU : IsLetters U) :
    amountLoop text (r :: rest) emptyAmount =
      { original := N ++ W ++ U, numeric := textToNumberMap.lookup (toLowerCase N),
        unit := some U } := by
  have h2 := exec_of_head? (@head?_run_numUnit_word none N W U hN hW hU)
  have hUe : U.isEmpty = false := by
    cases U with
    | nil => exact absurd rfl hU.1
    | cons d ds => rfl
  have hc1 : capture [(1, N), (2, U)] 1 = some N := rfl
  have hc2 : capture [(1, N), (2, U)] 2 = some U := rfl
  rw [amountLoop]
  simp only [h, hm, h2, hc1, hc2, Option.getD_some, decimalValue_letters hN, emptyAmount, hUe]
  cases textToNumberMap.lookup (toLowerCase N) <;> simp

/-- C11: when rule 1 does not match and the leftmost match of rule 2 is a number
word `w` in any letter case, at least one white space character and a unit
token, `amount.numeric` is the value of `w` in the table and `amount.unit` is
the unit token as it is written. -/
theorem extractAmount_number_word (text N W U w u : Str)
    (h1 : firstMatch rule1 text = none)
    (h2 : firstMatch rule2 text = some (N ++ W ++ U))
    (hw : w ∈ numberWords) (hN : SameWord w N)
    (hW : W ≠ [] ∧ ∀ c ∈ W, isSpace c = true)
    (hu : u ∈ unitWords) (hU : SameWord u U) :
    (extractAmount text).numeric = textToNumberMap.lookup w ∧
    (textToNumberMap.lookup w).isSome = true ∧
    (extractAmount text).unit = some U := by
  obtain ⟨x, hx, hx1⟩ := firstMatch_eq_some h2
  have hNl := isLetters_of_sameWord hN (numberWords_lower w hw)
  have hUl := isLetters_of_sameWord hU (unitWords_lower u hu)
  have hloop : amountLoop text patterns emptyAmount =
      { original := N ++ W ++ U, numeric := textToNumberMap.lookup w, unit := some U } := by
    rw [patterns, amountLoop_of_no_match _ _ (firstMatch_eq_none h1),
      amountLoop_of_word _ hx hx1 hNl hW hUl,
      sameWord_toLowerCase hN (numberWords_lower w hw).2]
  have hsome := numberWords_lookup w hw
  have hUe : U.isEmpty = false := by
    cases U with
    | nil => exact absurd rfl hUl.1
    | cons d ds => rfl
  rw [extractAmount, hloop]
  simp [unitMissing, hUe, hsome]

/-- Witness of C11: the example of the specification. -/
theorem extractAmount_number_word_witness :
    (extractAmount "Envía cinco TIA a celestia1...".toList).numeric = some 5 ∧
    (extractAmount "Envía cinco TIA a celestia1...".toList).unit = some "TIA".toList := by
  have h := extractAmount_number_word "Envía cinco TIA a celestia1...".toList
    "cinco".toList " ".toList "TIA".toList "cinco".toList "tia".toList
    (by decide) (by decide) (by decide) (by unfold SameWord; decide)
    ⟨by decide, by decide⟩ (by decide) (by unfold SameWord; decide)
  refine ⟨?_, h.2.2⟩
  rw [h.1]
  decide

/-! ## The unit of the amount -/

theorem numberWord_sameWord {prev : Option Char} {s : Str} {y : Str × Caps}
    (h : y ∈ numberWordRx.run prev s) : ∃ w ∈ numberWords, SameWord w y.1 := by
  rw [numberWordRx_eq] at h
  obtain ⟨x, hx, rfl⟩ := mem_run_grp.1 h
  obtain ⟨w, hw, hm, rfl⟩ := mem_run_oneOf.1 hx
  exact ⟨w, hw, sameWord_of_litMatches hm (numberWords_lower w hw).2⟩

theorem isLetters_append {A B : Str} (hA : IsLetters A) (hB : IsLetters B) :
    IsLetters (A ++ B) := by
  refine ⟨by simp [hA.1], ?_⟩
  intro c hc
  rcases List.mem_append.1 hc with h | h
  · exact hA.2 c h
  · exact hB.2 c h

/-- The amount after the loop when the first remaining rule matches a single
word: the number is looked up in the table and no unit is captured. -/
theorem amountLoop_of_letters {text : Str} {r : Rx} (rest : List Rx) {m : Str × Caps}
    (h : r.exec text = some m) (hN : IsLetters m.1) :
    amountLoop text (r :: rest) emptyAmount =
      { original := m.1, numeric := textToNumberMap.lookup (toLowerCase m.1), unit := none } := by
  have h2 := exec_of_head? (@head?_run_numUnit_letters none m.1 hN)
  have hc1 : capture [(1, m.1)] 1 = some m.1 := rfl
  have hc2 : capture [(1, m.1)] 2 = none := rfl
  rw [amountLoop]
  simp only [h, h2, hc1, hc2, Option.getD_some, decimalValue_letters hN, emptyAmount]
  cases textToNumberMap.lookup (toLowerCase m.1) <;> simp

/-- The amount after the loop when the first remaining rule matches a bare
decimal: the number is parsed and no unit is captured. -/
theorem amountLoop_of_decimal {text : Str} {r : Rx} (rest : List Rx) {m : Str × Caps}
    {D F : Str} (h : r.exec text = some m) (hm : m.1 = D ++ F) (hDF : IsDecimal D F) :
    amountLoop text (r :: rest) emptyAmount =
      { original := D ++ F, numeric := some (decimalNumber D F), unit := none } := by
  have h2 := exec_of_head? (@head?_run_numUnit_bare none D F hDF)
  have hc1 : capture [(1, D ++ F)] 1 = some (D ++ F) := rfl
  have hc2 : capture [(1, D ++ F)] 2 = none := rfl
  rw [amountLoop]
  simp only [h, hm, h2, hc1, hc2, Option.getD_some, decimalValue_decimal hDF]

/-- The amount after the loop when the first remaining rule matches a decimal,
white space and a unit. -/
theorem amountLoop_of_decimal_unit {text : Str} {r : Rx} (rest : List Rx) {m : Str × Caps}
    {D F W U : Str} (h : r.exec text = some m) (hm : m.1 = D ++ F ++ W ++ U)
    (hDF : IsDecimal D F) (hW : ∀ c ∈ W, isSpace c = true) (hU : IsLetters U) :
    amountLoop text (r :: rest) emptyAmount =
      { original := D ++ F ++ W ++ U, numeric := some (decimalNumber D F), unit := some U } := by
  have h2 := exec_of_head? (@head?_run_numUnit_unit none D F W U hDF hW hU)
  have hUe : U.isEmpty = false := by
    cases U with
    | nil => exact absurd rfl hU.1
    | cons d ds => rfl
  have hc1 : capture [(1, D ++ F), (2, U)] 1 = some (D ++ F) := rfl
  have hc2 : capture [(1, D ++ F), (2, U)] 2 = some U := rfl
  rw [amountLoop]
  simp only [h, hm, h2, hc1, hc2, Option.getD_some, decimalValue_decimal hDF, hUe]
  simp

/-- The shape of a match of rule 2: a number word, white space, a unit token. -/
theorem rule2_shape {prev : Option Char} {s : Str} {y : Str × Caps}
    (h : y ∈ rule2.run prev s) :
    ∃ w N W U : Str, w ∈ numberWords ∧ SameWord w N ∧ y.1 = N ++ W ++ U ∧
      (∀ c ∈ W, isSpace c = true) ∧ IsLetters U := by
  simp only [rule2, mem_run_seq] at h
  obtain ⟨b, hb, z, ⟨n, hn, t, ⟨sp, hsp, u, hu, rfl⟩, rfl⟩, rfl⟩ := h
  rw [mem_run_wordB hb]
  obtain ⟨w, hw, hs⟩ := numberWord_sameWord hn
  obtain ⟨-, -, hsp2, -⟩ := mem_run_cls_shape hsp
  exact ⟨w, n.1, sp.1, u.1, hw, hs, by simp, hsp2, unit_shape hu⟩

/-- The shape of a match of rule 4: a number word. -/
theorem rule4_shape {prev : Option Char} {s : Str} {y : Str × Caps}
    (h : y ∈ rule4.run prev s) : ∃ w ∈ numberWords, SameWord w y.1 := by
  simp only [rule4, mem_run_seq] at h
  obtain ⟨b, hb, z, ⟨n, hn, t, ht, rfl⟩, rfl⟩ := h
  rw [mem_run_wordB hb, mem_run_wordB ht]
  obtain ⟨w, hw, hs⟩ := numberWord_sameWord hn
  exact ⟨w, hw, by simpa using hs⟩

/-- After the loop of `extractAmount` a number was found or no unit was captured. -/
theorem amountLoop_numeric_or_unit (text : Str) :
    (amountLoop text patterns emptyAmount).numeric ≠ none ∨
      (amountLoop text patterns emptyAmount).unit = none := by
  rw [patterns]
  cases h1 : rule1.exec text with
  | some m =>
    obtain ⟨prev, s, hm⟩ := exec_eq_some_mem h1
    obtain ⟨D, F, W, U, e, hDF, hW, hU⟩ := rule1_shape hm
    rw [amountLoop_of_decimal_unit _ h1 e hDF hW hU]
    exact Or.inl (by simp)
  | none =>
    rw [amountLoop_of_no_match _ _ h1]
    cases h2 : rule2.exec text with
    | some m =>
      obtain ⟨prev, s, hm⟩ := exec_eq_some_mem h2
      obtain ⟨w, N, W, U, hw, hN, e, hW, hU⟩ := rule2_shape hm
      have hNl := isLetters_of_sameWord hN (numberWords_lower w hw)
      by_cases hW0 : W = []
      · subst hW0
        have hl : IsLetters m.1 := by
          rw [e, List.append_nil]; exact isLetters_append hNl hU
        rw [amountLoop_of_letters _ h2 hl]
        exact Or.inr rfl
      · rw [amountLoop_of_word _ h2 e hNl ⟨hW0, hW⟩ hU,
          sameWord_toLowerCase hN (numberWords_lower w hw).2]
        left
        have := numberWords_lookup w hw
        cases hl : textToNumberMap.lookup w with
        | none => rw [hl] at this; simp at this
        | some q => simp
    | none =>
      rw [amountLoop_of_no_match _ _ h2]
      cases h3 : rule3.exec text with
      | some m =>
        obtain ⟨prev, s, hm⟩ := exec_eq_some_mem h3
        simp only [rule3, mem_run_grp] at hm
        obtain ⟨x, hx, rfl⟩ := hm
        obtain ⟨D, F, rfl, hDF⟩ := decimal_shape hx
        rw [amountLoop_of_decimal _ h3 rfl hDF]
        exact Or.inl (by simp)
      | none =>
        rw [amountLoop_of_no_match _ _ h3]
        cases h4 : rule4.exec text with
        | some m =>
          obtain ⟨prev, s, hm⟩ := exec_eq_some_mem h4
          obtain ⟨w, hw, hN⟩ := rule4_shape hm
          have hNl := isLetters_of_sameWord hN (numberWords_lower w hw)
          rw [amountLoop_of_letters _ h4 hNl]
          exact Or.inr rfl
        | none =>
          rw [amountLoop_of_no_match _ _ h4]
          exact Or.inr rfl

/-- A unit captured by the loop of `extractAmount` is a part of the text. -/
theorem amountLoop_unit_part (text : Str) (ps : List Rx) (res : Amount)
    (h : ∀ u, res.unit = some u → u <:+: text) :
    ∀ u, (amountLoop text ps res).unit = some u → u <:+: text := by
  induction ps generalizing res with
  | nil => simpa [amountLoop] using h
  | cons p ps ih =>
    intro u hu
    rw [amountLoop] at hu
    cases hm : p.exec text with
    | none =>
      simp only [hm] at hu
      exact ih res h u hu
    | some m =>
      simp only [hm] at hu
      cases hnu : numUnitRx.exec m.1 with
      | none =>
        simp only [hnu] at hu
        exact ih { original := m.1, numeric := res.numeric, unit := res.unit } h u hu
      | some nu =>
        simp only [hnu] at hu
        cases hc : capture nu.2 2 with
        | none => simp [hc] at hu
        | some v =>
          simp only [hc] at hu
          split_ifs at hu
          simp only [Option.some.injEq] at hu
          subst hu
          obtain ⟨pre, post, e, hmem⟩ := execFrom_eq_some_split hnu
          have h1 : v <:+: nu.1 := run_caps_part hmem _ (capture_mem hc)
          have h2 : nu.1 <:+: m.1 := by
            obtain ⟨t, ht⟩ := run_starts hmem
            exact ⟨pre, t, by rw [e, ← ht]; simp⟩
          exact (h1.trans h2).trans (exec_part hm)

theorem extractAmount_numeric (text : Str) :
    (extractAmount text).numeric = (amountLoop text patterns emptyAmount).numeric := by
  unfold extractAmount
  simp only
  split_ifs <;> rfl

/-- C20: when the loop of `extractAmount` found a number and captured no unit,
`amount.unit` is `TIA` if the lower-cased text contains `tia`, otherwise `MOCHA`
if it contains `mocha`, otherwise `null`; a captured unit is returned as it
stands in the text; and when no number is found the unit is `null`. -/
theorem extractAmount_unit (text : Str) :
    ((amountLoop text patterns emptyAmount).numeric ≠ none →
      (amountLoop text patterns emptyAmount).unit = none →
      (extractAmount text).unit =
        if "tia".toList <:+: toLowerCase text then some "TIA".toList
        else if "mocha".toList <:+: toLowerCase text then some "MOCHA".toList
        else none) ∧
    (∀ u, (amountLoop text patterns emptyAmount).unit = some u →
      (extractAmount text).unit = some u ∧ u <:+: text) ∧
    ((extractAmount text).numeric = none → (extractAmount text).unit = none) := by
  refine ⟨?_, ?_, ?_⟩
  · intro hn hu
    have hs : (amountLoop text patterns emptyAmount).numeric.isSome = true := by
      cases h : (amountLoop text patterns emptyAmount).numeric with
      | none => exact absurd h hn
      | some q => rfl
    unfold extractAmount
    simp only [hs, hu, unitMissing, Bool.and_self, if_true, includes_iff]
    split_ifs <;> simp [hu]
  · intro u hu
    have hne := amountLoop_unit_ne text patterns emptyAmount (by simp [emptyAmount])
    have hue : u.isEmpty = false := by
      cases u with
      | nil => rw [hu] at hne; exact absurd rfl hne
      | cons c cs => rfl
    refine ⟨?_, amountLoop_unit_part text patterns emptyAmount (by simp [emptyAmount]) u hu⟩
    unfold extractAmount
    simp [hu, unitMissing, hue]
  · intro hn
    rw [extractAmount_numeric] at hn
    have hu : (amountLoop text patterns emptyAmount).unit = none := by
      rcases amountLoop_numeric_or_unit text with h | h
      · exact absurd hn h
      · exact h
    unfold extractAmount
    simp [hn, hu]

/-- Witness of C20: a bare number with `tia` or `mocha` elsewhere in the text, a
captured unit in capitals, and a number word glued to its unit. -/
theorem extractAmount_unit_witness :
    (extractAmount "send 5 to celestia".toList).unit = some "TIA".toList ∧
    (extractAmount "send 5 on Mocha".toList).unit = some "MOCHA".toList ∧
    (extractAmount "send 5".toList).unit = none ∧
    (extractAmount "send 5 MoCha".toList).unit = some "MoCha".toList ∧
    (extractAmount "manda unotia".toList).unit = none := by
  refine ⟨?_, ?_, ?_, ?_, ?_⟩
  · rw [(extractAmount_unit "send 5 to celestia".toList).1 (by decide) (by decide)]
    decide
  · rw [(extractAmount_unit "send 5 on Mocha".toList).1 (by decide) (by decide)]
    decide
  · rw [(extractAmount_unit "send 5".toList).1 (by decide) (by decide)]
    decide
  · exact ((extractAmount_unit "send 5 MoCha".toList).2.1 "MoCha".toList (by decide)).1
  · exact (extractAmount_unit "manda unotia".toList).2.2 (by decide)

/-- C18 (the code at a failing input): the table gives `cero` and `zero` the value
0, but the patterns of rules 2 and 4 do not list these two words, so
`Envía cero TIA` and `send zero tia` yield no amount at all. -/
theorem extractAmount_cero_zero :
    textToNumberMap.lookup "cero".toList = some 0 ∧
    textToNumberMap.lookup "zero".toList = some 0 ∧
    "cero".toList ∉ numberWords ∧ "zero".toList ∉ numberWords ∧
    hasSendIntent "Envía cero TIA".toList = true ∧
    (parseInstruction "Envía cero TIA".toList).amount =
      { original := [], numeric := none, unit := none } ∧
    hasSendIntent "send zero tia".toList = true ∧
    (parseInstruction "send zero tia".toList).amount =
      { original := [], numeric := none, unit := none } := by
  decide

/-- C19 (the code at a failing input): the address found is
`MOCHA16e3rskkaa8l7p92uny3pqh2c96mlkhq524aksf`, which begins with `mocha1` in
capitals, and the chain returned is `celestia`, the word found elsewhere in the
text. -/
theorem parseInstruction_chain_of_capitals :
    (parseInstruction
      "send 1 tia to MOCHA16e3rskkaa8l7p92uny3pqh2c96mlkhq524aksf via celestia".toList).address =
      "MOCHA16e3rskkaa8l7p92uny3pqh2c96mlkhq524aksf".toList ∧
    (parseInstruction
      "send 1 tia to MOCHA16e3rskkaa8l7p92uny3pqh2c96mlkhq524aksf via celestia".toList).chain =
      .celestia := by
  decide

/-- The chain of an address found by either pattern whose prefix is written in
lower case is the chain of the prefix. -/
theorem chainOfAddress_lower (a : Str) (chain : Chain) :
    ("celestia1".toList <+: a → chainOfAddress a chain = .celestia) ∧
    ("mocha1".toList <+: a → chainOfAddress a chain = .mocha) := by
  constructor
  · intro h
    rw [chainOfAddress, (startsWith_iff _ _).2 h]
    rfl
  · intro h
    obtain ⟨t, rfl⟩ := h
    have h0 : startsWith ("mocha1".toList ++ t) "celestia1".toList = false := rfl
    rw [chainOfAddress, h0, startsWith_append]
    rfl

/-! ## Faults in `processMessage` -/

/-- C16 as amended: when `processMessage` throws while it reads `amount.numeric`
or while it renders the address, the response is the generic apology alone
with `transactionReady` false and no `transactionData`, and
`pendingTransaction` and `awaitingConfirmation` are what they were before the
call; `lastParseResult` is the enhanced parse result, set before the fault. -/
theorem processMessage_fault (state : ConversationState) (userMessage : Str)
    (remote : RemoteOutcome)
    (h : ChatbotService.throwsOnAmount (DeepSeekService.enhanceParsingWithAI
          (parseInstruction userMessage) userMessage remote) = true ∨
        ChatbotService.throwsOnAddress (DeepSeekService.enhanceParsingWithAI
          (parseInstruction userMessage) userMessage remote) = true) :
    (ChatbotService.processMessage state userMessage remote).1.responses =
      ChatbotService.apologyLines ∧
    (ChatbotService.processMessage state userMessage remote).1.transactionReady = false ∧
    (ChatbotService.processMessage state userMessage remote).1.transactionData = none ∧
    (ChatbotService.processMessage state userMessage remote).2.pendingTransaction =
      state.pendingTransaction ∧
    (ChatbotService.processMessage state userMessage remote).2.awaitingConfirmation =
      state.awaitingConfirmation ∧
    (ChatbotService.processMessage state userMessage remote).2.lastParseResult =
      some (DeepSeekService.enhanceParsingWithAI (parseInstruction userMessage)
        userMessage remote) := by
  revert h
  simp only [ChatbotService.processMessage, ChatbotService.throwsOnAmount,
    ChatbotService.throwsOnAddress]
  generalize DeepSeekService.enhanceParsingWithAI (parseInstruction userMessage)
    userMessage remote = pr
  generalize pr.get "intent".toList = vI
  generalize pr.get "need_clarification".toList = vN
  generalize pr.get "clarifying_questions".toList = vQ
  generalize pr.get "address_valid".toList = vV
  generalize pr.get "address".toList = vA
  generalize pr.get "amount".toList = vM
  generalize pr.get "chain".toList = vC
  generalize vM.get "numeric".toList = vX
  generalize vM.get "unit".toList = vU
  generalize vI.isString "send".toList = bI
  generalize vN.truthy = bN
  generalize vV.truthy = bV
  generalize vM.isNullish = bM
  generalize vX.isNull = bX
  intro h
  cases bI
  · simp at h
  cases bN
  swap
  · simp at h
  cases bV
  · simp at h
  cases bM <;> cases bX <;> cases vA <;> simp_all [JsVal.isStr, JsVal.truthy]

/-- Witness of C16 as amended: the remote document has `amount: null`. -/
theorem processMessage_fault_witness :
    (ChatbotService.processMessage ChatbotService.initialState "Envía TIA".toList
      (.document (.obj [("intent".toList, .str "send".toList),
        ("need_clarification".toList, .bool false),
        ("address_valid".toList, .bool true),
        ("address".toList, .str "celestia16e3rskkaa8l7p92uny3pqh2c96mlkhq524aksf".toList),
        ("amount".toList, .null)]))).1.responses = ChatbotService.apologyLines :=
  (processMessage_fault ChatbotService.initialState "Envía TIA".toList
    (.document (.obj [("intent".toList, .str "send".toList),
      ("need_clarification".toList, .bool false),
      ("address_valid".toList, .bool true),
      ("address".toList, .str "celestia16e3rskkaa8l7p92uny3pqh2c96mlkhq524aksf".toList),
      ("amount".toList, .null)])) (Or.inl (by decide!))).1

/-- Counterexample to C16 as stated: for the message `Envía TIA` and a remote
document with `amount: null` the read of `amount.numeric` throws, and the call
leaves a `lastParseResult` in a session that had none: the state is not what
it was before the call. -/
theorem processMessage_fault_counterexample :
    ChatbotService.throwsOnAmount (DeepSeekService.enhanceParsingWithAI
      (parseInstruction "Envía TIA".toList) "Envía TIA".toList
      (.document (.obj [("intent".toList, .str "send".toList),
        ("need_clarification".toList, .bool false),
        ("address_valid".toList, .bool true),
        ("address".toList, .str "celestia16e3rskkaa8l7p92uny3pqh2c96mlkhq524aksf".toList),
        ("amount".toList, .null)]))) = true ∧
    ChatbotService.initialState.lastParseResult.isSome = false ∧
    (ChatbotService.processMessage ChatbotService.initialState "Envía TIA".toList
      (.document (.obj [("intent".toList, .str "send".toList),
        ("need_clarification".toList, .bool false),
        ("address_valid".toList, .bool true),
        ("address".toList, .str "celestia16e3rskkaa8l7p92uny3pqh2c96mlkhq524aksf".toList),
        ("amount".toList, .null)]))).2.lastParseResult.isSome = true := by
  decide!

/-! ## The range of the confidence -/

theorem parseInstruction_confidence_cases (text : Str) :
    (parseInstruction text).confidence = 0.99 ∨ (parseInstruction text).confidence = 0.60 ∨
    (parseInstruction text).confidence = 0.95 ∨
    (parseInstruction text).confidence = max 0.3 (0.60 - 0.2) ∨
    (parseInstruction text).confidence = max 0.3 (0.95 - 0.2) := by
  cases h : hasSendIntent text
  · left
    rw [parseInstruction_other h]
  · right
    rw [parseInstruction_send h]
    generalize hY : clarify (chainFromText text
      { extractAddress text { initialResult text with intent := .send } with
        amount := extractAmount text }) = Y
    have hYc : Y.confidence = 0.60 ∨ Y.confidence = 0.95 := by
      rw [← hY, clarify_confidence]
      split_ifs
      · exact Or.inl rfl
      · exact Or.inr rfl
    by_cases hp : (!Y.address.isEmpty && !Y.address_valid) = true
    · rw [penalise_of_invalid Y hp]
      rcases hYc with h | h
      · right; right; left; simp only [h]
      · right; right; right; simp only [h]
    · have e : penalise Y = Y := by
        simp only [penalise, hp, Bool.false_eq_true, if_false]
      rw [e]
      rcases hYc with h | h
      · left; exact h
      · right; left; exact h

theorem parseInstruction_confidence_range (text : Str) :
    0 ≤ (parseInstruction text).confidence ∧ (parseInstruction text).confidence ≤ 1 := by
  rcases parseInstruction_confidence_cases text with h | h | h | h | h <;> rw [h] <;>
    constructor <;> norm_num

theorem get_confidence_toJs (L : ParseResult) :
    L.toJs.get "confidence".toList = .num L.confidence := rfl

theorem get_of_not_hasField {d : JsVal} {key : Str} (h : d.hasField key = false) :
    d.get key = .undefined := by
  unfold JsVal.hasField at h
  unfold JsVal.get
  cases hk : JsVal.lookupLast d.ownFields key with
  | none => rfl
  | some w => rw [hk] at h; exact absurd h (by simp)

theorem inUnitInterval_max {a q : ℚ} (ha : 0 ≤ a ∧ a ≤ 1) (hq : 0 ≤ q ∧ q ≤ 1) :
    InUnitInterval (.num (max a q)) :=
  ⟨max a q, rfl, le_trans ha.1 (le_max_left _ _), max_le ha.2 hq.2⟩

theorem mathMax_failureDocument (a : ℚ) (text question error : Str) :
    JsVal.mathMax a (((DeepSeekService.failureDocument text question error).get
      "confidence".toList).orElse (.num 0)) = some (.num (max a 0.1)) := by
  have : (DeepSeekService.failureDocument text question error).get "confidence".toList =
      .num 0.1 := rfl
  rw [this, mathMax_num]

/-- C17 as amended: the confidence of `parseInstruction` lies between 0 and 1 for
every text; the confidence of `enhanceParsingWithAI` lies between 0 and 1 when
the local confidence does and the remote service fails or returns a document
whose `confidence` is absent or a number between 0 and 1. -/
theorem confidence_range (text : Str) (L : ParseResult) (original : Str)
    (remote : RemoteOutcome) (hL : 0 ≤ L.confidence ∧ L.confidence ≤ 1)
    (hr : RemoteConfidenceInRange remote) :
    (0 ≤ (parseInstruction text).confidence ∧ (parseInstruction text).confidence ≤ 1) ∧
    InUnitInterval
      ((DeepSeekService.enhanceParsingWithAI L original remote).get "confidence".toList) := by
  refine ⟨parseInstruction_confidence_range text, ?_⟩
  have hLJ : InUnitInterval (L.toJs.get "confidence".toList) :=
    ⟨L.confidence, get_confidence_toJs L, hL.1, hL.2⟩
  unfold DeepSeekService.enhanceParsingWithAI
  split_ifs with hskip
  · exact hLJ
  · cases remote with
    | noApiKey => exact hLJ
    | requestFailed message =>
      simp only [DeepSeekService.parseInstruction]
      have hn : (DeepSeekService.failureDocument original
          "Error conectando con el servicio AI".toList
          ("API Error: ".toList ++ message)).isNullish = false := rfl
      rw [hn]
      simp only [Bool.false_eq_true, if_false, mathMax_failureDocument]
      rw [get_mergedResult, if_pos rfl]
      exact inUnitInterval_max hL (by norm_num)
    | invalidJson =>
      simp only [DeepSeekService.parseInstruction]
      have hn : (DeepSeekService.failureDocument original
          "Error al procesar la respuesta del AI".toList
          "Error parsing AI response".toList).isNullish = false := rfl
      rw [hn]
      simp only [Bool.false_eq_true, if_false, mathMax_failureDocument]
      rw [get_mergedResult, if_pos rfl]
      exact inUnitInterval_max hL (by norm_num)
    | document d =>
      simp only [DeepSeekService.parseInstruction]
      cases hd : d.isNullish
      swap
      · exact hLJ
      · simp only [Bool.false_eq_true, if_false]
        rcases hr with hf | ⟨q, hq, hq0, hq1⟩
        · rw [get_of_not_hasField hf, mathMax_undefined]
          dsimp only
          rw [get_mergedResult, if_pos rfl]
          exact inUnitInterval_max hL (by norm_num)
        · rw [hq, mathMax_num]
          dsimp only
          rw [get_mergedResult, if_pos rfl]
          exact inUnitInterval_max hL ⟨hq0, hq1⟩

/-- Witness of C17 as amended: the local parse of `Envía TIA` and a failed
request. -/
theorem confidence_range_witness :
    (0 ≤ (parseInstruction "hola".toList).confidence ∧
      (parseInstruction "hola".toList).confidence ≤ 1) ∧
    InUnitInterval
      ((DeepSeekService.enhanceParsingWithAI (parseInstruction "Envía TIA".toList)
        "Envía TIA".toList (.requestFailed "Network Error".toList)).get "confidence".toList) :=
  confidence_range "hola".toList (parseInstruction "Envía TIA".toList) "Envía TIA".toList
    (.requestFailed "Network Error".toList)
    (by
      rw [show (parseInstruction "Envía TIA".toList).confidence = 0.60 from rfl]
      constructor <;> norm_num)
    trivial

/-- Counterexample to C17 as stated: the local parse of `Envía TIA` has
confidence 0.60, the remote service returns the document `{"confidence": 5}`,
and the confidence of the result is 5. -/
theorem confidence_range_counterexample :
    (0 ≤ (parseInstruction "Envía TIA".toList).confidence ∧
      (parseInstruction "Envía TIA".toList).confidence ≤ 1) ∧
    (DeepSeekService.enhanceParsingWithAI (parseInstruction "Envía TIA".toList)
      "Envía TIA".toList
      (.document (.obj [("confidence".toList, .num 5)]))).get "confidence".toList = .num 5 ∧
    ¬ InUnitInterval ((DeepSeekService.enhanceParsingWithAI
      (parseInstruction "Envía TIA".toList) "Envía TIA".toList
      (.document (.obj [("confidence".toList, .num 5)]))).get "confidence".toList) := by
  have hc : (parseInstruction "Envía TIA".toList).confidence = 0.60 := rfl
  have hM : (DeepSeekService.enhanceParsingWithAI (parseInstruction "Envía TIA".toList)
      "Envía TIA".toList
      (.document (.obj [("confidence".toList, .num 5)]))).get "confidence".toList = .num 5 := by
    have hmax : JsVal.mathMax (parseInstruction "Envía TIA".toList).confidence
        (((JsVal.obj [("confidence".toList, .num 5)]).get "confidence".toList).orElse
          (.num 0)) = some (.num 5) := by
      have : (JsVal.obj [("confidence".toList, .num 5)]).get "confidence".toList = .num 5 := rfl
      rw [this, mathMax_num, hc]
      norm_num
    rw [@enhanceParsingWithAI_document (parseInstruction "Envía TIA".toList)
      "Envía TIA".toList (.obj [("confidence".toList, .num 5)]) (.num 5)
      (fun h => absurd h.2 (by decide)) rfl hmax, get_mergedResult, if_pos rfl]
  refine ⟨by rw [hc]; constructor <;> norm_num, hM, ?_⟩
  rw [hM]
  rintro ⟨q, hq, -, hq1⟩
  simp only [JsVal.num.injEq] at hq
  rw [← hq] at hq1
  norm_num at hq1

/-! ## The responses of `processMessage` -/

/-- C22 (the code at a failing input): of the four example commands shown to
the user, `Transfiere 2 mocha a celestia1...` (line 115) contains no send
keyword and is parsed with intent `other`; the three others have intent `send`. -/
theorem parseInstruction_examples :
    (parseInstruction "Envía 5 TIA a celestia1abc...".toList).intent = .send ∧
    (parseInstruction "Manda 0.1 TIA a celestia1xyz...".toList).intent = .send ∧
    (parseInstruction "¿Podrías mandar 2 mocha a celestia1xyz...?".toList).intent = .send ∧
    (parseInstruction "Transfiere 2 mocha a celestia1...".toList).intent = .other ∧
    hasSendIntent "Transfiere 2 mocha a celestia1...".toList = false := by
  decide

/-- C21: when the enhanced parse result has intent `send`, a truthy
`need_clarification` and a list of `clarifying_questions`, the responses are
the introduction, the questions in their order and the closing prompt (two
lines more than there are questions), `transactionReady` is false and
`transactionData` is `null`, whatever `address_valid` is. -/
theorem processMessage_clarification (state : ConversationState) (userMessage : Str)
    (remote : RemoteOutcome) (questions : List JsVal)
    (h1 : ((DeepSeekService.enhanceParsingWithAI (parseInstruction userMessage) userMessage
      remote).get "intent".toList).isString "send".toList = true)
    (h2 : ((DeepSeekService.enhanceParsingWithAI (parseInstruction userMessage) userMessage
      remote).get "need_clarification".toList).truthy = true)
    (h3 : (DeepSeekService.enhanceParsingWithAI (parseInstruction userMessage) userMessage
      remote).get "clarifying_questions".toList = .arr questions) :
    (ChatbotService.processMessage state userMessage remote).1.responses =
      [ChatbotService.introLine] ++ questions.map ChatbotService.lineOfValue ++
        [ChatbotService.closingLine] ∧
    (ChatbotService.processMessage state userMessage remote).1.responses.length =
      questions.length + 2 ∧
    (ChatbotService.processMessage state userMessage remote).1.transactionReady = false ∧
    (ChatbotService.processMessage state userMessage remote).1.transactionData = none := by
  simp only [ChatbotService.processMessage, h1, h2, h3, JsVal.spread, Bool.not_true,
    Bool.false_eq_true, if_false, if_true]
  simp

/-- Witness of C21: `send unotia to celestia1abc` has a truncated address and
lacks the amount and the unit; the two questions are asked and the response
for an address that is not valid is not given. -/
theorem processMessage_clarification_witness :
    (parseInstruction "send unotia to celestia1abc".toList).address_valid = false ∧
    (ChatbotService.processMessage ChatbotService.initialState
      "send unotia to celestia1abc".toList .noApiKey).1.responses =
      [ChatbotService.introLine, .text amountQuestion, .text unitQuestion,
        ChatbotService.closingLine] := by
  refine ⟨by decide, ?_⟩
  have h := processMessage_clarification ChatbotService.initialState
    "send unotia to celestia1abc".toList .noApiKey
    [.str amountQuestion, .str unitQuestion]
    (by rw [enhanceParsingWithAI_noApiKey]; decide)
    (by rw [enhanceParsingWithAI_noApiKey]; decide)
    (by
      rw [enhanceParsingWithAI_noApiKey]
      have : (parseInstruction "send unotia to celestia1abc".toList).clarifying_questions =
          [amountQuestion, unitQuestion] := by decide
      show JsVal.arr ((parseInstruction
        "send unotia to celestia1abc".toList).clarifying_questions.map JsVal.str) = _
      rw [this]
      rfl)
  exact h.1

/-! ## A summary of `parseInstruction` on a text with send intent -/

theorem completenessConfidence_eq (r : ParseResult) :
    completenessConfidence r = if SlotMissing r then 0.60 else 0.95 := rfl

/-- The result for a text with a send keyword: need of clarification, confidence
and diagnostic in terms of its own slots. -/
theorem parseInstruction_send_summary {text : Str} (hs : hasSendIntent text = true) :
    (parseInstruction text).intent = .send ∧
    ((parseInstruction text).need_clarification = true ↔ SlotMissing (parseInstruction text)) ∧
    (((parseInstruction text).address = [] ∨ (parseInstruction text).address_valid = true) →
      (parseInstruction text).confidence = completenessConfidence (parseInstruction text)) ∧
    (((parseInstruction text).address ≠ [] ∧ (parseInstruction text).address_valid = false) →
      (parseInstruction text).confidence =
        max 0.3 (completenessConfidence (parseInstruction text) - 0.2) ∧
      (parseInstruction text).error = some invalidFormatError) := by
  have hm := unitMissing_extractAmount text
  have hi : (parseInstruction text).intent = .send := by
    simp [parseInstruction_intent_eq, hs]
  have hn : (parseInstruction text).need_clarification = true ↔
      SlotMissing (parseInstruction text) := by
    unfold SlotMissing
    rw [parseInstruction_send hs]
    simp only [penalise_need_clarification, penalise_address, penalise_amount,
      clarify_address, clarify_amount, chainFromText_address, chainFromText_amount,
      clarify_need_clarification, hm]
  have hc : completenessConfidence (parseInstruction text) =
      (clarify (chainFromText text
        { extractAddress text { initialResult text with intent := .send } with
          amount := extractAmount text })).confidence := by
    rw [clarify_confidence, completenessConfidence, parseInstruction_send hs]
    simp only [penalise_address, penalise_amount, clarify_address, clarify_amount,
      chainFromText_address, chainFromText_amount, hm]
  refine ⟨hi, hn, ?_, ?_⟩
  · rw [hc, parseInstruction_send hs]
    generalize clarify (chainFromText text
      { extractAddress text { initialResult text with intent := .send } with
        amount := extractAmount text }) = Y
    intro h
    by_cases hp : (!Y.address.isEmpty && !Y.address_valid) = true
    · exfalso
      rw [penalise_of_invalid Y hp] at h
      simp only [Bool.and_eq_true, Bool.not_eq_true', List.isEmpty_eq_false_iff_exists_mem] at hp
      rcases h with h | h
      · obtain ⟨c, hc⟩ := hp.1
        simp only at h
        rw [h] at hc
        simp at hc
      · simp only at h
        rw [h] at hp
        exact absurd hp.2 (by simp)
    · have e : penalise Y = Y := by
        simp only [penalise, hp, Bool.false_eq_true, if_false]
      rw [e]
  · rw [hc, parseInstruction_send hs]
    generalize clarify (chainFromText text
      { extractAddress text { initialResult text with intent := .send } with
        amount := extractAmount text }) = Y
    rintro ⟨h1, h2⟩
    by_cases hp : (!Y.address.isEmpty && !Y.address_valid) = true
    · rw [penalise_of_invalid Y hp]
      exact ⟨rfl, rfl⟩
    · exfalso
      have e : penalise Y = Y := by
        simp only [penalise, hp, Bool.false_eq_true, if_false]
      rw [e] at h1 h2
      apply hp
      have : Y.address.isEmpty = false := by
        cases h : Y.address with
        | nil => exact absurd h h1
        | cons c cs => rfl
      simp [this, h2]

/-- C28: the local result meets the skip condition of the enhancer (confidence
above 0.8, no need of clarification) exactly when its intent is `other`, or its
intent is `send`, no slot is missing and the address is valid; a local result
that needs clarification has confidence below 0.7; a complete parse with an
address that is not valid has confidence 0.75. -/
theorem parseInstruction_skip (text : Str) :
    (((parseInstruction text).confidence > 0.8 ∧
        (parseInstruction text).need_clarification = false) ↔
      ((parseInstruction text).intent = .other ∨
        ((parseInstruction text).intent = .send ∧ ¬ SlotMissing (parseInstruction text) ∧
          (parseInstruction text).address_valid = true))) ∧
    ((parseInstruction text).need_clarification = true →
      (parseInstruction text).confidence < 0.7) ∧
    ((parseInstruction text).intent = .send → ¬ SlotMissing (parseInstruction text) →
      (parseInstruction text).address_valid = false →
      (parseInstruction text).confidence = 0.75) := by
  cases hs : hasSendIntent text
  · have hL := parseInstruction_other hs
    rw [hL]
    refine ⟨?_, ?_, ?_⟩
    · exact ⟨fun _ => Or.inl rfl, fun _ => ⟨by norm_num, rfl⟩⟩
    · simp [initialResult]
    · simp
  · obtain ⟨hi, hn, hc1, hc2⟩ := parseInstruction_send_summary hs
    generalize parseInstruction text = L at hi hn hc1 hc2
    rw [completenessConfidence_eq] at hc1 hc2
    have hio : L.intent ≠ .other := by rw [hi]; decide
    by_cases hm : SlotMissing L
    · have hnt := hn.2 hm
      simp only [hm, if_true] at hc1 hc2
      have hconf : L.confidence < 0.7 := by
        by_cases ha : L.address = [] ∨ L.address_valid = true
        · rw [hc1 ha]; norm_num
        · have ha' : L.address ≠ [] ∧ L.address_valid = false := by
            constructor
            · intro h; exact ha (Or.inl h)
            · cases h : L.address_valid
              · rfl
              · exact absurd (Or.inr h) ha
          rw [(hc2 ha').1]; norm_num
      refine ⟨?_, fun _ => hconf, fun _ h => absurd hm h⟩
      constructor
      · rintro ⟨-, h⟩; rw [hnt] at h; exact absurd h (by decide)
      · rintro (h | ⟨-, h, -⟩)
        · exact absurd h hio
        · exact absurd hm h
    · have hnf : L.need_clarification = false := by
        cases h : L.need_clarification
        · rfl
        · exact absurd (hn.1 h) hm
      have hne : L.address ≠ [] := fun h => hm (Or.inl h)
      simp only [hm, if_false] at hc1 hc2
      refine ⟨?_, fun h => by rw [hnf] at h; exact absurd h (by decide), ?_⟩
      · constructor
        · rintro ⟨hgt, -⟩
          right
          refine ⟨hi, hm, ?_⟩
          cases hv : L.address_valid
          · exfalso
            rw [(hc2 ⟨hne, hv⟩).1] at hgt
            norm_num at hgt
          · rfl
        · rintro (h | ⟨-, -, hv⟩)
          · exact absurd h hio
          · rw [hc1 (Or.inr hv)]
            exact ⟨by norm_num, hnf⟩
      · intro _ _ hv
        rw [(hc2 ⟨hne, hv⟩).1]
        norm_num

/-! ## The address of `parseInstruction` -/

theorem parseInstruction_of_full {text : Str} {x : Str × Caps}
    (hs : hasSendIntent text = true) (hx : fullAddressRx.exec text = some x) :
    (parseInstruction text).address = x.1 ∧
    (parseInstruction text).address_valid = validateBech32Address x.1 ∧
    (parseInstruction text).chain =
      (chainFromText text
        { initialResult text with chain := chainOfAddress x.1 .unknown }).chain := by
  rw [parseInstruction_send hs, extractAddress_of_full _ hx]
  refine ⟨by simp, by simp, ?_⟩
  simp only [penalise_chain, clarify_chain]
  unfold chainFromText
  simp only [initialResult]
  split_ifs <;> rfl

theorem lowerAlnum_not_upper {c : Char} (h : isLowerAlnum c = true) : isUpper c = false := by
  simp only [isLowerAlnum, isLower, isDigit, isUpper, Bool.or_eq_true, Bool.and_eq_true,
    decide_eq_true_eq, Bool.and_eq_false_iff, decide_eq_false_iff_not] at h ⊢
  omega

theorem validShape_no_upper {a : Str} (h : IsValidShape a) : ∀ c ∈ a, isUpper c = false := by
  have h1 : ∀ c ∈ "celestia1".toList, isUpper c = false := by decide
  have h2 : ∀ c ∈ "mocha1".toList, isUpper c = false := by decide
  rcases h with ⟨body, rfl, -, hp⟩ | ⟨body, rfl, -, hp⟩
  · intro c hc
    rcases List.mem_append.1 hc with h | h
    · exact h1 c h
    · exact lowerAlnum_not_upper (hp c h)
  · intro c hc
    rcases List.mem_append.1 hc with h | h
    · exact h2 c h
    · exact lowerAlnum_not_upper (hp c h)

theorem fullAddress_valid_iff {text : Str} {x : Str × Caps}
    (hx : fullAddressRx.exec text = some x) :
    validateBech32Address x.1 = true ↔ ∀ c ∈ x.1, isUpper c = false := by
  constructor
  · intro h
    exact validShape_no_upper (validShape_of_validateBech32Address h)
  · intro hl
    obtain ⟨w, body, hw, hxw, hb1, -, hbp⟩ := fullAddress_lower hx hl
    rw [hxw]
    exact validateBech32Address_of_shape hw hb1 hbp

theorem fullAddress_ne_nil {text : Str} {x : Str × Caps}
    (hx : fullAddressRx.exec text = some x) : x.1 ≠ [] := by
  obtain ⟨prev, s, hm⟩ := exec_eq_some_mem hx
  obtain ⟨w, body, hw, h1, h2, h3, -⟩ := fullAddress_shape hm
  intro h0
  rw [h0] at h1
  have := congrArg List.length h1
  simp only [List.length_nil, List.length_append] at this
  omega

/-- C27: when the text has a send keyword and the full address pattern matches,
the match is the address; it is valid exactly when it has no capital letter;
with a capital letter it is not valid, the error is the diagnostic of an
invalid format and the confidence is 0.75 or 0.40. -/
theorem parseInstruction_capitals (text a : Str)
    (hs : ∃ k ∈ sendKeywords, k <:+: toLowerCase text)
    (ha : firstMatch fullAddressRx text = some a) :
    (parseInstruction text).address = a ∧
    ((parseInstruction text).address_valid = true ↔ ∀ c ∈ a, isUpper c = false) ∧
    ((∃ c ∈ a, isUpper c = true) →
      (parseInstruction text).address_valid = false ∧
      (parseInstruction text).error = some invalidFormatError ∧
      ((parseInstruction text).confidence = 0.75 ∨ (parseInstruction text).confidence = 0.40)) := by
  have hsend := (hasSendIntent_iff text).2 hs
  obtain ⟨x, hx, rfl⟩ := firstMatch_eq_some ha
  obtain ⟨h1, h2, -⟩ := parseInstruction_of_full hsend hx
  have hiff : (parseInstruction text).address_valid = true ↔ ∀ c ∈ x.1, isUpper c = false := by
    rw [h2]; exact fullAddress_valid_iff hx
  refine ⟨h1, hiff, ?_⟩
  rintro ⟨c, hc, hu⟩
  have hv : (parseInstruction text).address_valid = false := by
    cases h : (parseInstruction text).address_valid
    · rfl
    · have := hiff.1 h c hc
      rw [hu] at this
      exact absurd this (by decide)
  obtain ⟨-, -, -, hc2⟩ := parseInstruction_send_summary hsend
  have hne : (parseInstruction text).address ≠ [] := by
    rw [h1]; exact fullAddress_ne_nil hx
  obtain ⟨e1, e2⟩ := hc2 ⟨hne, hv⟩
  refine ⟨hv, e2, ?_⟩
  rw [e1, completenessConfidence_eq]
  split_ifs
  · right; norm_num
  · left; norm_num

/-- Witness of C27: an address with a capital letter in its body. -/
theorem parseInstruction_capitals_witness :
    (parseInstruction
      "send 5 tia to celestia16E3rskkaa8l7p92uny3pqh2c96mlkhq524aksf".toList).address_valid
      = false ∧
    (parseInstruction
      "send 5 tia to celestia16E3rskkaa8l7p92uny3pqh2c96mlkhq524aksf".toList).error
      = some invalidFormatError :=
  have h := (parseInstruction_capitals
    "send 5 tia to celestia16E3rskkaa8l7p92uny3pqh2c96mlkhq524aksf".toList
    "celestia16E3rskkaa8l7p92uny3pqh2c96mlkhq524aksf".toList
    ⟨"send".toList, by decide, by decide⟩ (by decide)).2.2 ⟨'E', by decide, by decide⟩
  ⟨h.1, h.2.1⟩

/-! ## The transfer intent of a complete local parse -/

/-- What `processMessage` does when the enhanced parse result is a local result
with intent `send`, no need of clarification, a valid address that is not
empty, a number and a unit. -/
theorem processMessage_of_complete (state : ConversationState) (userMessage : Str)
    (remote : RemoteOutcome) (L : ParseResult) (u : Str) (q : ℚ)
    (hL : DeepSeekService.enhanceParsingWithAI (parseInstruction userMessage) userMessage
      remote = L.toJs)
    (hi : L.intent = .send) (hn : L.need_clarification = false) (hv : L.address_valid = true)
    (ha : L.address ≠ []) (hq : L.amount.numeric = some q) (hu : L.amount.unit = some u)
    (hue : u ≠ []) (hc : L.chain ≠ .unknown) :
    (ChatbotService.processMessage state userMessage remote).1.transactionReady = true ∧
    (ChatbotService.processMessage state userMessage remote).1.transactionData =
      some { toAddress := .str L.address, amount := .num q, unit := .str u,
             chain := .str L.chain.toStr } ∧
    (ChatbotService.processMessage state userMessage remote).2.pendingTransaction =
      some { toAddress := .str L.address, amount := .num q, unit := .str u,
             chain := .str L.chain.toStr } := by
  simp only [ChatbotService.processMessage, hL]
  obtain ⟨raw, addr, valid, chain, ⟨orig, num, unit⟩, need, qs, intent, conf, err⟩ := L
  simp only at hi hn hv ha hq hu hc
  subst hi hn hv hq hu
  have g1 : (ParseResult.toJs ⟨raw, addr, true, chain, ⟨orig, some q, some u⟩, false, qs,
      .send, conf, err⟩).get "intent".toList = .str "send".toList := rfl
  have g2 : (ParseResult.toJs ⟨raw, addr, true, chain, ⟨orig, some q, some u⟩, false, qs,
      .send, conf, err⟩).get "need_clarification".toList = .bool false := rfl
  have g3 : (ParseResult.toJs ⟨raw, addr, true, chain, ⟨orig, some q, some u⟩, false, qs,
      .send, conf, err⟩).get "address_valid".toList = .bool true := rfl
  have g4 : (ParseResult.toJs ⟨raw, addr, true, chain, ⟨orig, some q, some u⟩, false, qs,
      .send, conf, err⟩).get "address".toList = .str addr := rfl
  have g5 : (ParseResult.toJs ⟨raw, addr, true, chain, ⟨orig, some q, some u⟩, false, qs,
      .send, conf, err⟩).get "amount".toList =
      .obj [("original".toList, .str orig), ("numeric".toList, .num q),
        ("unit".toList, .str u)] := rfl
  have g6 : (ParseResult.toJs ⟨raw, addr, true, chain, ⟨orig, some q, some u⟩, false, qs,
      .send, conf, err⟩).get "chain".toList = .str chain.toStr := rfl
  have g7 : (JsVal.obj [("original".toList, .str orig), ("numeric".toList, .num q),
      ("unit".toList, .str u)]).get "numeric".toList = .num q := rfl
  have g8 : (JsVal.obj [("original".toList, .str orig), ("numeric".toList, .num q),
      ("unit".toList, .str u)]).get "unit".toList = .str u := rfl
  have t1 : (JsVal.str addr).truthy = true := by
    cases addr with
    | nil => exact absurd rfl ha
    | cons c cs => rfl
  have t2 : (JsVal.str u).orElse (.str "TIA".toList) = .str u := by
    cases u with
    | nil => exact absurd rfl hue
    | cons c cs => rfl
  have t3 : (JsVal.str chain.toStr).orElse (.str "celestia".toList) = .str chain.toStr := by
    cases chain with
    | unknown => exact absurd rfl hc
    | celestia => rfl
    | mocha => rfl
  rw [g1, g2, g3, g4, g5, g6, g7, g8, t2, t3]
  simp only [t1]
  exact ⟨rfl, rfl, rfl⟩

theorem enhanceParsingWithAI_of_skip (L : ParseResult) (text : Str) (remote : RemoteOutcome)
    (hc : L.confidence > 0.8) (hn : L.need_clarification = false) :
    DeepSeekService.enhanceParsingWithAI L text remote = L.toJs := by
  simp [DeepSeekService.enhanceParsingWithAI, DeepSeekService.skipsRemote, hc, hn]

theorem hasSendIntent_of_intent {text : Str} (h : (parseInstruction text).intent = .send) :
    hasSendIntent text = true := by
  rw [parseInstruction_intent_eq] at h
  by_contra h0
  simp [h0] at h

theorem parseInstruction_amount {text : Str} (hs : hasSendIntent text = true) :
    (parseInstruction text).amount = extractAmount text := by
  rw [parseInstruction_send hs]
  simp

/-- A valid address in a result of `parseInstruction` passes the validator and
determines the chain. -/
theorem parseInstruction_valid {text : Str} (hv : (parseInstruction text).address_valid = true) :
    validateBech32Address (parseInstruction text).address = true ∧
    (("celestia1".toList <+: (parseInstruction text).address ∧
        (parseInstruction text).chain = .celestia) ∨
      ("mocha1".toList <+: (parseInstruction text).address ∧
        (parseInstruction text).chain = .mocha)) := by
  cases hs : hasSendIntent text
  · rw [parseInstruction_other hs] at hv
    simp [initialResult] at hv
  · cases hx : fullAddressRx.exec text with
    | none =>
      exfalso
      rw [parseInstruction_send hs] at hv
      simp only [penalise_address_valid, clarify_address_valid, chainFromText_address_valid]
        at hv
      unfold extractAddress at hv
      simp only [hx] at hv
      split at hv <;> simp [initialResult] at hv
    | some x =>
      obtain ⟨h1, h2, h3⟩ := parseInstruction_of_full hs hx
      rw [h2] at hv
      rw [h1]
      refine ⟨hv, ?_⟩
      rw [h3]
      rcases validShape_of_validateBech32Address hv with ⟨body, hb, -, -⟩ | ⟨body, hb, -, -⟩
      · left
        have hp : "celestia1".toList <+: x.1 := ⟨body, hb.symm⟩
        have hc := (chainOfAddress_lower x.1 .unknown).1 hp
        refine ⟨hp, ?_⟩
        rw [chainFromText_of_known _ _ (by simp only [hc]; decide)]
        exact hc
      · right
        have hp : "mocha1".toList <+: x.1 := ⟨body, hb.symm⟩
        have hc := (chainOfAddress_lower x.1 .unknown).2 hp
        refine ⟨hp, ?_⟩
        rw [chainFromText_of_known _ _ (by simp only [hc]; decide)]
        exact hc

/-- C29: when the local parse of a message meets the skip condition and has
intent `send`, `processMessage` emits a transfer intent whose address is the
parsed address and passes `validateBech32Address`, whose chain is `celestia` or
`mocha` as the prefix of the address says, whose unit is the parsed or inferred
unit, which is not empty, and whose amount is the parsed `amount.numeric`. -/
theorem processMessage_of_skip (state : ConversationState) (userMessage : Str)
    (remote : RemoteOutcome)
    (hskip : (parseInstruction userMessage).confidence > 0.8 ∧
      (parseInstruction userMessage).need_clarification = false)
    (hsend : (parseInstruction userMessage).intent = .send) :
    ∃ (u : Str) (q : ℚ),
      (parseInstruction userMessage).amount.unit = some u ∧ u ≠ [] ∧
      (parseInstruction userMessage).amount.numeric = some q ∧
      validateBech32Address (parseInstruction userMessage).address = true ∧
      (("celestia1".toList <+: (parseInstruction userMessage).address ∧
          (parseInstruction userMessage).chain = .celestia) ∨
        ("mocha1".toList <+: (parseInstruction userMessage).address ∧
          (parseInstruction userMessage).chain = .mocha)) ∧
      (ChatbotService.processMessage state userMessage remote).1.transactionReady = true ∧
      (ChatbotService.processMessage state userMessage remote).1.transactionData =
        some { toAddress := .str (parseInstruction userMessage).address, amount := .num q,
               unit := .str u, chain := .str (parseInstruction userMessage).chain.toStr } := by
  have hs := hasSendIntent_of_intent hsend
  obtain ⟨-, hn, hc1, hc2⟩ := parseInstruction_send_summary hs
  have hm : ¬ SlotMissing (parseInstruction userMessage) := by
    intro h
    have := hn.2 h
    rw [hskip.2] at this
    exact absurd this (by decide)
  have hne : (parseInstruction userMessage).address ≠ [] := fun h => hm (Or.inl h)
  have hv : (parseInstruction userMessage).address_valid = true := by
    cases hv : (parseInstruction userMessage).address_valid
    · exfalso
      have e := (hc2 ⟨hne, hv⟩).1
      rw [completenessConfidence_eq, if_neg hm] at e
      have h1 := hskip.1
      rw [e] at h1
      norm_num at h1
    · rfl
  obtain ⟨q, hq⟩ : ∃ q, (parseInstruction userMessage).amount.numeric = some q := by
    cases h : (parseInstruction userMessage).amount.numeric with
    | none => exact absurd (Or.inr (Or.inl h)) hm
    | some q => exact ⟨q, rfl⟩
  obtain ⟨u, hu⟩ : ∃ u, (parseInstruction userMessage).amount.unit = some u := by
    cases h : (parseInstruction userMessage).amount.unit with
    | none => exact absurd (Or.inr (Or.inr h)) hm
    | some u => exact ⟨u, rfl⟩
  have hue : u ≠ [] := by
    rintro rfl
    rw [parseInstruction_amount hs] at hu
    exact extractAmount_unit_ne userMessage hu
  obtain ⟨hval, hchain⟩ := parseInstruction_valid hv
  have hck : (parseInstruction userMessage).chain ≠ .unknown := by
    rcases hchain with ⟨-, h⟩ | ⟨-, h⟩ <;> rw [h] <;> decide
  obtain ⟨r1, r2, -⟩ := processMessage_of_complete state userMessage remote
    (parseInstruction userMessage) u q
    (enhanceParsingWithAI_of_skip _ _ _ hskip.1 hskip.2) hsend hskip.2 hv hne hq hu hue hck
  exact ⟨u, q, hu, hue, hq, hval, hchain, r1, r2⟩

/-- Witness of C29: the example of the specification. -/
theorem processMessage_of_skip_witness :
    ∃ (u : Str) (q : ℚ),
      (parseInstruction
        "Envía 5 TIA a celestia16e3rskkaa8l7p92uny3pqh2c96mlkhq524aksf".toList).amount.unit
        = some u ∧ u ≠ [] ∧
      (parseInstruction
        "Envía 5 TIA a celestia16e3rskkaa8l7p92uny3pqh2c96mlkhq524aksf".toList).amount.numeric
        = some q ∧
      (ChatbotService.processMessage ChatbotService.initialState
        "Envía 5 TIA a celestia16e3rskkaa8l7p92uny3pqh2c96mlkhq524aksf".toList
        .invalidJson).1.transactionReady = true := by
  obtain ⟨u, q, h1, h2, h3, -, -, h6, -⟩ := processMessage_of_skip ChatbotService.initialState
    "Envía 5 TIA a celestia16e3rskkaa8l7p92uny3pqh2c96mlkhq524aksf".toList .invalidJson
    ⟨by
      rw [show (parseInstruction
        "Envía 5 TIA a celestia16e3rskkaa8l7p92uny3pqh2c96mlkhq524aksf".toList).confidence = 0.95
        from rfl]
      norm_num, by decide⟩ (by decide)
  exact ⟨u, q, h1, h2, h3, h6⟩

/-! ## The sign of the amount -/

theorem textToNumberMap_nonneg {k : Str} {q : ℚ} (h : textToNumberMap.lookup k = some q) :
    0 ≤ q := by
  have hmem : ∀ (l : List (Str × ℚ)), l.lookup k = some q → q ∈ l.map Prod.snd := by
    intro l
    induction l with
    | nil => intro h; simp [List.lookup] at h
    | cons p ps ih =>
      obtain ⟨a, b⟩ := p
      intro h
      simp only [List.lookup] at h
      split at h
      · simp only [Option.some.injEq] at h
        subst h
        simp
      · simp only [List.map_cons, List.mem_cons]
        exact Or.inr (ih h)
  have h1 := hmem _ h
  simp only [textToNumberMap, List.map_cons, List.map_nil, List.mem_cons, List.mem_singleton,
    List.not_mem_nil, or_false] at h1
  rcases h1 with h | h | h | h | h | h | h | h | h | h | h | h | h | h | h | h | h | h | h |
    h | h | h | h <;> rw [h] <;> norm_num

theorem decimalNumber_nonneg (D F : Str) : 0 ≤ decimalNumber D F := by
  unfold decimalNumber
  positivity

/-- After the loop of `extractAmount` the number, if any, is not negative. -/
theorem amountLoop_numeric_nonneg (text : Str) (q : ℚ)
    (hq : (amountLoop text patterns emptyAmount).numeric = some q) : 0 ≤ q := by
  rw [patterns] at hq
  cases h1 : rule1.exec text with
  | some m =>
    obtain ⟨prev, s, hm⟩ := exec_eq_some_mem h1
    obtain ⟨D, F, W, U, e, hDF, hW, hU⟩ := rule1_shape hm
    rw [amountLoop_of_decimal_unit _ h1 e hDF hW hU] at hq
    simp only [Option.some.injEq] at hq
    rw [← hq]; exact decimalNumber_nonneg D F
  | none =>
    rw [amountLoop_of_no_match _ _ h1] at hq
    cases h2 : rule2.exec text with
    | some m =>
      obtain ⟨prev, s, hm⟩ := exec_eq_some_mem h2
      obtain ⟨w, N, W, U, hw, hN, e, hW, hU⟩ := rule2_shape hm
      have hNl := isLetters_of_sameWord hN (numberWords_lower w hw)
      by_cases hW0 : W = []
      · subst hW0
        have hl : IsLetters m.1 := by
          rw [e, List.append_nil]; exact isLetters_append hNl hU
        rw [amountLoop_of_letters _ h2 hl] at hq
        exact textToNumberMap_nonneg hq
      · rw [amountLoop_of_word _ h2 e hNl ⟨hW0, hW⟩ hU] at hq
        exact textToNumberMap_nonneg hq
    | none =>
      rw [amountLoop_of_no_match _ _ h2] at hq
      cases h3 : rule3.exec text with
      | some m =>
        obtain ⟨prev, s, hm⟩ := exec_eq_some_mem h3
        simp only [rule3, mem_run_grp] at hm
        obtain ⟨x, hx, rfl⟩ := hm
        obtain ⟨D, F, rfl, hDF⟩ := decimal_shape hx
        rw [amountLoop_of_decimal _ h3 rfl hDF] at hq
        simp only [Option.some.injEq] at hq
        rw [← hq]; exact decimalNumber_nonneg D F
      | none =>
        rw [amountLoop_of_no_match _ _ h3] at hq
        cases h4 : rule4.exec text with
        | some m =>
          obtain ⟨prev, s, hm⟩ := exec_eq_some_mem h4
          obtain ⟨w, hw, hN⟩ := rule4_shape hm
          have hNl := isLetters_of_sameWord hN (numberWords_lower w hw)
          rw [amountLoop_of_letters _ h4 hNl] at hq
          exact textToNumberMap_nonneg hq
        | none =>
          rw [amountLoop_of_no_match _ _ h4] at hq
          simp [amountLoop, emptyAmount] at hq

/-- C30: a number returned by `extractAmount` is never negative; a minus sign in
front of the digits is not part of the match, so `send -5 TIA ...` yields 5;
zero is a number like any other, so `Envía 0 TIA a <valid address>` is ready
with amount 0, whatever the remote service would do. -/
theorem extractAmount_nonneg (text : Str) (q : ℚ) (remote : RemoteOutcome)
    (h : (extractAmount text).numeric = some q) :
    0 ≤ q ∧
    (extractAmount "send -5 TIA to x".toList).numeric = some 5 ∧
    (extractAmount "send -5 TIA to x".toList).original = "5 TIA".toList ∧
    (ChatbotService.processMessage ChatbotService.initialState
      "Envía 0 TIA a celestia16e3rskkaa8l7p92uny3pqh2c96mlkhq524aksf".toList
      remote).1.transactionReady = true ∧
    (ChatbotService.processMessage ChatbotService.initialState
      "Envía 0 TIA a celestia16e3rskkaa8l7p92uny3pqh2c96mlkhq524aksf".toList
      remote).1.transactionData =
      some { toAddress := .str "celestia16e3rskkaa8l7p92uny3pqh2c96mlkhq524aksf".toList,
             amount := .num 0, unit := .str "TIA".toList, chain := .str "celestia".toList } := by
  refine ⟨?_, by decide, by decide, ?_⟩
  · rw [extractAmount_numeric] at h
    exact amountLoop_numeric_nonneg text q h
  · have hconf : (parseInstruction
        "Envía 0 TIA a celestia16e3rskkaa8l7p92uny3pqh2c96mlkhq524aksf".toList).confidence
        > 0.8 := by
      rw [show (parseInstruction
        "Envía 0 TIA a celestia16e3rskkaa8l7p92uny3pqh2c96mlkhq524aksf".toList).confidence = 0.95
        from rfl]
      norm_num
    obtain ⟨r1, r2, -⟩ := processMessage_of_complete ChatbotService.initialState
      "Envía 0 TIA a celestia16e3rskkaa8l7p92uny3pqh2c96mlkhq524aksf".toList remote
      (parseInstruction "Envía 0 TIA a celestia16e3rskkaa8l7p92uny3pqh2c96mlkhq524aksf".toList)
      "TIA".toList 0
      (enhanceParsingWithAI_of_skip _ _ _ hconf (by decide)) (by decide) (by decide) (by decide)
      (by decide) (by decide) (by decide) (by decide) (by decide)
    refine ⟨r1, ?_⟩
    rw [r2]
    have ha : (parseInstruction
        "Envía 0 TIA a celestia16e3rskkaa8l7p92uny3pqh2c96mlkhq524aksf".toList).address =
        "celestia16e3rskkaa8l7p92uny3pqh2c96mlkhq524aksf".toList := by decide
    have hc : (parseInstruction
        "Envía 0 TIA a celestia16e3rskkaa8l7p92uny3pqh2c96mlkhq524aksf".toList).chain =
        .celestia := by decide
    rw [ha, hc]
    rfl

/-- Witness of C30: the amount of `send -5 TIA to x` is 5. -/
theorem extractAmount_nonneg_witness :
    (extractAmount "send -5 TIA to x".toList).numeric = some 5 ∧ (0 : ℚ) ≤ 5 :=
  ⟨by decide, (extractAmount_nonneg "send -5 TIA to x".toList 5 .noApiKey (by decide)).1⟩

/-! ## The address of a transfer intent -/

theorem get_address_toJs (L : ParseResult) : L.toJs.get "address".toList = .str L.address := rfl

theorem get_address_valid_toJs (L : ParseResult) :
    L.toJs.get "address_valid".toList = .bool L.address_valid := rfl

/-- The address and its validity in the enhanced parse result are the local
ones in the cases of `AddressIsLocal`. -/
theorem enhanceParsingWithAI_address (L : ParseResult) (text : Str) (remote : RemoteOutcome)
    (h : AddressIsLocal L remote) :
    (DeepSeekService.enhanceParsingWithAI L text remote).get "address".toList =
      .str L.address ∧
    (DeepSeekService.enhanceParsingWithAI L text remote).get "address_valid".toList =
      .bool L.address_valid := by
  have hLJ := And.intro (get_address_toJs L) (get_address_valid_toJs L)
  unfold DeepSeekService.enhanceParsingWithAI
  split_ifs with hskip
  · exact hLJ
  · rcases h with h | h | h
    · exfalso
      simp [DeepSeekService.skipsRemote, h.1, h.2] at hskip
    · subst h
      exact hLJ
    · cases hp : DeepSeekService.parseInstruction text remote with
      | none => exact hLJ
      | some d =>
        dsimp only
        split_ifs
        · exact hLJ
        · split
          · exact hLJ
          · rw [get_mergedResult, get_mergedResult, if_neg (by decide), if_neg (by decide),
              if_neg (fun hh => h hh.1), if_neg (by decide), if_neg (by decide),
              if_neg (fun hh => h hh.1)]
            exact hLJ

/-- A ready response carries the address of the enhanced parse result, which is
a string marked as valid. -/
theorem processMessage_ready_address (state : ConversationState) (userMessage : Str)
    (remote : RemoteOutcome)
    (h : (ChatbotService.processMessage state userMessage remote).1.transactionReady = true) :
    ∃ (a : Str) (td : TransactionData),
      (DeepSeekService.enhanceParsingWithAI (parseInstruction userMessage) userMessage
        remote).get "address".toList = .str a ∧
      ((DeepSeekService.enhanceParsingWithAI (parseInstruction userMessage) userMessage
        remote).get "address_valid".toList).truthy = true ∧
      (ChatbotService.processMessage state userMessage remote).1.transactionData = some td ∧
      td.toAddress = .str a := by
  revert h
  simp only [ChatbotService.processMessage]
  generalize DeepSeekService.enhanceParsingWithAI (parseInstruction userMessage)
    userMessage remote = pr
  generalize pr.get "intent".toList = vI
  generalize pr.get "need_clarification".toList = vN
  generalize pr.get "clarifying_questions".toList = vQ
  generalize pr.get "address_valid".toList = vV
  generalize pr.get "address".toList = vA
  generalize pr.get "amount".toList = vM
  generalize pr.get "chain".toList = vC
  generalize vM.get "numeric".toList = vX
  generalize vM.get "unit".toList = vU
  generalize vI.isString "send".toList = bI
  generalize vN.truthy = bN
  generalize vV.truthy = bV
  generalize vM.isNullish = bM
  generalize vX.isNull = bX
  generalize vX.throwsToString = tX
  generalize (vU.orElse (.str "TIA".toList)).throwsToString = tU
  generalize (vC.orElse (.str "celestia".toList)).throwsToString = tC
  intro h
  cases bI
  · simp at h
  cases bN
  swap
  · cases hq : vQ.spread <;> simp [hq] at h
  cases bV
  · simp at h
  cases hA : vA.truthy
  · simp [hA] at h
  cases bM
  swap
  · simp [hA] at h
  cases bX
  swap
  · simp [hA] at h
  cases tX
  swap
  · simp [hA] at h
  cases tU
  swap
  · simp [hA] at h
  cases vA with
  | str a =>
    cases tC
    · refine ⟨a, TransactionData.mk (.str a) vX (vU.orElse (.str "TIA".toList))
        (vC.orElse (.str "celestia".toList)), rfl, rfl, ?_, rfl⟩
      simp [hA]
    · simp [hA] at h
  | undefined => simp [hA] at h
  | null => simp [hA] at h
  | bool b => simp [hA] at h
  | num x => simp [hA] at h
  | nan => simp [hA] at h
  | inf b => simp [hA] at h
  | arr items => simp [hA] at h
  | obj fields => simp [hA] at h

/-- C24 as amended: a transfer intent emitted by `processMessage` carries an
address that passes `validateBech32Address` whenever the address of the
enhanced parse result is the local one: the remote service is not consulted,
no API key is configured, or the local confidence is at least 0.7. -/
theorem transferIntent_address (state : ConversationState) (userMessage : Str)
    (remote : RemoteOutcome)
    (hloc : AddressIsLocal (parseInstruction userMessage) remote)
    (h : (ChatbotService.processMessage state userMessage remote).1.transactionReady = true) :
    ∃ td : TransactionData,
      (ChatbotService.processMessage state userMessage remote).1.transactionData = some td ∧
      validateBech32AddressValue td.toAddress = true := by
  obtain ⟨a, td, h1, h2, h3, h4⟩ := processMessage_ready_address state userMessage remote h
  obtain ⟨g1, g2⟩ := enhanceParsingWithAI_address (parseInstruction userMessage) userMessage
    remote hloc
  rw [g1] at h1
  rw [g2] at h2
  simp only [JsVal.str.injEq] at h1
  simp only [JsVal.truthy] at h2
  refine ⟨td, h3, ?_⟩
  rw [h4, ← h1]
  exact (parseInstruction_valid h2).1

/-- Witness of C24 as amended: the example of the specification without an API
key. -/
theorem transferIntent_address_witness :
    ∃ td : TransactionData,
      (ChatbotService.processMessage ChatbotService.initialState
        "Envía 5 TIA a celestia16e3rskkaa8l7p92uny3pqh2c96mlkhq524aksf".toList
        .noApiKey).1.transactionData = some td ∧
      validateBech32AddressValue td.toAddress = true :=
  transferIntent_address ChatbotService.initialState
    "Envía 5 TIA a celestia16e3rskkaa8l7p92uny3pqh2c96mlkhq524aksf".toList .noApiKey
    (Or.inr (Or.inl rfl)) (by decide!)

/-- Counterexample to C24 as stated: for the message `Envía TIA` the remote
document replaces the local parse; it names the address `xyz` and marks it as
valid, and `processMessage` emits a transfer intent to `xyz`, which does not
pass `validateBech32Address`. -/
theorem transferIntent_address_counterexample :
    (ChatbotService.processMessage ChatbotService.initialState "Envía TIA".toList
      (.document (.obj [("intent".toList, .str "send".toList),
        ("need_clarification".toList, .bool false),
        ("address_valid".toList, .bool true),
        ("address".toList, .str "xyz".toList),
        ("amount".toList, .obj [("original".toList, .str "1 TIA".toList),
          ("numeric".toList, .num 1), ("unit".toList, .str "TIA".toList)])]))).1.transactionReady
      = true ∧
    (ChatbotService.processMessage ChatbotService.initialState "Envía TIA".toList
      (.document (.obj [("intent".toList, .str "send".toList),
        ("need_clarification".toList, .bool false),
        ("address_valid".toList, .bool true),
        ("address".toList, .str "xyz".toList),
        ("amount".toList, .obj [("original".toList, .str "1 TIA".toList),
          ("numeric".toList, .num 1), ("unit".toList, .str "TIA".toList)])]))).1.transactionData.map
        (fun td => td.toAddress.isString "xyz".toList) = some true ∧
    validateBech32AddressValue (.str "xyz".toList) = false := by
  decide!

/-! ## Searching from left to right -/

theorem prevAfter_cons (prev : Option Char) (c : Char) (pre : Str) :
    prevAfter prev (c :: pre) = prevAfter (some c) pre := by
  cases pre with
  | nil => rfl
  | cons d ds =>
    simp only [prevAfter]
    rw [List.getLast?_cons_cons]
    cases hl : List.getLast? (d :: ds) with
    | none => simp at hl
    | some z => rfl

theorem execFrom_of_head? {r : Rx} {prev : Option Char} {s : Str} {x : Str × Caps}
    (h : (r.run prev s).head? = some x) : r.execFrom prev s = some x := by
  cases s with
  | nil => simpa [Rx.execFrom] using h
  | cons c cs => simp [Rx.execFrom, h]

/-- When the pattern matches at no position of `pre`, the search goes on after
`pre`. -/
theorem execFrom_skip {r : Rx} {prev : Option Char} {pre post : Str}
    (h : ∀ a b : Str, pre = a ++ b → b ≠ [] → r.run (prevAfter prev a) (b ++ post) = []) :
    r.execFrom prev (pre ++ post) = r.execFrom (prevAfter prev pre) post := by
  induction pre generalizing prev with
  | nil => rfl
  | cons c cs ih =>
    have h0 := h [] (c :: cs) rfl (by simp)
    simp only [prevAfter_nil, List.cons_append] at h0
    rw [List.cons_append, Rx.execFrom, h0, prevAfter_cons]
    simp only [List.head?_nil]
    apply ih
    intro a b hab hb
    have := h (c :: a) b (by rw [hab]; rfl) hb
    rwa [prevAfter_cons] at this

theorem execFrom_isSome_of_suffix {r : Rx} {prev : Option Char} {pre post : Str}
    {x : Str × Caps} (h : x ∈ r.run (prevAfter prev pre) post) :
    (r.execFrom prev (pre ++ post)).isSome = true := by
  induction pre generalizing prev with
  | nil => exact execFrom_isSome_of_mem h
  | cons c cs ih =>
    simp only [List.cons_append, Rx.execFrom]
    cases hh : (r.run prev (c :: (cs ++ post))).head? with
    | some m => rfl
    | none =>
      rw [prevAfter_cons] at h
      exact ih h

theorem eqI_digit {p x : Char} (h : eqI p x = true) (hp : isDigit p = true) : x = p := by
  have hpu : isUpper p = false := by
    simp only [isDigit, isUpper, Bool.and_eq_true, decide_eq_true_eq, Bool.and_eq_false_iff,
      decide_eq_false_iff_not] at hp ⊢
    omega
  simp only [eqI, beq_iff_eq] at h
  rw [toLower_of_not_upper p hpu] at h
  by_cases hu : isUpper x = true
  · exfalso
    have hx : x.toLower.toNat = x.toNat + 32 := by
      simp only [isUpper, Bool.and_eq_true, decide_eq_true_eq] at hu
      unfold Char.toLower
      have h1 : x.toNat ≥ 65 ∧ x.toNat ≤ 90 := ⟨hu.1, hu.2⟩
      simp only [h1, and_self, if_true]
      generalize x.toNat = n at h1 ⊢
      have hv : (n + 32).isValidChar := by
        left; omega
      unfold Char.ofNat
      rw [dif_pos hv]
      simp [Char.ofNatAux, Char.toNat, UInt32.toNat]
    rw [h] at hx
    simp only [isDigit, isUpper, Bool.and_eq_true, decide_eq_true_eq] at hp hu
    omega
  · simp only [Bool.not_eq_true] at hu
    rw [toLower_of_not_upper x hu] at h
    exact h

/-! ## The leftmost bare number of a text -/

theorem stopsAt_dropWhile (p : Char → Bool) (s : Str) : StopsAt p (s.dropWhile p) := by
  induction s with
  | nil => intro c hc; simp at hc
  | cons a as ih =>
    by_cases h : p a = true
    · simpa [List.dropWhile, h] using ih
    · simp only [Bool.not_eq_true] at h
      intro c hc
      simp only [List.dropWhile, h, List.head?_cons, Option.mem_def, Option.some.injEq] at hc
      rw [← hc]; exact h

theorem takeWhile_eq_nil_of_stop {p : Char → Bool} {s : Str} (h : StopsAt p s) :
    s.takeWhile p = [] := by
  cases s with
  | nil => rfl
  | cons c cs =>
    have := h c (by simp)
    simp [List.takeWhile, this]

theorem stopsAt_of_takeWhile_eq_nil {p : Char → Bool} {s : Str} (h : s.takeWhile p = []) :
    StopsAt p s := by
  cases s with
  | nil => intro c hc; simp at hc
  | cons a as =>
    intro c hc
    simp only [List.head?_cons, Option.mem_def, Option.some.injEq] at hc
    subst hc
    by_cases ha : p a = true
    · simp [List.takeWhile, ha] at h
    · simpa using ha

theorem run_digits_eq_nil {prev : Option Char} {s : Str} (h : StopsAt isDigit s) :
    (Rx.cls isDigit 1 none).run prev s = [] := by
  simp [Rx.run, clsMax, takeWhile_eq_nil_of_stop h]

theorem run_rule3_eq_nil {prev : Option Char} {s : Str} (h : StopsAt isDigit s) :
    rule3.run prev s = [] := by
  have h0 : decimalRx.run prev s = [] := run_seq_eq_nil (run_digits_eq_nil h)
  rw [List.eq_nil_iff_forall_not_mem]
  intro y hy
  rw [rule3, mem_run_grp] at hy
  obtain ⟨x, hx, -⟩ := hy
  rw [h0] at hx
  simp at hx

theorem run_fraction_eq_nil {prev : Option Char} {t : Str} (ht : StopsAt isDigit t) :
    (Rx.seq (.oneOf false [['.']]) (.cls isDigit 1 none)).run prev ('.' :: t) = [] := by
  rw [List.eq_nil_iff_forall_not_mem]
  intro y hy
  rw [mem_run_seq] at hy
  obtain ⟨x, hx, z, hz, -⟩ := hy
  rw [mem_run_oneOf] at hx
  obtain ⟨w, hw, -, rfl⟩ := hx
  simp only [List.mem_singleton] at hw
  subst hw
  simp only [List.length_singleton, List.take_succ_cons, List.take_zero, List.drop_succ_cons,
    List.drop_zero] at hz
  rw [run_digits_eq_nil ht] at hz
  simp at hz

theorem head?_run_decimal_dot {prev : Option Char} {D t : Str} (hD : D ≠ [])
    (hDp : ∀ c ∈ D, isDigit c = true) (ht : StopsAt isDigit t) :
    (decimalRx.run prev (D ++ '.' :: t)).head? = some (D, []) := by
  have hlen : 1 ≤ D.length := by
    cases D with
    | nil => exact absurd rfl hD
    | cons d ds => simp
  have h1 : ((Rx.cls isDigit 1 none).run prev (D ++ '.' :: t)).head? = some (D, []) :=
    head?_run_cls hDp (by intro c hc; simp at hc; subst hc; decide) hlen
  have h2 := head?_run_seq (b := .opt (.seq (.oneOf false [['.']]) (.cls isDigit 1 none))) h1
    (z := ([], [])) (by
      apply head?_run_opt_none
      simp only [List.drop_left]
      exact run_fraction_eq_nil ht)
  simpa [decimalRx] using h2

theorem head?_run_decimal_frac {prev : Option Char} {D F1 R : Str} (hD : D ≠ [])
    (hDp : ∀ c ∈ D, isDigit c = true) (hF1 : F1 ≠ []) (hF1p : ∀ c ∈ F1, isDigit c = true)
    (hR1 : StopsAt isDigit R) :
    (decimalRx.run prev (D ++ '.' :: F1 ++ R)).head? = some (D ++ '.' :: F1, []) := by
  have hlen : 1 ≤ D.length := by
    cases D with
    | nil => exact absurd rfl hD
    | cons d ds => simp
  have hlen1 : 1 ≤ F1.length := by
    cases F1 with
    | nil => exact absurd rfl hF1
    | cons d ds => simp
  rw [List.append_assoc]
  have h1 : ((Rx.cls isDigit 1 none).run prev (D ++ ('.' :: F1 ++ R))).head? = some (D, []) :=
    head?_run_cls hDp (by intro c hc; simp at hc; subst hc; decide) hlen
  have h3 : ((Rx.cls isDigit 1 none).run (prevAfter (prevAfter prev D) ['.'])
      (F1 ++ R)).head? = some (F1, []) := head?_run_cls hF1p hR1 hlen1
  have h2 := head?_run_seq (b := .opt (.seq (.oneOf false [['.']]) (.cls isDigit 1 none))) h1
    (z := ('.' :: F1, [])) (by
      apply head?_run_opt_some
      simp only [List.drop_left, List.cons_append]
      have := @head?_run_seq (.oneOf false [['.']]) (.cls isDigit 1 none)
        (prevAfter prev D) ('.' :: (F1 ++ R)) _ (F1, []) head?_run_dot
        (by simpa using h3)
      simpa using this)
  simpa [decimalRx] using h2

/-- At a position where the text starts with a digit, the first match of
`\d+(?:\.\d+)?` is the whole run of digits with the fraction that follows it. -/
theorem head?_run_decimal_takeWhile {prev : Option Char} {s : Str}
    (h : s.takeWhile isDigit ≠ []) :
    ∃ F, IsDecimal (s.takeWhile isDigit) F ∧
      (decimalRx.run prev s).head? = some (s.takeWhile isDigit ++ F, []) := by
  have hs : s.takeWhile isDigit ++ s.dropWhile isDigit = s := List.takeWhile_append_dropWhile _ _
  have hDp : ∀ c ∈ s.takeWhile isDigit, isDigit c = true := fun c hc => List.mem_takeWhile_imp hc
  have hstop := stopsAt_dropWhile isDigit s
  generalize s.takeWhile isDigit = D at *
  generalize s.dropWhile isDigit = R at *
  subst hs
  cases R with
  | nil =>
    refine ⟨[], ⟨h, hDp, Or.inl rfl⟩, ?_⟩
    have := @head?_run_decimal prev D [] [] ⟨h, hDp, Or.inl rfl⟩ hstop (by simp)
    simpa using this
  | cons r R1 =>
    by_cases hr : r = '.'
    · subst hr
      have hs1 : R1.takeWhile isDigit ++ R1.dropWhile isDigit = R1 :=
        List.takeWhile_append_dropWhile _ _
      have hFp : ∀ c ∈ R1.takeWhile isDigit, isDigit c = true :=
        fun c hc => List.mem_takeWhile_imp hc
      have hstop1 := stopsAt_dropWhile isDigit R1
      by_cases hF : R1.takeWhile isDigit = []
      · refine ⟨[], ⟨h, hDp, Or.inl rfl⟩, ?_⟩
        have := @head?_run_decimal_dot prev D R1 h hDp (stopsAt_of_takeWhile_eq_nil hF)
        simpa using this
      · refine ⟨'.' :: R1.takeWhile isDigit, ⟨h, hDp, Or.inr ⟨_, rfl, hF, hFp⟩⟩, ?_⟩
        have := @head?_run_decimal_frac prev D (R1.takeWhile isDigit) (R1.dropWhile isDigit)
          h hDp hF hFp hstop1
        rw [List.append_assoc, List.cons_append, hs1] at this
        exact this
    · refine ⟨[], ⟨h, hDp, Or.inl rfl⟩, ?_⟩
      have := @head?_run_decimal prev D [] (r :: R1) ⟨h, hDp, Or.inl rfl⟩ hstop
        (by intro x hx; simp at hx; subst hx; exact hr)
      simpa using this

/-- In a text with a decimal digit, rule 3 matches first the first digit run
with the fraction that follows it. -/
theorem exec_rule3_of_digit {text : Str} (h : ∃ c ∈ text, isDigit c = true) :
    ∃ F, IsDecimal (firstDigitRun text) F ∧
      rule3.exec text = some (firstDigitRun text ++ F, [(1, firstDigitRun text ++ F)]) := by
  have hsplit : text.takeWhile (fun c => !isDigit c) ++ text.dropWhile (fun c => !isDigit c)
      = text := List.takeWhile_append_dropWhile _ _
  have hpre : ∀ c ∈ text.takeWhile (fun c => !isDigit c), isDigit c = false := by
    intro c hc
    simpa using List.mem_takeWhile_imp hc
  have hstop := stopsAt_dropWhile (fun c => !isDigit c) text
  unfold firstDigitRun
  generalize text.takeWhile (fun c => !isDigit c) = pre at *
  generalize text.dropWhile (fun c => !isDigit c) = post at *
  subst hsplit
  have hne : post.takeWhile isDigit ≠ [] := by
    cases post with
    | nil =>
      obtain ⟨c, hc, hd⟩ := h
      simp only [List.append_nil] at hc
      rw [hpre c hc] at hd
      cases hd
    | cons p ps =>
      have := hstop p (by simp)
      simp only [Bool.not_eq_false_eq_eq_true, Bool.not_eq_eq_eq_not, Bool.not_false] at this
      simp [List.takeWhile, this]
  obtain ⟨F, hF, hhead⟩ := @head?_run_decimal_takeWhile (prevAfter none pre) post hne
  refine ⟨F, hF, ?_⟩
  rw [Rx.exec, execFrom_skip]
  · apply execFrom_of_head?
    have := head?_run_grp (i := 1) hhead
    simpa [rule3] using this
  · intro a b hab hb
    apply run_rule3_eq_nil
    cases b with
    | nil => exact absurd rfl hb
    | cons c cs =>
      intro x hx
      simp only [List.cons_append, List.head?_cons, Option.mem_def, Option.some.injEq] at hx
      subst hx
      exact hpre _ (by rw [hab]; simp)

/-! ## An address in the text brings a digit and a unit -/

theorem lowerChar_digit {c : Char} (h : isDigit c = true) : lowerChar c = [c] := by
  unfold lowerChar
  simp only [isDigit, Bool.and_eq_true, decide_eq_true_eq] at h
  have h0 : ¬ (65 ≤ c.toNat ∧ c.toNat ≤ 90) := by omega
  have h1 : ¬ (192 ≤ c.toNat ∧ c.toNat ≤ 222 ∧ c.toNat ≠ 215) := by omega
  have h2 : ¬ c.toNat = 304 := by omega
  have h3 : ¬ c.toNat = 8490 := by omega
  simp [h0, h1, h2, h3]

theorem toLowerCase_append (a b : Str) :
    toLowerCase (a ++ b) = toLowerCase a ++ toLowerCase b := by
  induction a with
  | nil => rfl
  | cons c cs ih => simp [toLowerCase, ih]

theorem litMatches_toLowerCase {w s : Str} (h : litMatches true w s = true)
    (hw : ∀ p ∈ w, isLower p = true ∨ isDigit p = true) :
    toLowerCase (s.take w.length) = w := by
  induction w generalizing s with
  | nil => simp [toLowerCase]
  | cons p ps ih =>
    cases s with
    | nil => simp [litMatches] at h
    | cons x xs =>
      simp only [litMatches, Bool.and_eq_true, if_true] at h
      simp only [List.mem_cons, forall_eq_or_imp] at hw
      simp only [List.length_cons, List.take_succ_cons, toLowerCase, ih h.2 hw.2]
      have hx : lowerChar x = [p] := by
        rcases hw.1 with hp | hp
        · rw [lowerChar_letter (eqI_letter h.1 hp)]
          have hpu : isUpper p = false := by
            simp only [isLower, isUpper, Bool.and_eq_true, decide_eq_true_eq,
              Bool.and_eq_false_iff, decide_eq_false_iff_not] at hp ⊢
            omega
          have := h.1
          simp only [eqI, beq_iff_eq] at this
          rw [toLower_of_not_upper p hpu] at this
          rw [this]
        · rw [eqI_digit h.1 hp, lowerChar_digit hp]
      rw [hx]
      rfl

theorem litMatches_mem_digit {w s : Str} {p : Char} (h : litMatches true w s = true)
    (hp : p ∈ w) (hd : isDigit p = true) : p ∈ s := by
  induction w generalizing s with
  | nil => simp at hp
  | cons q qs ih =>
    cases s with
    | nil => simp [litMatches] at h
    | cons x xs =>
      simp only [litMatches, Bool.and_eq_true, if_true] at h
      rcases List.mem_cons.1 hp with rfl | hp1
      · rw [eqI_digit h.1 hd]; simp
      · exact List.mem_cons_of_mem _ (ih h.2 hp1)

theorem partialAddress_shape {prev : Option Char} {s : Str} {y : Str × Caps}
    (h : y ∈ partialAddressRx.run prev s) :
    ∃ w body : Str, (w = "celestia1".toList ∨ w = "mocha1".toList) ∧
      y.1 = s.take w.length ++ body ∧ litMatches true w s = true := by
  simp only [partialAddressRx, mem_run_grp, mem_run_alt] at h
  obtain ⟨x, hx, rfl⟩ := h
  rcases hx with hx | hx
  · obtain ⟨body, h1, h2, -⟩ := mem_run_prefixed hx
    exact ⟨_, body, Or.inl rfl, h1, h2⟩
  · obtain ⟨body, h1, h2, -⟩ := mem_run_prefixed hx
    exact ⟨_, body, Or.inr rfl, h1, h2⟩

/-- A text in which an address prefix stands, in any letter case, contains a
digit, and its lower case contains `tia` or `mocha`. -/
theorem digit_and_unit_of_prefix {pre post w : Str}
    (hw : w = "celestia1".toList ∨ w = "mocha1".toList) (hm : litMatches true w post = true) :
    (∃ c ∈ pre ++ post, isDigit c = true) ∧
    ("tia".toList <:+: toLowerCase (pre ++ post) ∨
      "mocha".toList <:+: toLowerCase (pre ++ post)) := by
  have hwp : ∀ p ∈ w, isLower p = true ∨ isDigit p = true := by
    rcases hw with rfl | rfl <;> decide
  have h1 : ('1' : Char) ∈ w := by
    rcases hw with rfl | rfl <;> decide
  have hlow := litMatches_toLowerCase hm hwp
  have hpost : post.take w.length ++ post.drop w.length = post := List.take_append_drop _ _
  refine ⟨⟨'1', List.mem_append_right _ (litMatches_mem_digit hm h1 (by decide)), by decide⟩, ?_⟩
  have hl : toLowerCase (pre ++ post) =
      toLowerCase pre ++ (w ++ toLowerCase (post.drop w.length)) := by
    rw [toLowerCase_append]
    nth_rewrite 1 [← hpost]
    rw [toLowerCase_append, hlow]
  rw [hl]
  rcases hw with rfl | rfl
  · left
    exact ⟨toLowerCase pre ++ "celes".toList,
      "1".toList ++ toLowerCase (post.drop "celestia1".toList.length), by simp⟩
  · right
    exact ⟨toLowerCase pre,
      "1".toList ++ toLowerCase (post.drop "mocha1".toList.length), by simp⟩

theorem digit_and_unit_of_address {text : Str}
    (h : (firstMatch fullAddressRx text).isSome = true ∨
      (firstMatch partialAddressRx text).isSome = true) :
    (∃ c ∈ text, isDigit c = true) ∧
    ("tia".toList <:+: toLowerCase text ∨ "mocha".toList <:+: toLowerCase text) := by
  rcases h with h | h
  · cases hx : fullAddressRx.exec text with
    | none => simp [firstMatch, hx] at h
    | some x =>
      obtain ⟨pre, post, rfl, hmem⟩ := execFrom_eq_some_split hx
      obtain ⟨w, body, hw, -, hm, -⟩ := fullAddress_shape hmem
      exact digit_and_unit_of_prefix hw hm
  · cases hx : partialAddressRx.exec text with
    | none => simp [firstMatch, hx] at h
    | some x =>
      obtain ⟨pre, post, rfl, hmem⟩ := execFrom_eq_some_split hx
      obtain ⟨w, body, hw, -, hm⟩ := partialAddress_shape hmem
      exact digit_and_unit_of_prefix hw hm

/-! ## The number read by rule 3 when rules 1 and 2 do not match -/

/-- C23 (amended): for a text with a send keyword in which the full or the
partial address pattern matches and neither rule 1 nor rule 2 matches, rule 3
matches first the first digit run of the text together with the fraction
`.digits` that follows it, if any; `amount.numeric` is the value of that decimal
(the value of the first digit run alone when no fraction follows), the unit is
the inferred `TIA` or `MOCHA`, `need_clarification` is false and no question is
raised. -/
theorem parseInstruction_bare_number (text : Str)
    (hs : ∃ k ∈ sendKeywords, k <:+: toLowerCase text)
    (ha : (firstMatch fullAddressRx text).isSome = true ∨
      (firstMatch partialAddressRx text).isSome = true)
    (h1 : firstMatch rule1 text = none) (h2 : firstMatch rule2 text = none) :
    ∃ F, IsDecimal (firstDigitRun text) F ∧
      firstMatch rule3 text = some (firstDigitRun text ++ F) ∧
      (parseInstruction text).amount.numeric = some (decimalNumber (firstDigitRun text) F) ∧
      (F = [] → (parseInstruction text).amount.numeric =
        some ((digitsValue (firstDigitRun text) : ℕ) : ℚ)) ∧
      ((parseInstruction text).amount.unit = some "TIA".toList ∨
        (parseInstruction text).amount.unit = some "MOCHA".toList) ∧
      (parseInstruction text).need_clarification = false ∧
      (parseInstruction text).clarifying_questions = [] := by
  have hsend := (hasSendIntent_iff text).2 hs
  obtain ⟨hdig, hunit⟩ := digit_and_unit_of_address ha
  obtain ⟨F, hF, hx⟩ := exec_rule3_of_digit hdig
  have r1 := firstMatch_eq_none h1
  have r2 := firstMatch_eq_none h2
  have hloop : amountLoop text patterns emptyAmount =
      { original := firstDigitRun text ++ F,
        numeric := some (decimalNumber (firstDigitRun text) F), unit := none } := by
    rw [patterns, amountLoop_of_no_match _ _ r1, amountLoop_of_no_match _ _ r2]
    exact amountLoop_of_decimal _ hx rfl hF
  have hnum : (extractAmount text).numeric = some (decimalNumber (firstDigitRun text) F) := by
    rw [extractAmount_numeric, hloop]
  have hu : (extractAmount text).unit = some "TIA".toList ∨
      (extractAmount text).unit = some "MOCHA".toList := by
    unfold extractAmount
    simp only [hloop, Option.isSome_some, unitMissing, Bool.and_self, if_true, includes_iff]
    by_cases ht : "tia".toList <:+: toLowerCase text
    · left; rw [if_pos ht]
    · right
      have hm := hunit.resolve_left ht
      rw [if_neg ht, if_pos hm]
  have haddr : (parseInstruction text).address ≠ [] := by
    cases hf : fullAddressRx.exec text with
    | some x =>
      rw [(parseInstruction_of_full hsend hf).1]
      exact fullAddress_ne_nil hf
    | none =>
      have hp : (firstMatch partialAddressRx text).isSome = true := by
        rcases ha with ha | ha
        · simp [firstMatch, hf] at ha
        · exact ha
      cases hpx : partialAddressRx.exec text with
      | none => simp [firstMatch, hpx] at hp
      | some m =>
        rw [( parseInstruction_of_partial hsend hf hpx).1]
        obtain ⟨prev, s, hm⟩ := exec_eq_some_mem hpx
        exact partialAddress_ne_nil hm
  have hamt := parseInstruction_amount hsend
  have hL := parseInstruction_send hsend
  generalize hr : chainFromText text
    { extractAddress text { initialResult text with intent := .send } with
      amount := extractAmount text } = r at hL
  have hra : r.address = (parseInstruction text).address := by rw [hL]; simp
  have hrm : r.amount = extractAmount text := by rw [← hr]; simp
  have hrq : r.clarifying_questions = [] := by
    rw [← hr, chainFromText_clarifying_questions]
    exact extractAddress_clarifying_questions _ _
  have hmiss : missingData r = [] := by
    have e1 : r.address.isEmpty = false := by
      cases h : r.address with
      | nil => rw [hra] at h; exact absurd h haddr
      | cons c cs => rfl
    have e2 : r.amount.numeric.isNone = false := by rw [hrm, hnum]; rfl
    have e3 : unitMissing r.amount.unit = false := by
      rw [hrm]; rcases hu with hu | hu <;> rw [hu] <;> rfl
    simp [missingData, e1, e2, e3]
  have hc := clarify_of_complete r hmiss
  refine ⟨F, hF, by simp [firstMatch, hx], by rw [hamt]; exact hnum, ?_,
    by rw [hamt]; exact hu, ?_, ?_⟩
  · rintro rfl
    rw [hamt, hnum]
    simp [decimalNumber, digitsValue]
  · rw [hL, penalise_need_clarification, hc]
  · rw [hL, penalise_clarifying_questions, hc]
    exact hrq

/-- Witness of C23 (amended): the two examples of the claim, in which the number
16 is read out of the address. -/
theorem parseInstruction_bare_number_witness :
    (∃ F, IsDecimal (firstDigitRun
        "Envía TIA a celestia16e3rskkaa8l7p92uny3pqh2c96mlkhq524aksf".toList) F ∧
      firstMatch rule3 "Envía TIA a celestia16e3rskkaa8l7p92uny3pqh2c96mlkhq524aksf".toList =
        some (firstDigitRun
          "Envía TIA a celestia16e3rskkaa8l7p92uny3pqh2c96mlkhq524aksf".toList ++ F) ∧
      (parseInstruction
        "Envía TIA a celestia16e3rskkaa8l7p92uny3pqh2c96mlkhq524aksf".toList).amount.numeric =
        some (decimalNumber (firstDigitRun
          "Envía TIA a celestia16e3rskkaa8l7p92uny3pqh2c96mlkhq524aksf".toList) F) ∧
      (parseInstruction
        "Envía TIA a celestia16e3rskkaa8l7p92uny3pqh2c96mlkhq524aksf".toList).need_clarification
        = false) ∧
    firstDigitRun "Envía TIA a celestia16e3rskkaa8l7p92uny3pqh2c96mlkhq524aksf".toList
      = "16".toList ∧
    (parseInstruction
      "Envía TIA a celestia16e3rskkaa8l7p92uny3pqh2c96mlkhq524aksf".toList).amount.numeric
      = some 16 ∧
    (parseInstruction
      "send five to celestia16e3rskkaa8l7p92uny3pqh2c96mlkhq524aksf".toList).amount.numeric
      = some 16 ∧
    amountQuestion ∉ (parseInstruction
      "send five to celestia16e3rskkaa8l7p92uny3pqh2c96mlkhq524aksf".toList).clarifying_questions :=
  have h := parseInstruction_bare_number
    "Envía TIA a celestia16e3rskkaa8l7p92uny3pqh2c96mlkhq524aksf".toList
    ⟨"envía".toList, by decide, by decide⟩ (Or.inl (by decide)) (by decide) (by decide)
  ⟨h.elim fun F hF => ⟨F, hF.1, hF.2.1, hF.2.2.1, hF.2.2.2.2.2.1⟩,
    by decide, by decide, by decide, by decide⟩

/-- Counterexample to C23 as stated: the text has a send keyword, the full
address pattern matches and neither rule 1 nor rule 2 does; the first digit run
of the text is `2`, and `amount.numeric` is 2.5, the value of the match `2.5` of
rule 3. -/
theorem parseInstruction_bare_number_counterexample :
    (∃ k ∈ sendKeywords, k <:+: toLowerCase
      "send 2.5 to celestia16e3rskkaa8l7p92uny3pqh2c96mlkhq524aksf".toList) ∧
    (firstMatch fullAddressRx
      "send 2.5 to celestia16e3rskkaa8l7p92uny3pqh2c96mlkhq524aksf".toList).isSome = true ∧
    firstMatch rule1 "send 2.5 to celestia16e3rskkaa8l7p92uny3pqh2c96mlkhq524aksf".toList
      = none ∧
    firstMatch rule2 "send 2.5 to celestia16e3rskkaa8l7p92uny3pqh2c96mlkhq524aksf".toList
      = none ∧
    firstDigitRun "send 2.5 to celestia16e3rskkaa8l7p92uny3pqh2c96mlkhq524aksf".toList
      = "2".toList ∧
    digitsValue (firstDigitRun
      "send 2.5 to celestia16e3rskkaa8l7p92uny3pqh2c96mlkhq524aksf".toList) = 2 ∧
    (parseInstruction
      "send 2.5 to celestia16e3rskkaa8l7p92uny3pqh2c96mlkhq524aksf".toList).amount.numeric
      = some (5 / 2) ∧
    (parseInstruction
      "send 2.5 to celestia16e3rskkaa8l7p92uny3pqh2c96mlkhq524aksf".toList).amount.numeric
      ≠ some ((digitsValue (firstDigitRun
        "send 2.5 to celestia16e3rskkaa8l7p92uny3pqh2c96mlkhq524aksf".toList) : ℕ) : ℚ) :=
  ⟨⟨"send".toList, by decide, by decide⟩, by decide, by decide, by decide, by decide,
    by decide, by decide!, by decide!⟩

/-! ## An address that is longer than the full pattern allows -/

theorem execFrom_of_indexFrom {r : Rx} {prev : Option Char} {pre post : Str}
    (h : r.indexFrom prev (pre ++ post) = some pre.length) :
    r.execFrom prev (pre ++ post) = (r.run (prevAfter prev pre) post).head? := by
  induction pre generalizing prev with
  | nil =>
    cases post with
    | nil => rfl
    | cons c cs =>
      change r.indexFrom prev (c :: cs) = some 0 at h
      rw [Rx.indexFrom] at h
      change r.execFrom prev (c :: cs) = (r.run prev (c :: cs)).head?
      rw [Rx.execFrom]
      cases hr : r.run prev (c :: cs) with
      | nil => simp [hr] at h
      | cons x xs => rfl
  | cons c cs ih =>
    rw [List.cons_append, Rx.indexFrom] at h
    cases hr : r.run prev (c :: (cs ++ post)) with
    | nil =>
      rw [hr] at h
      simp only [List.isEmpty_nil, if_true, List.length_cons, Option.map_eq_some'] at h
      obtain ⟨n, hn, hn1⟩ := h
      have hn2 : n = cs.length := by omega
      subst hn2
      rw [List.cons_append, Rx.execFrom, hr, prevAfter_cons]
      simp only [List.head?_nil]
      exact ih hn
    | cons x xs =>
      rw [hr] at h
      simp at h

theorem head?_run_cls_max {p : Char → Bool} {lo : Nat} {hi : Option Nat} {prev : Option Char}
    {s : Str} (h : lo ≤ clsMax p hi s) :
    ((Rx.cls p lo hi).run prev s).head? = some (s.take (clsMax p hi s), []) := by
  simp only [Rx.run]
  have h1 : ¬ clsMax p hi s < lo := by omega
  simp only [h1, if_false]
  have h2 : clsMax p hi s + 1 - lo = (clsMax p hi s - lo) + 1 := by omega
  rw [h2, List.range_succ_eq_map]
  simp

theorem litMatches_true_self (w t : Str) : litMatches true w (w ++ t) = true := by
  induction w with
  | nil => simp [litMatches]
  | cons p ps ih => simp [litMatches, eqI, ih]

theorem length_takeWhile_append {p : Char → Bool} {A B : Str} (hA : ∀ c ∈ A, p c = true) :
    A.length ≤ ((A ++ B).takeWhile p).length := by
  induction A with
  | nil => simp
  | cons a as ih =>
    simp only [List.mem_cons, forall_eq_or_imp] at hA
    simp [List.takeWhile, hA.1, ih hA.2]

theorem head?_run_prefixed_long {w body rest : Str} {prev : Option Char}
    (hb : ∀ c ∈ body, isLowerAlnum c = true) (hlen : 58 < body.length) :
    ((Rx.seq (.oneOf true [w]) (.cls isAlnumI 38 (some 58))).run prev
      (w ++ body ++ rest)).head? = some (w ++ body.take 58, []) := by
  have h1 : ((Rx.oneOf true [w]).run prev (w ++ body ++ rest)).head? = some (w, []) := by
    simp [Rx.run, List.append_assoc, litMatches_true_self]
  have hp : ∀ c ∈ body, isAlnumI c = true := by
    intro c hc
    have := hb c hc
    simp only [isLowerAlnum, isAlnumI, Bool.or_eq_true] at this ⊢
    tauto
  have hmax : clsMax isAlnumI (some 58) (body ++ rest) = 58 := by
    have := @length_takeWhile_append isAlnumI body rest hp
    simp only [clsMax]
    omega
  have h2 : ((Rx.cls isAlnumI 38 (some 58)).run (prevAfter prev w)
      ((w ++ body ++ rest).drop w.length)).head? = some (body.take 58, []) := by
    rw [List.append_assoc, List.drop_left, head?_run_cls_max (by rw [hmax]; omega), hmax,
      List.take_append_of_le_length (by omega)]
  have := head?_run_seq h1 h2
  simpa using this

theorem head?_run_fullAddress_long {w body rest : Str} {prev : Option Char}
    (hw : w = "celestia1".toList ∨ w = "mocha1".toList)
    (hb : ∀ c ∈ body, isLowerAlnum c = true) (hlen : 58 < body.length) :
    (fullAddressRx.run prev (w ++ body ++ rest)).head? =
      some (w ++ body.take 58, [(1, w ++ body.take 58)]) := by
  rcases hw with rfl | rfl
  · exact head?_run_grp (head?_run_alt_left (head?_run_prefixed_long hb hlen))
  · have h0 : (Rx.seq (.oneOf true ["celestia1".toList]) (.cls isAlnumI 38 (some 58))).run prev
        ("mocha1".toList ++ body ++ rest) = [] := by
      apply run_seq_eq_nil
      have hl : litMatches true "celestia1".toList ("mocha1".toList ++ body ++ rest) = false :=
        rfl
      rw [List.eq_nil_iff_forall_not_mem]
      intro y hy
      rw [mem_run_oneOf] at hy
      obtain ⟨w1, hw1, hm, -⟩ := hy
      simp only [List.mem_singleton] at hw1
      subst hw1
      rw [hl] at hm
      cases hm
    exact @head?_run_grp 1 _ prev _ ("mocha1".toList ++ body.take 58, []) (by
      rw [head?_run_alt_right h0]
      exact head?_run_prefixed_long hb hlen)

/-- C26 (amended): when the leftmost match of the full address pattern begins at
a prefix `celestia1` or `mocha1` that is followed by more than 58 lower-case
alphanumeric characters, the address of the result is the prefix and the first
58 of those characters, and it is valid; and every address extracted by the full
pattern is a prefix, in any letter case, followed by 38 to 58 alphanumeric
characters. -/
theorem parseInstruction_long_address (pre w body rest : Str)
    (hs : ∃ k ∈ sendKeywords, k <:+: toLowerCase (pre ++ (w ++ body ++ rest)))
    (hw : w = "celestia1".toList ∨ w = "mocha1".toList)
    (hb : ∀ c ∈ body, isLowerAlnum c = true) (hlen : 58 < body.length)
    (hi : fullAddressRx.index (pre ++ (w ++ body ++ rest)) = some pre.length) :
    ((parseInstruction (pre ++ (w ++ body ++ rest))).address = w ++ body.take 58 ∧
      (parseInstruction (pre ++ (w ++ body ++ rest))).address_valid = true) ∧
    ∀ text a : Str, firstMatch fullAddressRx text = some a →
      ∃ v p b : Str, (v = "celestia1".toList ∨ v = "mocha1".toList) ∧ a = p ++ b ∧
        toLowerCase p = v ∧ 38 ≤ b.length ∧ b.length ≤ 58 ∧ ∀ c ∈ b, isAlnumI c = true := by
  constructor
  · have hsend := (hasSendIntent_iff _).2 hs
    have hx : fullAddressRx.exec (pre ++ (w ++ body ++ rest)) =
        some (w ++ body.take 58, [(1, w ++ body.take 58)]) := by
      rw [Rx.exec, execFrom_of_indexFrom hi]
      exact head?_run_fullAddress_long hw hb hlen
    obtain ⟨h1, h2, -⟩ := parseInstruction_of_full hsend hx
    refine ⟨h1, ?_⟩
    rw [h2]
    apply validateBech32Address_of_shape hw
    · rw [List.length_take]; omega
    · intro c hc
      exact hb c (List.mem_of_mem_take hc)
  · intro text a ha
    obtain ⟨x, hx, rfl⟩ := firstMatch_eq_some ha
    obtain ⟨prev, s, hm⟩ := exec_eq_some_mem hx
    obtain ⟨v, b, hv, h1, h2, h3, h4, h5⟩ := fullAddress_shape hm
    refine ⟨v, s.take v.length, b, hv, h1, ?_, h3, h4, h5⟩
    apply litMatches_toLowerCase h2
    rcases hv with rfl | rfl <;> decide

/-- Witness of C26 (amended): an address with 60 characters after its prefix. -/
theorem parseInstruction_long_address_witness :
    (parseInstruction "send 1 tia to celestia1aaaaaaaaaaaaaaaaaaaaaaaaaaaaaaaaaaaaaaaaaaaaaaaaaaaaaaaaaaaa".toList).address =
      "celestia1".toList ++ List.take 58 "aaaaaaaaaaaaaaaaaaaaaaaaaaaaaaaaaaaaaaaaaaaaaaaaaaaaaaaaaaaa".toList ∧
    (parseInstruction "send 1 tia to celestia1aaaaaaaaaaaaaaaaaaaaaaaaaaaaaaaaaaaaaaaaaaaaaaaaaaaaaaaaaaaa".toList).address_valid = true ∧
    (parseInstruction "send 1 tia to celestia1aaaaaaaaaaaaaaaaaaaaaaaaaaaaaaaaaaaaaaaaaaaaaaaaaaaaaaaaaaaa".toList).address.length = 9 + 58 :=
  have h := (parseInstruction_long_address "send 1 tia to ".toList "celestia1".toList
    "aaaaaaaaaaaaaaaaaaaaaaaaaaaaaaaaaaaaaaaaaaaaaaaaaaaaaaaaaaaa".toList [] ⟨"send".toList, by decide, by decide⟩ (Or.inl rfl) (by decide) (by decide)
    (by decide)).1
  ⟨h.1, h.2, by decide⟩

/-- Counterexample to C26 as stated: the text has a send keyword and contains
`celestia1` followed by 59 lower-case alphanumeric characters, and the address
of the result is the `mocha1` address that stands before it. -/
theorem parseInstruction_long_address_counterexample :
    (∃ k ∈ sendKeywords, k <:+: toLowerCase "send 1 tia to mocha1aaaaaaaaaaaaaaaaaaaaaaaaaaaaaaaaaaaaaa or celestia1bbbbbbbbbbbbbbbbbbbbbbbbbbbbbbbbbbbbbbbbbbbbbbbbbbbbbbbbbbb".toList) ∧
    "send 1 tia to mocha1aaaaaaaaaaaaaaaaaaaaaaaaaaaaaaaaaaaaaa or celestia1bbbbbbbbbbbbbbbbbbbbbbbbbbbbbbbbbbbbbbbbbbbbbbbbbbbbbbbbbbb".toList = "send 1 tia to mocha1aaaaaaaaaaaaaaaaaaaaaaaaaaaaaaaaaaaaaa or ".toList ++ "celestia1".toList ++ "bbbbbbbbbbbbbbbbbbbbbbbbbbbbbbbbbbbbbbbbbbbbbbbbbbbbbbbbbbb".toList ∧
    (∀ c ∈ "bbbbbbbbbbbbbbbbbbbbbbbbbbbbbbbbbbbbbbbbbbbbbbbbbbbbbbbbbbb".toList, isLowerAlnum c = true) ∧
    58 < "bbbbbbbbbbbbbbbbbbbbbbbbbbbbbbbbbbbbbbbbbbbbbbbbbbbbbbbbbbb".toList.length ∧
    (parseInstruction "send 1 tia to mocha1aaaaaaaaaaaaaaaaaaaaaaaaaaaaaaaaaaaaaa or celestia1bbbbbbbbbbbbbbbbbbbbbbbbbbbbbbbbbbbbbbbbbbbbbbbbbbbbbbbbbbb".toList).address = "mocha1aaaaaaaaaaaaaaaaaaaaaaaaaaaaaaaaaaaaaa".toList ∧
    (parseInstruction "send 1 tia to mocha1aaaaaaaaaaaaaaaaaaaaaaaaaaaaaaaaaaaaaa or celestia1bbbbbbbbbbbbbbbbbbbbbbbbbbbbbbbbbbbbbbbbbbbbbbbbbbbbbbbbbbb".toList).address ≠ "celestia1".toList ++ List.take 58 "bbbbbbbbbbbbbbbbbbbbbbbbbbbbbbbbbbbbbbbbbbbbbbbbbbbbbbbbbbb".toList :=
  ⟨⟨"send".toList, by decide, by decide⟩, by decide, by decide, by decide, by decide,
    by decide⟩

/-! ## A comma as decimal separator -/

theorem litMatches_true_map {w s : Str} (hw : ∀ p ∈ w, isUpper p = false) :
    litMatches true w s = litMatches false w (s.map Char.toLower) := by
  induction w generalizing s with
  | nil => simp [litMatches]
  | cons p ps ih =>
    cases s with
    | nil => simp [litMatches]
    | cons x xs =>
      simp only [List.mem_cons, forall_eq_or_imp] at hw
      simp only [litMatches, if_true, Bool.false_eq_true, if_false, List.map_cons, eqI,
        toLower_of_not_upper p hw.1, ih hw.2]

/-- The first match of an alternation of words at a text that starts with one of
the words, in any letter case, when no earlier word of the alternation matches. -/
theorem head?_run_oneOf_first {l1 l2 : List Str} {u U rest : Str} {prev : Option Char}
    (hU : SameWord u U) (hlow : ∀ p ∈ u, isUpper p = false)
    (hl1 : ∀ v ∈ l1, litMatches true v (U ++ rest) = false) :
    ((Rx.oneOf true (l1 ++ u :: l2)).run prev (U ++ rest)).head? = some (U, []) := by
  have hm : litMatches true u (U ++ rest) = true := by
    rw [litMatches_true_map hlow, List.map_append, hU]
    exact litMatches_self _ _
  have hlen : U.length = u.length := by
    rw [← hU, List.length_map]
  have h1 : List.filterMap
      (fun w => if litMatches true w (U ++ rest) = true
        then some ((U ++ rest).take w.length, ([] : Caps)) else none) l1 = [] := by
    rw [List.filterMap_eq_nil_iff]
    intro v hv
    simp [hl1 v hv]
  simp only [Rx.run, List.filterMap_append, h1, List.nil_append, List.filterMap_cons, hm, if_true,
    List.head?_cons, ← hlen, List.take_left]

theorem head?_run_unit {u U rest : Str} {prev : Option Char} (hu : u ∈ unitWords)
    (hU : SameWord u U) :
    (unitRx.run prev (U ++ rest)).head? = some (U, [(2, U)]) := by
  have hmap : (U ++ rest).map Char.toLower = u ++ rest.map Char.toLower := by
    rw [List.map_append, hU]
  have key : ((Rx.oneOf true ["tia".toList, "mocha".toList, "utia".toList, "umocha".toList,
      "atom".toList, "uatom".toList]).run prev (U ++ rest)).head? = some (U, []) := by
    simp only [unitWords, List.mem_cons, List.mem_singleton, List.not_mem_nil, or_false] at hu
    rcases hu with rfl | rfl | rfl | rfl | rfl | rfl
    · exact @head?_run_oneOf_first [] _ _ U rest prev hU (by decide) (by simp)
    · refine @head?_run_oneOf_first ["tia".toList] _ _ U rest prev hU (by decide) ?_
      intro v hv
      simp only [List.mem_singleton] at hv
      subst hv
      rw [litMatches_true_map (by decide), hmap]
      rfl
    · refine @head?_run_oneOf_first ["tia".toList, "mocha".toList] _ _ U rest prev hU
        (by decide) ?_
      intro v hv
      simp only [List.mem_cons, List.mem_singleton, List.not_mem_nil, or_false] at hv
      rcases hv with rfl | rfl <;> rw [litMatches_true_map (by decide), hmap] <;> rfl
    · refine @head?_run_oneOf_first ["tia".toList, "mocha".toList, "utia".toList] _ _ U rest prev
        hU (by decide) ?_
      intro v hv
      simp only [List.mem_cons, List.mem_singleton, List.not_mem_nil, or_false] at hv
      rcases hv with rfl | rfl | rfl <;> rw [litMatches_true_map (by decide), hmap] <;> rfl
    · refine @head?_run_oneOf_first
        ["tia".toList, "mocha".toList, "utia".toList, "umocha".toList] _ _ U rest prev
        hU (by decide) ?_
      intro v hv
      simp only [List.mem_cons, List.mem_singleton, List.not_mem_nil, or_false] at hv
      rcases hv with rfl | rfl | rfl | rfl <;>
        rw [litMatches_true_map (by decide), hmap] <;> rfl
    · refine @head?_run_oneOf_first
        ["tia".toList, "mocha".toList, "utia".toList, "umocha".toList, "atom".toList] _ _ U rest
        prev hU (by decide) ?_
      intro v hv
      simp only [List.mem_cons, List.mem_singleton, List.not_mem_nil, or_false] at hv
      rcases hv with rfl | rfl | rfl | rfl | rfl <;>
        rw [litMatches_true_map (by decide), hmap] <;> rfl
  exact head?_run_grp (i := 2) key

theorem unitWord_letters {u U : Str} (hu : u ∈ unitWords) (hU : SameWord u U) : IsLetters U := by
  have hlow : ∀ v ∈ unitWords, ∀ p ∈ v, isLower p = true := by decide
  have hne : ∀ v ∈ unitWords, v ≠ [] := by decide
  exact ⟨sameWord_ne_nil hU (hne u hu), sameWord_letters hU (hlow u hu)⟩

/-- The first match of rule 1 at a run of digits followed by white space and a
unit token. -/
theorem head?_run_rule1 {d W U u rest : Str} {prev : Option Char} (hd : d ≠ [])
    (hdp : ∀ c ∈ d, isDigit c = true) (hW : ∀ c ∈ W, isSpace c = true)
    (hu : u ∈ unitWords) (hU : SameWord u U) :
    (rule1.run prev (d ++ (W ++ (U ++ rest)))).head? =
      some (d ++ (W ++ U), [(1, d), (2, U)]) := by
  have hL := unitWord_letters hu hU
  have hUhead : ∀ c ∈ (U ++ rest).head?, isLower c = true ∨ isUpper c = true := by
    intro c hc
    obtain ⟨hne, hp⟩ := hL
    cases U with
    | nil => exact absurd rfl hne
    | cons a as =>
      simp only [List.cons_append, List.head?_cons, Option.mem_def, Option.some.injEq] at hc
      subst hc
      exact hp _ (by simp)
  have hstop : ∀ c ∈ (W ++ (U ++ rest)).head?, isDigit c = false ∧ c ≠ '.' := by
    intro c hc
    cases W with
    | nil =>
      have := letter_props (hUhead c (by simpa using hc))
      exact ⟨this.2.1, this.2.2.2⟩
    | cons w ws =>
      simp only [List.cons_append, List.head?_cons, Option.mem_def, Option.some.injEq] at hc
      subst hc
      exact space_props (hW _ (by simp))
  have h1 : (decimalRx.run prev (d ++ [] ++ (W ++ (U ++ rest)))).head? = some (d ++ [], []) :=
    head?_run_decimal ⟨hd, hdp, Or.inl rfl⟩ (fun c hc => (hstop c hc).1)
      (fun c hc => (hstop c hc).2)
  rw [List.append_nil] at h1
  have h2 := head?_run_grp (i := 1) h1
  have h3 : ((Rx.cls isSpace 0 none).run (prevAfter prev d) (W ++ (U ++ rest))).head? =
      some (W, []) :=
    head?_run_cls hW (fun c hc => (letter_props (hUhead c hc)).2.2.1) (Nat.zero_le _)
  have h4 := @head?_run_unit u U rest (prevAfter (prevAfter prev d) W) hu hU
  have h5 := head?_run_seq (b := unitRx) h3 (by simpa using h4)
  have h6 := head?_run_seq (b := .seq (.cls isSpace 0 none) unitRx) h2 (by simpa using h5)
  simpa [rule1] using h6

theorem not_prefix_digits_comma {D b X t : Str} (hD : ∀ c ∈ D, isDigit c = true)
    (hb : ∀ c ∈ b, isDigit c = true) (hX : X ≠ [])
    (hh : ∀ h ∈ X.head?, isDigit h = false ∧ h ≠ ',') : ¬ (D ++ X <+: b ++ ',' :: t) := by
  induction D generalizing b with
  | nil =>
    cases X with
    | nil => exact absurd rfl hX
    | cons h X1 =>
      have hh1 := hh h (by simp)
      cases b with
      | nil =>
        intro hp
        simp only [List.nil_append, List.cons_prefix_cons] at hp
        exact hh1.2 hp.1
      | cons c b1 =>
        intro hp
        simp only [List.nil_append, List.cons_append, List.cons_prefix_cons] at hp
        have := hb c (by simp)
        rw [← hp.1, hh1.1] at this
        cases this
  | cons d D1 ih =>
    simp only [List.mem_cons, forall_eq_or_imp] at hD
    cases b with
    | nil =>
      intro hp
      simp only [List.nil_append, List.cons_append, List.cons_prefix_cons] at hp
      have := hD.1
      rw [hp.1] at this
      revert this
      decide
    | cons c b1 =>
      intro hp
      simp only [List.cons_append, List.cons_prefix_cons] at hp
      simp only [List.mem_cons, forall_eq_or_imp] at hb
      exact ih hD.2 hb.2 hp.2

/-- Rule 1 matches at no position of a text of digits that ends with a comma. -/
theorem run_rule1_eq_nil_of_comma {b t : Str} {prev : Option Char}
    (hb : ∀ c ∈ b, isDigit c = true) : rule1.run prev (b ++ ',' :: t) = [] := by
  rw [List.eq_nil_iff_forall_not_mem]
  intro y hy
  obtain ⟨D, F, W, U, h1, hDF, hW, hU⟩ := rule1_shape hy
  have hp := run_starts hy
  rw [h1, List.append_assoc, List.append_assoc] at hp
  refine not_prefix_digits_comma hDF.2.1 hb (X := F ++ (W ++ U)) ?_ ?_ hp
  · intro h0
    simp only [List.append_eq_nil] at h0
    exact hU.1 h0.2.2
  · intro h hh
    have hcomma : isSpace ',' = false ∧ isLower ',' = false ∧ isUpper ',' = false := by decide
    rcases hDF.2.2 with rfl | ⟨F1, rfl, -, -⟩
    · cases W with
      | nil =>
        have hl := hU.2 h (List.mem_of_mem_head? (by simpa using hh))
        refine ⟨(letter_props hl).2.1, ?_⟩
        rintro rfl
        rw [hcomma.2.1, hcomma.2.2] at hl
        simp at hl
      | cons w ws =>
        simp only [List.nil_append, List.cons_append, List.head?_cons, Option.mem_def,
          Option.some.injEq] at hh
        subst hh
        have hs := hW _ (List.mem_cons_self _ _)
        refine ⟨(space_props hs).1, ?_⟩
        rintro rfl
        rw [hcomma.1] at hs
        cases hs
    · simp only [List.cons_append, List.head?_cons, Option.mem_def, Option.some.injEq] at hh
      subst hh
      decide

theorem run_rule1_eq_nil_of_stop {s : Str} {prev : Option Char} (h : StopsAt isDigit s) :
    rule1.run prev s = [] := by
  rw [List.eq_nil_iff_forall_not_mem]
  intro y hy
  obtain ⟨D, F, W, U, h1, hDF, -, -⟩ := rule1_shape hy
  obtain ⟨t, ht⟩ := run_starts hy
  obtain ⟨hD, hDp, -⟩ := hDF
  cases D with
  | nil => exact absurd rfl hD
  | cons d D1 =>
    rw [h1] at ht
    have hd := hDp d (by simp)
    have := h d (by rw [← ht]; simp)
    rw [hd] at this
    cases this

/-- The leftmost match of rule 1 in a text `P d1,d2 W U ...` without a digit in
`P` is `d2 W U`. -/
theorem exec_rule1_comma {P d1 d2 W U u rest : Str} (hP : ∀ c ∈ P, isDigit c = false)
    (h1p : ∀ c ∈ d1, isDigit c = true) (h2 : d2 ≠ [])
    (h2p : ∀ c ∈ d2, isDigit c = true) (hW : ∀ c ∈ W, isSpace c = true)
    (hu : u ∈ unitWords) (hU : SameWord u U) :
    rule1.exec (P ++ ((d1 ++ [',']) ++ (d2 ++ (W ++ (U ++ rest))))) =
      some (d2 ++ (W ++ U), [(1, d2), (2, U)]) := by
  rw [Rx.exec, execFrom_skip, execFrom_skip]
  · exact execFrom_of_head? (head?_run_rule1 h2 h2p hW hu hU)
  · intro a b hab hb
    rw [List.append_eq_append_iff] at hab
    rcases hab with ⟨a1, -, hb1⟩ | ⟨c1, hc1, hb1⟩
    · have hb2 : b = [','] := by
        cases a1 with
        | nil => simpa using hb1.symm
        | cons x xs =>
          simp only [List.cons_append, List.cons.injEq] at hb1
          have := hb1.2.symm
          simp only [List.append_eq_nil] at this
          exact absurd this.2 hb
      rw [hb2, List.singleton_append]
      exact @run_rule1_eq_nil_of_comma [] _ _ (by simp)
    · have hbd : ∀ c ∈ c1, isDigit c = true := by
        intro c hc
        apply h1p
        rw [hc1]
        exact List.mem_append_right _ hc
      rw [hb1, List.append_assoc, List.singleton_append]
      exact run_rule1_eq_nil_of_comma hbd
  · intro a b hab hb
    apply run_rule1_eq_nil_of_stop
    cases b with
    | nil => exact absurd rfl hb
    | cons c cs =>
      intro x hx
      simp only [List.cons_append, List.head?_cons, Option.mem_def, Option.some.injEq] at hx
      subst hx
      exact hP _ (by rw [hab]; simp)

/-- C25: rule 1 accepts only `.` as decimal separator.  In a text
`P d1,d2 W U ...` where `P` has no digit, `d1` is a digit string, `d2` is a
non-empty digit string, `W` is white space and `U` is a unit token in any letter case,
`extractAmount` returns `d2 W U` as `amount.original` (without `d1` and the
comma), the value of `d2` alone as `amount.numeric`, and `U` as the unit. -/
theorem extractAmount_comma (P d1 d2 W U u rest : Str)
    (hP : ∀ c ∈ P, isDigit c = false)
    (h1p : ∀ c ∈ d1, isDigit c = true) (h2 : d2 ≠ [])
    (h2p : ∀ c ∈ d2, isDigit c = true) (hW : ∀ c ∈ W, isSpace c = true)
    (hu : u ∈ unitWords) (hU : SameWord u U) :
    firstMatch rule1 (P ++ ((d1 ++ [',']) ++ (d2 ++ (W ++ (U ++ rest))))) = some (d2 ++ (W ++ U)) ∧
    (extractAmount (P ++ ((d1 ++ [',']) ++ (d2 ++ (W ++ (U ++ rest)))))).original
      = d2 ++ (W ++ U) ∧
    (extractAmount (P ++ ((d1 ++ [',']) ++ (d2 ++ (W ++ (U ++ rest)))))).numeric
      = some ((digitsValue d2 : ℕ) : ℚ) ∧
    (extractAmount (P ++ ((d1 ++ [',']) ++ (d2 ++ (W ++ (U ++ rest)))))).unit = some U := by
  have hx := @exec_rule1_comma P d1 d2 W U u rest hP h1p h2 h2p hW hu hU
  have hL := unitWord_letters hu hU
  have hloop := @amountLoop_of_decimal_unit _ rule1 [rule2, rule3, rule4] _ d2 [] W U hx
    (by simp) ⟨h2, h2p, Or.inl rfl⟩ hW hL
  have hUe : unitMissing (some U) = false := by
    obtain ⟨hne, -⟩ := hL
    cases U with
    | nil => exact absurd rfl hne
    | cons a as => rfl
  have hamt : extractAmount (P ++ ((d1 ++ [',']) ++ (d2 ++ (W ++ (U ++ rest))))) =
      { original := d2 ++ [] ++ W ++ U, numeric := some (decimalNumber d2 []), unit := some U } := by
    unfold extractAmount
    rw [show patterns = [rule1, rule2, rule3, rule4] from rfl, hloop]
    simp only [hUe, Bool.and_false, Bool.false_eq_true, if_false]
  refine ⟨by rw [firstMatch, hx]; rfl, ?_, ?_, ?_⟩
  · rw [hamt]; simp
  · rw [hamt]; simp [decimalNumber, digitsValue]
  · rw [hamt]

/-- Witness of C25: the example of the claim, in which `0,5 TIA` is read as 5. -/
theorem extractAmount_comma_witness :
    (extractAmount
      "Envía 0,5 TIA a celestia16e3rskkaa8l7p92uny3pqh2c96mlkhq524aksf".toList).original
      = "5 TIA".toList ∧
    (extractAmount
      "Envía 0,5 TIA a celestia16e3rskkaa8l7p92uny3pqh2c96mlkhq524aksf".toList).numeric
      = some 5 ∧
    (extractAmount
      "Envía 0,5 TIA a celestia16e3rskkaa8l7p92uny3pqh2c96mlkhq524aksf".toList).unit
      = some "TIA".toList :=
  have h := extractAmount_comma "Envía ".toList "0".toList "5".toList " ".toList "TIA".toList
    "tia".toList " a celestia16e3rskkaa8l7p92uny3pqh2c96mlkhq524aksf".toList
    (by decide) (by decide) (by decide) (by decide) (by decide) (by decide)
    (by unfold SameWord; decide)
  ⟨h.2.1, h.2.2.1, h.2.2.2⟩

end AIniPay
